import Mathlib

/-!
# Consensus taxon selection (`aggregatetax.cpp`)

A shallow embedding of `selectTaxForSet` from
`lib/mmseqs/src/taxonomy/aggregatetax.cpp`.

Modelling conventions.

* `TaxID` is the C++ `int`; taxon ids are integers, `0` is "unassigned".
* `double` values are modelled by exact rationals: the additions of the
  accumulation loop and the quotient of line 108 are exact, their rounding to
  binary64 is not modelled.  The result of a `double` division is a
  `FloatVal`, which keeps the IEEE special results of dividing by zero (`NaN`,
  `+inf`, `-inf`) apart from the finite quotients.  The product
  `selectedPercent * 100` of lines 264 and 285 is rounded to binary64
  (`toDouble`): the rounding to hundredths that follows depends on it.
* The two conversions that the source writes out are modelled: the conversion
  to `unsigned int` of lines 85 and 94 (`toUnsignedInt`) and the conversion
  `float(it->second)` of line 108 (`toFloat`, IEEE 754 binary32, round to
  nearest, ties to even).  Every binary32 value is a `double`, so the way back
  from `float` to `double` is exact.
* `std::map<TaxID,double>` is a list of entries kept in ascending key order,
  which is the order in which the source iterates over it.
* The two `while` loops that follow parent links take a fuel argument that
  bounds the number of times the loop condition is evaluated.
* The taxonomy accessor `NcbiTaxonomy` is not part of the translated sources;
  its two operations used here, `taxonNode(id, false)` and `findRankIndex`,
  are fields of a record.
-/

namespace AggregateTax

/-- The C++ `TaxID` (an `int`). -/
abbrev TaxID := Int

/-- The C++ `INT_MAX`. -/
def INT_MAX : Int := 2147483647

/-- A node of the taxonomy (`TaxonNode`): the fields read by the translated code. -/
structure TaxonNode where
  taxId : TaxID
  parentTaxId : TaxID
  rank : String
  name : String
deriving DecidableEq

/-- The taxonomy accessor: `taxonNode id` is `NcbiTaxonomy::taxonNode(id, false)`
(`none` for `NULL`), `findRankIndex` is `NcbiTaxonomy::findRankIndex`. -/
structure NcbiTaxonomy where
  taxonNode : TaxID → Option TaxonNode
  findRankIndex : String → Int

/-- The C++ `struct taxHit`. -/
structure taxHit where
  taxon : TaxID
  evalue : ℚ
  weight : ℚ
deriving DecidableEq

/-- How a run of the translated code ends. -/
inductive Outcome (α : Type) where
  /-- the code returns -/
  | ok (a : α)
  /-- the code reaches `EXIT(EXIT_FAILURE)` -/
  | fatal
  /-- the code has no defined behaviour: it dereferences `NULL`, or converts a
  `double` outside the range of `unsigned int` to `unsigned int` -/
  | undefined
  /-- a lineage walk did not finish within the fuel -/
  | outOfFuel
deriving DecidableEq

/-- The result of a `double` division of two finite values. -/
inductive FloatVal where
  | nan
  | negInf
  | posInf
  | fin (q : ℚ)
deriving DecidableEq

/-- The quotient `a / b` of two finite doubles: `0/0` is `NaN`, `a/0` is an
infinity with the sign of `a`. -/
def fdiv (a b : ℚ) : FloatVal :=
  if b = 0 then
    if a = 0 then FloatVal.nan
    else if 0 < a then FloatVal.posInf
    else FloatVal.negInf
  else FloatVal.fin (a / b)

/-- The comparison `x > y` of doubles; false when either side is `NaN`. -/
def FloatVal.gt : FloatVal → FloatVal → Bool
  | .nan, _ => false
  | _, .nan => false
  | .negInf, _ => false
  | .posInf, .posInf => false
  | .posInf, _ => true
  | .fin _, .negInf => true
  | .fin _, .posInf => false
  | .fin a, .fin b => decide (b < a)

/-- The comparison `x >= y` of doubles; false when either side is `NaN`. -/
def FloatVal.ge : FloatVal → FloatVal → Bool
  | .nan, _ => false
  | _, .nan => false
  | .negInf, .negInf => true
  | .negInf, _ => false
  | .posInf, _ => true
  | .fin _, .negInf => true
  | .fin _, .posInf => false
  | .fin a, .fin b => decide (b ≤ a)

/-- The quotient `x / b` of a `float` value widened to `double` and a finite
double `b`; zero is the positive zero. -/
def FloatVal.divBy : FloatVal → ℚ → FloatVal
  | .nan, _ => FloatVal.nan
  | .negInf, b => if b < 0 then FloatVal.posInf else FloatVal.negInf
  | .posInf, b => if b < 0 then FloatVal.negInf else FloatVal.posInf
  | .fin a, b => fdiv a b

/-- The integer part of the binary logarithm of `n` (`0` for `n < 2`); the
first argument bounds the number of halvings. -/
def log2Floor : Nat → Nat → Nat
  | 0, _ => 0
  | fuel + 1, n => if n < 2 then 0 else log2Floor fuel (n / 2) + 1

/-- The integer nearest to `n / d`, the even one of the two when `n / d` lies
half-way between two integers. -/
def roundHalfEven (n d : Nat) : Nat :=
  let f := n / d
  let twice := 2 * (n % d)
  if twice < d then f else if d < twice then f + 1 else if f % 2 = 0 then f else f + 1

/-- Whether `n / d < 2 ^ k`. -/
def belowPow2 (n d : Nat) (k : Int) : Bool :=
  if 0 ≤ k then decide (n < d * 2 ^ k.toNat) else decide (n * 2 ^ (-k).toNat < d)

/-- The binary exponent of `n / d` for positive `n` and `d`: the integer `e`
with `2^e ≤ n / d < 2^(e+1)`. -/
def binaryExponent (n d : Nat) : Int :=
  let e0 : Int := (log2Floor n n : Int) - (log2Floor d d : Int)
  if belowPow2 n d e0 then e0 - 1 else e0

/-- The integer nearest to `(n / d) / 2^u`, the even one of the two on a tie. -/
def roundAtExponent (n d : Nat) (u : Int) : Nat :=
  if 0 ≤ u then roundHalfEven n (d * 2 ^ u.toNat) else roundHalfEven (n * 2 ^ (-u).toNat) d

/-- Whether `2^128 ≤ r * 2^u`: the value lies beyond the finite binary32 values. -/
def beyondFloatRange (r : Nat) (u : Int) : Bool :=
  if 0 ≤ u then decide (2 ^ 128 ≤ r * 2 ^ u.toNat) else decide (2 ^ 128 * 2 ^ (-u).toNat ≤ r)

/-- The value `r * 2^u`. -/
def timesPow2 (r : Nat) (u : Int) : ℚ :=
  if 0 ≤ u then mkRat ((r * 2 ^ u.toNat : Nat) : Int) 1 else mkRat (r : Int) (2 ^ (-u).toNat)

/-- The conversion `float(x)` of a finite `double` to IEEE 754 binary32 (24
significant bits, exponents from -126 to 127, subnormal values below), rounded
to the nearest value with ties to even: the magnitude `n / d` of binary
exponent `e` becomes a whole multiple of `2^u`, `u = max(e, -126) - 23`; a
value that rounds to `2^128` or beyond in magnitude becomes an infinity. -/
def toFloat (x : ℚ) : FloatVal :=
  if x = 0 then FloatVal.fin 0
  else
    let n := x.num.natAbs
    let d := x.den
    let e := binaryExponent n d
    let u : Int := (if e < -126 then -126 else e) - 23
    let r := roundAtExponent n d u
    if beyondFloatRange r u then (if 0 < x then FloatVal.posInf else FloatVal.negInf)
    else FloatVal.fin (if 0 < x then timesPow2 r u else -timesPow2 r u)

/-- Whether `2^1024 ≤ r * 2^u`, that is whether `r` is not zero and the integer
part of its binary logarithm plus `u` reaches `1024`: the value lies beyond the
finite binary64 values. -/
def beyondDoubleRange (r : Nat) (u : Int) : Bool :=
  decide (r ≠ 0 ∧ 1024 ≤ (log2Floor r r : Int) + u)

/-- The rounding of an exact result to `double`, IEEE 754 binary64 (53
significant bits, exponents from -1022 to 1023, subnormal values below), to the
nearest value with ties to even: the magnitude `n / d` of binary exponent `e`
becomes a whole multiple of `2^u`, `u = max(e, -1022) - 52`; a value that rounds
to `2^1024` or beyond in magnitude becomes an infinity. -/
def toDouble (x : ℚ) : FloatVal :=
  if x = 0 then FloatVal.fin 0
  else
    let n := x.num.natAbs
    let d := x.den
    let e := binaryExponent n d
    let u : Int := (if e < -1022 then -1022 else e) - 52
    let r := roundAtExponent n d u
    if beyondDoubleRange r u then (if 0 < x then FloatVal.posInf else FloatVal.negInf)
    else FloatVal.fin (if 0 < x then timesPow2 r u else -timesPow2 r u)

/-- The value of a `double` truncated toward zero. -/
def truncToZero (w : ℚ) : ℚ := ((Int.tdiv w.num (w.den : Int) : Int) : ℚ)

/-- The conversion of a `double` to `unsigned int`: defined when the value
truncated toward zero lies in `[0, 2^32)`, that is for `-1 < w < 2^32`. -/
def toUnsignedInt (w : ℚ) : Option ℚ :=
  if -1 < w ∧ w < 4294967296 then some (truncToZero w) else none

/-- The map `std::map<TaxID,double>`: its entries in ascending key order. -/
abbrev TaxMap := List (TaxID × ℚ)

/-- Lookup `std::map::find`: the value stored under `k`, if any. -/
def TaxMap.find : TaxMap → TaxID → Option ℚ
  | [], _ => none
  | (k', v) :: rest, k => if k = k' then some v else TaxMap.find rest k

/-- Insertion `std::map::insert`: a new entry at its place in key order; no
effect when the key is present. -/
def TaxMap.insert : TaxMap → TaxID → ℚ → TaxMap
  | [], k, v => [(k, v)]
  | (k', v') :: rest, k, v =>
    if k < k' then (k, v) :: (k', v') :: rest
    else if k = k' then (k', v') :: rest
    else (k', v') :: TaxMap.insert rest k v

/-- The update `m[k] += w` of an entry that is present. -/
def TaxMap.addAt : TaxMap → TaxID → ℚ → TaxMap
  | [], _, _ => []
  | (k', v) :: rest, k, w =>
    if k = k' then (k', v + w) :: rest else (k', v) :: TaxMap.addAt rest k w

/-- The block "add currWeight" (lines 82-86 and 91-95): `+=` on an entry that
is present, else insertion of a `std::pair<TaxID,unsigned int>`, which converts
the weight to `unsigned int`. -/
def addWeight (m : TaxMap) (k : TaxID) (w : ℚ) : Outcome TaxMap :=
  if (m.find k).isSome then Outcome.ok (m.addAt k w)
  else
    match toUnsignedInt w with
    | none => Outcome.undefined
    | some u => Outcome.ok (m.insert k u)

/-- The loop `while (currParentTaxId != currTaxId)` of lines 90-100: adds the
weight to every ancestor up to the root. -/
def ancestorsWalk (t : NcbiTaxonomy) (w : ℚ) : Nat → TaxMap → TaxID → TaxID → Outcome TaxMap
  | 0, _, _, _ => Outcome.outOfFuel
  | fuel + 1, m, currTaxId, currParentTaxId =>
    if currParentTaxId = currTaxId then Outcome.ok m
    else
      match addWeight m currParentTaxId w with
      | Outcome.ok m' =>
        match t.taxonNode currParentTaxId with
        | none => Outcome.undefined
        | some node => ancestorsWalk t w fuel m' currParentTaxId node.parentTaxId
      | Outcome.fatal => Outcome.fatal
      | Outcome.undefined => Outcome.undefined
      | Outcome.outOfFuel => Outcome.outOfFuel

/-- The variables written by the accumulation loop (lines 56-101). -/
structure AccState where
  ancTaxIdsCounts : TaxMap
  numAssignedSeqs : Nat
  numUnassignedSeqs : Nat
  totalAssignedSeqsWeights : ℚ
deriving DecidableEq

/-- The initial values of lines 56-63. -/
def AccState.init : AccState := ⟨[], 0, 0, 0⟩

/-- One iteration of the accumulation loop (lines 66-100). -/
def accumulateHit (t : NcbiTaxonomy) (fuel : Nat) (s : AccState) (h : taxHit) : Outcome AccState :=
  if h.taxon = 0 then
    Outcome.ok { s with numUnassignedSeqs := s.numUnassignedSeqs + 1 }
  else
    match t.taxonNode h.taxon with
    | none => Outcome.fatal
    | some node =>
      match addWeight s.ancTaxIdsCounts h.taxon h.weight with
      | Outcome.ok m =>
        match ancestorsWalk t h.weight fuel m h.taxon node.parentTaxId with
        | Outcome.ok m' =>
          Outcome.ok
            { ancTaxIdsCounts := m'
              numAssignedSeqs := s.numAssignedSeqs + 1
              numUnassignedSeqs := s.numUnassignedSeqs
              totalAssignedSeqsWeights := s.totalAssignedSeqsWeights + h.weight }
        | Outcome.fatal => Outcome.fatal
        | Outcome.undefined => Outcome.undefined
        | Outcome.outOfFuel => Outcome.outOfFuel
      | Outcome.fatal => Outcome.fatal
      | Outcome.undefined => Outcome.undefined
      | Outcome.outOfFuel => Outcome.outOfFuel

/-- The accumulation loop (lines 65-101) from a given state. -/
def accumulate (t : NcbiTaxonomy) (fuel : Nat) : AccState → List taxHit → Outcome AccState
  | s, [] => Outcome.ok s
  | s, h :: hs =>
    match accumulateHit t fuel s h with
    | Outcome.ok s' => accumulate t fuel s' hs
    | Outcome.fatal => Outcome.fatal
    | Outcome.undefined => Outcome.undefined
    | Outcome.outOfFuel => Outcome.outOfFuel

/-- The variables written by the selection loop (lines 104-121). -/
structure SelState where
  selctedTaxon : TaxID
  minRank : Int
  selectedPercent : FloatVal
deriving DecidableEq

/-- The initial values of lines 62, 104 and 105. -/
def SelState.init : SelState := ⟨0, INT_MAX, FloatVal.fin 0⟩

/-- One iteration of the selection loop (lines 108-120); `currPercent` is
`float(it->second) / totalAssignedSeqsWeights`. -/
def selectStep (t : NcbiTaxonomy) (majorityCutoff total : ℚ) (s : SelState) (e : TaxID × ℚ) :
    Outcome SelState :=
  let currPercent := (toFloat e.2).divBy total
  if currPercent.ge (FloatVal.fin majorityCutoff) then
    match t.taxonNode e.1 with
    | none => Outcome.undefined
    | some node =>
      let currRankInd := t.findRankIndex node.rank
      if 0 < currRankInd then
        if currRankInd < s.minRank ∨ (currRankInd = s.minRank ∧ currPercent.gt s.selectedPercent) then
          Outcome.ok ⟨e.1, currRankInd, currPercent⟩
        else Outcome.ok s
      else Outcome.ok s
  else Outcome.ok s

/-- The selection loop (lines 107-121) over the entries of the map. -/
def selectLoop (t : NcbiTaxonomy) (majorityCutoff total : ℚ) : SelState → TaxMap → Outcome SelState
  | s, [] => Outcome.ok s
  | s, e :: es =>
    match selectStep t majorityCutoff total s e with
    | Outcome.ok s' => selectLoop t majorityCutoff total s' es
    | Outcome.fatal => Outcome.fatal
    | Outcome.undefined => Outcome.undefined
    | Outcome.outOfFuel => Outcome.outOfFuel

/-- The loop `while (currParentTaxId != currTaxId)` of lines 144-152: `true`
when it leaves through `break`, that is when the hit is counted. -/
def agreeWalk (t : NcbiTaxonomy) (selctedTaxon : TaxID) : Nat → TaxID → TaxID → Outcome Bool
  | 0, _, _ => Outcome.outOfFuel
  | fuel + 1, currTaxId, currParentTaxId =>
    if currParentTaxId = currTaxId then Outcome.ok false
    else if currTaxId = selctedTaxon then Outcome.ok true
    else
      match t.taxonNode currParentTaxId with
      | none => Outcome.undefined
      | some node => agreeWalk t selctedTaxon fuel currParentTaxId node.parentTaxId

/-- The agreement loop (lines 134-153) from a given count. -/
def countAgree (t : NcbiTaxonomy) (fuel : Nat) (selctedTaxon : TaxID) :
    Nat → List taxHit → Outcome Nat
  | n, [] => Outcome.ok n
  | n, h :: hs =>
    if h.taxon = 0 then countAgree t fuel selctedTaxon n hs
    else
      match t.taxonNode h.taxon with
      | none => Outcome.undefined
      | some node =>
        match agreeWalk t selctedTaxon fuel h.taxon node.parentTaxId with
        | Outcome.ok b => countAgree t fuel selctedTaxon (if b then n + 1 else n) hs
        | Outcome.fatal => Outcome.fatal
        | Outcome.undefined => Outcome.undefined
        | Outcome.outOfFuel => Outcome.outOfFuel

/-- The return value and the four out-parameters of `selectTaxForSet`. -/
structure SetResult where
  selctedTaxon : TaxID
  numAssignedSeqs : Nat
  numUnassignedSeqs : Nat
  numSeqsAgreeWithSelectedTaxon : Nat
  selectedPercent : FloatVal
deriving DecidableEq

/-- The function `selectTaxForSet` (lines 53-156). -/
def selectTaxForSet (t : NcbiTaxonomy) (fuel : Nat) (setTaxa : List taxHit) (majorityCutoff : ℚ) :
    Outcome SetResult :=
  match accumulate t fuel AccState.init setTaxa with
  | Outcome.ok acc =>
    match selectLoop t majorityCutoff acc.totalAssignedSeqsWeights SelState.init
        acc.ancTaxIdsCounts with
    | Outcome.ok sel =>
      if sel.selctedTaxon = 1 then
        Outcome.ok ⟨sel.selctedTaxon, acc.numAssignedSeqs, acc.numUnassignedSeqs,
          acc.numAssignedSeqs, sel.selectedPercent⟩
      else if sel.selctedTaxon = 0 then
        Outcome.ok ⟨sel.selctedTaxon, acc.numAssignedSeqs, acc.numUnassignedSeqs, 0,
          sel.selectedPercent⟩
      else
        match countAgree t fuel sel.selctedTaxon 0 setTaxa with
        | Outcome.ok n =>
          Outcome.ok ⟨sel.selctedTaxon, acc.numAssignedSeqs, acc.numUnassignedSeqs, n,
            sel.selectedPercent⟩
        | Outcome.fatal => Outcome.fatal
        | Outcome.undefined => Outcome.undefined
        | Outcome.outOfFuel => Outcome.outOfFuel
    | Outcome.fatal => Outcome.fatal
    | Outcome.undefined => Outcome.undefined
    | Outcome.outOfFuel => Outcome.outOfFuel
  | Outcome.fatal => Outcome.fatal
  | Outcome.undefined => Outcome.undefined
  | Outcome.outOfFuel => Outcome.outOfFuel

/-! ## The weight of one hit (`taxHit::setByEntry`) -/

/-- The constants and library functions that `taxHit::setByEntry` reads and that
are not part of the translated sources: the column count
`Matcher::ALN_RES_WITHOUT_BT_COL_CNT`, the vote modes
`Parameters::AGG_TAX_UNIFORM` and `Parameters::AGG_TAX_MINUS_LOG_EVAL`, and the
C library functions `strtod(s, NULL)` and `log`. -/
structure Externals where
  ALN_RES_WITHOUT_BT_COL_CNT : Nat
  AGG_TAX_UNIFORM : Int
  AGG_TAX_MINUS_LOG_EVAL : Int
  strtod : String → ℚ
  log : ℚ → ℚ

/-- The constant `MAX_WEIGHT` of line 15. -/
def MAX_WEIGHT : ℚ := 1000

/-- The method `taxHit::setByEntry` (lines 18-46): the fatal test of line 26,
the e-value of lines 22 and 32-34, the weight of lines 23 and 37-45. The array
`taxHitData` is the list of the words the caller has set; reading an entry that
was not set has no defined behaviour. -/
def setByEntry (x : Externals) (taxonInput : TaxID) (useAln : Bool) (taxHitData : List String)
    (numCols : Nat) (voteMode : Int) : Outcome taxHit :=
  if taxonInput ≠ 0 ∧ numCols < x.ALN_RES_WITHOUT_BT_COL_CNT ∧ useAln = true then Outcome.fatal
  else
    match (if useAln = true then
        match taxHitData[3]? with
        | none => Outcome.undefined
        | some field => Outcome.ok (x.strtod field)
      else (Outcome.ok 1 : Outcome ℚ)) with
    | Outcome.ok evalue =>
      if voteMode = x.AGG_TAX_UNIFORM then Outcome.ok ⟨taxonInput, evalue, 1⟩
      else if voteMode = x.AGG_TAX_MINUS_LOG_EVAL then
        if 0 < evalue then Outcome.ok ⟨taxonInput, evalue, -(x.log evalue)⟩
        else Outcome.ok ⟨taxonInput, evalue, MAX_WEIGHT⟩
      else Outcome.ok ⟨taxonInput, evalue, 0⟩
    | Outcome.fatal => Outcome.fatal
    | Outcome.undefined => Outcome.undefined
    | Outcome.outOfFuel => Outcome.outOfFuel

/-! ## The record of one set (`aggregate`, lines 246-298) -/

/-- The functions that `aggregate` builds a record with and that are not part of
the translated sources: the macro `SSTR` at the types `int`, `size_t` and
`float`, the text `Util::implode(t->AtRanks(node, ranks), ';')`, and
`NcbiTaxonomy::taxLineage`. -/
structure RecordEnv where
  sstrInt : Int → String
  sstrSize : Nat → String
  sstrFloat : FloatVal → String
  lcaRanks : TaxonNode → List String → String
  taxLineage : TaxonNode → Bool → String

/-- The C function `roundf` on a finite value: the nearest integer, halves away
from zero. -/
def roundf (x : ℚ) : ℚ :=
  if 0 ≤ x then ((Int.tdiv (2 * x.num + x.den) (2 * x.den) : Int) : ℚ)
  else -((Int.tdiv (2 * (-x.num) + x.den) (2 * x.den) : Int) : ℚ)

/-- The expression `roundf(selectedPercent * 100) / 100` of lines 264 and 285.
The product is a `double` multiplication, whose result is the binary64 value
nearest to the exact product; `roundf` takes a `float`, so that `double` is
converted to single precision before it is rounded; the quotient by `100` is
a `float` division, whose result is the single-precision value nearest to the
exact quotient. -/
def roundedPercent : FloatVal → FloatVal
  | FloatVal.nan => FloatVal.nan
  | FloatVal.negInf => FloatVal.negInf
  | FloatVal.posInf => FloatVal.posInf
  | FloatVal.fin q =>
    match toDouble (q * 100) with
    | FloatVal.fin d =>
      match toFloat d with
      | FloatVal.fin y => toFloat (roundf y / 100)
      | other => other
    | other => other

/-- The text that lines 252-271 append to the empty `setTaxStr`: the record of a
set without consensus. -/
def noConsensusText (env : RecordEnv) (ranks : List String) (showTaxLineage : Int)
    (totalNumSeqs numAssignedSeqs numSeqsAgreeWithSelectedTaxon : Nat)
    (selectedPercent : FloatVal) : String :=
  let s0 := "" ++ env.sstrInt 0 ++ "\t" ++ "no rank" ++ "\t" ++ "unclassified" ++ "\t" ++
    env.sstrSize totalNumSeqs ++ "\t" ++ env.sstrSize numAssignedSeqs ++ "\t" ++
    env.sstrSize numSeqsAgreeWithSelectedTaxon ++ "\t" ++
    env.sstrFloat (roundedPercent selectedPercent)
  let s1 := if ranks ≠ [] then s0 ++ "\t" else s0
  if 0 < showTaxLineage then s1 ++ "\t" else s1

/-- The text that lines 273-296 append to the empty `setTaxStr`: the record of a
set with the selected node `node`. -/
def consensusText (env : RecordEnv) (ranks : List String) (showTaxLineage : Int)
    (node : TaxonNode) (totalNumSeqs numAssignedSeqs numSeqsAgreeWithSelectedTaxon : Nat)
    (selectedPercent : FloatVal) : String :=
  let s0 := "" ++ env.sstrInt node.taxId ++ "\t" ++ node.rank ++ "\t" ++ node.name ++ "\t" ++
    env.sstrSize totalNumSeqs ++ "\t" ++ env.sstrSize numAssignedSeqs ++ "\t" ++
    env.sstrSize numSeqsAgreeWithSelectedTaxon ++ "\t" ++
    env.sstrFloat (roundedPercent selectedPercent)
  let s1 := if ranks ≠ [] then s0 ++ ("\t" ++ env.lcaRanks node ranks) else s0
  let s2 := if showTaxLineage = 1 then s1 ++ ("\t" ++ env.taxLineage node true) else s1
  if showTaxLineage = 2 then s2 ++ ("\t" ++ env.taxLineage node false) else s2

/-- The record that `aggregate` writes for a set (lines 246-298) from the
outputs of `selectTaxForSet`. -/
def aggregateRecord (env : RecordEnv) (t : NcbiTaxonomy) (ranks : List String)
    (showTaxLineage : Int) (res : SetResult) : String :=
  let totalNumSeqs := res.numAssignedSeqs + res.numUnassignedSeqs
  let setTaxStr :=
    match t.taxonNode res.selctedTaxon with
    | none =>
      noConsensusText env ranks showTaxLineage totalNumSeqs res.numAssignedSeqs
        res.numSeqsAgreeWithSelectedTaxon res.selectedPercent
    | some node =>
      if res.selctedTaxon = 0 then
        noConsensusText env ranks showTaxLineage totalNumSeqs res.numAssignedSeqs
          res.numSeqsAgreeWithSelectedTaxon res.selectedPercent
      else
        consensusText env ranks showTaxLineage node totalNumSeqs res.numAssignedSeqs
          res.numSeqsAgreeWithSelectedTaxon res.selectedPercent
  setTaxStr ++ "\n"

/-! ## Lineages and the vocabulary of the claims -/

/-- The lineage of `id`: the ids from `id` up to the self-parent root, both
included; `none` when a lookup fails or the root is not reached within the
fuel. -/
def lineage (t : NcbiTaxonomy) : Nat → TaxID → Option (List TaxID)
  | 0, _ => none
  | fuel + 1, id =>
    match t.taxonNode id with
    | none => none
    | some node =>
      if node.parentTaxId = id then some [id]
      else (lineage t fuel node.parentTaxId).map (fun l => id :: l)

/-- The ids on the lineage of `id` (empty when the lineage is not defined). -/
def lineageOf (t : NcbiTaxonomy) (fuel : Nat) (id : TaxID) : List TaxID :=
  (lineage t fuel id).getD []

/-- Every node's lineage reaches a self-parent root. -/
def ReachesRoot (t : NcbiTaxonomy) : Prop :=
  ∀ id node, t.taxonNode id = some node → ∃ fuel, (lineage t fuel id).isSome = true

/-- A well-formed tree: id `0` names no node and every lineage reaches the root. -/
def WellFormed (t : NcbiTaxonomy) : Prop :=
  t.taxonNode 0 = none ∧ ReachesRoot t

/-- Every non-zero taxon of the hit list resolves in the tree. -/
def Resolves (t : NcbiTaxonomy) (setTaxa : List taxHit) : Prop :=
  ∀ h ∈ setTaxa, h.taxon ≠ 0 → (t.taxonNode h.taxon).isSome = true

/-- The weights of the assigned hits are in the range on which the conversion
to `unsigned int` is defined. -/
def WeightsConvertible (setTaxa : List taxHit) : Prop :=
  ∀ h ∈ setTaxa, h.taxon ≠ 0 → -1 < h.weight ∧ h.weight < 4294967296

/-- The weights of the assigned hits are whole numbers in `[0, 2^32)`. -/
def WeightsWhole (setTaxa : List taxHit) : Prop :=
  ∀ h ∈ setTaxa, h.taxon ≠ 0 → ∃ n : Nat, h.weight = (n : ℚ) ∧ n < 4294967296

/-- The assigned hits: those with a non-zero taxon. -/
def assignedHits (setTaxa : List taxHit) : List taxHit :=
  setTaxa.filter (fun h => decide (h.taxon ≠ 0))

/-- The sum of the weights of the assigned hits. -/
def assignedWeight (setTaxa : List taxHit) : ℚ :=
  ((assignedHits setTaxa).map (fun h => h.weight)).sum

/-- The sum of the weights of the assigned hits whose lineage contains `k`. -/
def lineageWeight (t : NcbiTaxonomy) (fuel : Nat) (setTaxa : List taxHit) (k : TaxID) : ℚ :=
  (((assignedHits setTaxa).filter (fun h => decide (k ∈ lineageOf t fuel h.taxon))).map
    (fun h => h.weight)).sum

/-- The value stored under `k`, `0` when `k` is not a key. -/
def TaxMap.valueAt (m : TaxMap) (k : TaxID) : ℚ := (m.find k).getD 0

/-- The node `k` passes the test of the selection loop: it is a key of the map,
the quotient `float(value) / total` that line 108 forms of its stored value
reaches the cutoff, and its rank has a positive rank-index.  This is the test
the code makes on what it stored, not the ratio of the accumulated weight and
the denominator; for that ratio see `QualifiesByWeight`. -/
def Qualifies (t : NcbiTaxonomy) (majorityCutoff : ℚ) (acc : AccState) (k : TaxID) : Prop :=
  ∃ v node, acc.ancTaxIdsCounts.find k = some v ∧ t.taxonNode k = some node ∧
    ((toFloat v).divBy acc.totalAssignedSeqsWeights).ge (FloatVal.fin majorityCutoff) = true ∧
    0 < t.findRankIndex node.rank

/-- The rank-index of the node `k` (`none` when `k` does not resolve). -/
def rankIndexOf (t : NcbiTaxonomy) (k : TaxID) : Option Int :=
  (t.taxonNode k).map (fun node => t.findRankIndex node.rank)

/-- The quotient `float(value) / total` that line 108 forms for the node `k`
(`none` when `k` is not a key): the fraction that the selection loop compares,
not the ratio of the accumulated weight and the denominator; for that ratio see
`accumulatedFraction`. -/
def fractionOf (acc : AccState) (k : TaxID) : Option FloatVal :=
  (acc.ancTaxIdsCounts.find k).map (fun v => (toFloat v).divBy acc.totalAssignedSeqsWeights)

/-- The accumulated fraction of the node `k` in the words of the specification:
the accumulated weight of `k`, the sum of the weights of the assigned hits whose
lineage holds `k`, divided by the denominator, the sum of the weights of all
assigned hits. -/
def accumulatedFraction (t : NcbiTaxonomy) (fuel : Nat) (setTaxa : List taxHit) (k : TaxID) :
    FloatVal :=
  fdiv (lineageWeight t fuel setTaxa k) (assignedWeight setTaxa)

/-- The node `k` is visited: it lies on the lineage of an assigned hit. -/
def Visited (t : NcbiTaxonomy) (fuel : Nat) (setTaxa : List taxHit) (k : TaxID) : Prop :=
  ∃ h ∈ assignedHits setTaxa, k ∈ lineageOf t fuel h.taxon

/-- The node `k` qualifies in the words of the specification: it is visited, its
accumulated fraction reaches the cutoff, and its rank has a positive
rank-index. -/
def QualifiesByWeight (t : NcbiTaxonomy) (fuel : Nat) (setTaxa : List taxHit)
    (majorityCutoff : ℚ) (k : TaxID) : Prop :=
  Visited t fuel setTaxa k ∧
    (accumulatedFraction t fuel setTaxa k).ge (FloatVal.fin majorityCutoff) = true ∧
    ∃ node, t.taxonNode k = some node ∧ 0 < t.findRankIndex node.rank

/-- The map after "add currWeight" when the conversion is defined. -/
def addWeightVal (w : ℚ) (m : TaxMap) (k : TaxID) : TaxMap :=
  if (m.find k).isSome then m.addAt k w else m.insert k (truncToZero w)

/-- The keys of the map are in strictly ascending order. -/
def KeysSorted (m : TaxMap) : Prop := (m.map Prod.fst).Pairwise (fun a b => a < b)

/-- The node `id` is a root: it resolves and is its own parent. -/
def IsRoot (t : NcbiTaxonomy) (id : TaxID) : Prop :=
  ∃ node, t.taxonNode id = some node ∧ node.parentTaxId = id

/-- The fuel suffices for the lineage of every assigned hit. -/
def FuelSuffices (t : NcbiTaxonomy) (fuel : Nat) (setTaxa : List taxHit) : Prop :=
  ∀ h ∈ setTaxa, h.taxon ≠ 0 → (lineage t fuel h.taxon).isSome = true

/-- The state after one iteration of the accumulation loop that runs to its end. -/
def accStep (t : NcbiTaxonomy) (fuel : Nat) (s : AccState) (h : taxHit) : AccState :=
  if h.taxon = 0 then { s with numUnassignedSeqs := s.numUnassignedSeqs + 1 }
  else
    { ancTaxIdsCounts := (lineageOf t fuel h.taxon).foldl (addWeightVal h.weight) s.ancTaxIdsCounts
      numAssignedSeqs := s.numAssignedSeqs + 1
      numUnassignedSeqs := s.numUnassignedSeqs
      totalAssignedSeqsWeights := s.totalAssignedSeqsWeights + h.weight }

/-- The state after an accumulation loop in which every iteration runs to its end. -/
def accPure (t : NcbiTaxonomy) (fuel : Nat) (s : AccState) (setTaxa : List taxHit) : AccState :=
  setTaxa.foldl (accStep t fuel) s

/-- The state `s` is `s0` or an improvement on it in the order of line 114. -/
def Improves (s0 s : SelState) : Prop :=
  s = s0 ∨ s.minRank < s0.minRank ∨
    (s.minRank = s0.minRank ∧ s.selectedPercent.gt s0.selectedPercent = true)

/-- The state `s` was written from an entry of `es` that passes both tests of
the selection loop. -/
def Chosen (t : NcbiTaxonomy) (majorityCutoff total : ℚ) (es : TaxMap) (s : SelState) : Prop :=
  ∃ v node, (s.selctedTaxon, v) ∈ es ∧ t.taxonNode s.selctedTaxon = some node ∧
    s.minRank = t.findRankIndex node.rank ∧ s.selectedPercent = (toFloat v).divBy total ∧
    ((toFloat v).divBy total).ge (FloatVal.fin majorityCutoff) = true ∧ 0 < t.findRankIndex node.rank

/-- The hits counted by the agreement loop: the assigned hits whose lineage
holds the selected taxon before the root. -/
def agreeingHits (t : NcbiTaxonomy) (fuel : Nat) (selctedTaxon : TaxID) (setTaxa : List taxHit) :
    List taxHit :=
  (assignedHits setTaxa).filter
    (fun h => decide (selctedTaxon ∈ (lineageOf t fuel h.taxon).dropLast))

/-! ## Further vocabulary of the claims -/

/-- Two hits agree on the taxon and, when the taxon is not `0`, on every field. -/
def SameAssigned (a b : taxHit) : Prop := a.taxon = b.taxon ∧ (a.taxon ≠ 0 → a = b)

/-- Two hit lists are equal except for the `evalue` and `weight` fields of the
hits with taxon `0`. -/
def SameExceptUnassigned (l1 l2 : List taxHit) : Prop := List.Forall₂ SameAssigned l1 l2

/-- The weights of the assigned hits are non-negative and in the range on which
the conversion to `unsigned int` is defined. -/
def WeightsNonneg (setTaxa : List taxHit) : Prop :=
  ∀ h ∈ setTaxa, h.taxon ≠ 0 → 0 ≤ h.weight ∧ h.weight < 4294967296

/-- The number of tab characters of a text. -/
def tabCount (s : String) : Nat := s.data.count '\t'

/-- The number of newline characters of a text. -/
def newlineCount (s : String) : Nat := s.data.count '\n'

/-- The text holds no tab. -/
def NoTab (s : String) : Prop := '\t' ∉ s.data

/-- The text holds no newline. -/
def NoNewline (s : String) : Prop := '\n' ∉ s.data

/-- The pieces of a text between its tabs. -/
def splitTab : List Char → List (List Char)
  | [] => [[]]
  | c :: cs =>
    if c = '\t' then [] :: splitTab cs
    else
      match splitTab cs with
      | [] => [[c]]
      | f :: fs => (c :: f) :: fs

/-- The tab-separated fields of a record: the pieces between the tabs of the
record without its last character. -/
def recordFields (s : String) : List String := (splitTab s.data.dropLast).map String.mk

/-- The fields that the record of a set without consensus ends with: an empty
field when ranks are requested, and an empty field when a lineage is shown. -/
def trailingFields (ranks : List String) (showTaxLineage : Int) : List String :=
  (if ranks ≠ [] then [""] else []) ++ (if 0 < showTaxLineage then [""] else [])

/-! ## The driver `aggregate` (lines 158-318) -/

/-- The value `EXIT_SUCCESS`. -/
def EXIT_SUCCESS : Int := 0

/-- What the database readers give for one member of a set (lines 220-231),
none of them part of the translated sources: the taxon
`Util::fast_atoi<int>(entry[0])` of the member, the array `entry` after the
line of the taxonomy assignment was split (line 224), and, for a run with
alignments, the array `entry` after the alignment line was split into
`numCols` words (line 230). -/
structure SetMember where
  taxon : TaxID
  taxEntry : List String
  alnEntry : List String
  alnNumCols : Nat

/-- The pointer `alnSeqReader` after lines 174-178: `none` is `NULL`. -/
def openAlnSeqReader (useAln : Bool) : Option Unit :=
  if useAln = true then some () else none

/-- The hit of one member (lines 223-235); the call of line 229 goes through
the pointer `alnSeqReader`. -/
def memberHit (x : Externals) (useAln : Bool) (alnSeqReader : Option Unit) (voteMode : Int)
    (m : SetMember) : Outcome taxHit :=
  if useAln = true then
    match alnSeqReader with
    | none => Outcome.undefined
    | some _ => setByEntry x m.taxon useAln m.alnEntry m.alnNumCols voteMode
  else setByEntry x m.taxon useAln m.taxEntry 0 voteMode

/-- The loop of lines 219-237: the hits of the members of one set, appended to
`setTaxa`. -/
def collectHits (x : Externals) (useAln : Bool) (alnSeqReader : Option Unit) (voteMode : Int) :
    List taxHit → List SetMember → Outcome (List taxHit)
  | setTaxa, [] => Outcome.ok setTaxa
  | setTaxa, m :: ms =>
    match memberHit x useAln alnSeqReader voteMode m with
    | Outcome.ok currTaxHit =>
      collectHits x useAln alnSeqReader voteMode (setTaxa ++ [currTaxHit]) ms
    | Outcome.fatal => Outcome.fatal
    | Outcome.undefined => Outcome.undefined
    | Outcome.outOfFuel => Outcome.outOfFuel

/-- One iteration of the loop over the sets (lines 211-305): the record written
for the set. -/
def aggregateSet (x : Externals) (env : RecordEnv) (t : NcbiTaxonomy) (fuel : Nat)
    (useAln : Bool) (alnSeqReader : Option Unit) (voteMode : Int) (majorityThr : ℚ)
    (ranks : List String) (showTaxLineage : Int) (members : List SetMember) : Outcome String :=
  match collectHits x useAln alnSeqReader voteMode [] members with
  | Outcome.ok setTaxa =>
    match selectTaxForSet t fuel setTaxa majorityThr with
    | Outcome.ok res => Outcome.ok (aggregateRecord env t ranks showTaxLineage res)
    | Outcome.fatal => Outcome.fatal
    | Outcome.undefined => Outcome.undefined
    | Outcome.outOfFuel => Outcome.outOfFuel
  | Outcome.fatal => Outcome.fatal
  | Outcome.undefined => Outcome.undefined
  | Outcome.outOfFuel => Outcome.outOfFuel

/-- The loop over the sets (lines 211-305): the records written, each with the
key of its set. -/
def aggregateSets (x : Externals) (env : RecordEnv) (t : NcbiTaxonomy) (fuel : Nat)
    (useAln : Bool) (alnSeqReader : Option Unit) (voteMode : Int) (majorityThr : ℚ)
    (ranks : List String) (showTaxLineage : Int) :
    List (Nat × List SetMember) → Outcome (List (Nat × String))
  | [] => Outcome.ok []
  | (setKey, members) :: rest =>
    match aggregateSet x env t fuel useAln alnSeqReader voteMode majorityThr ranks
        showTaxLineage members with
    | Outcome.ok setTaxStr =>
      match aggregateSets x env t fuel useAln alnSeqReader voteMode majorityThr ranks
          showTaxLineage rest with
      | Outcome.ok written => Outcome.ok ((setKey, setTaxStr) :: written)
      | Outcome.fatal => Outcome.fatal
      | Outcome.undefined => Outcome.undefined
      | Outcome.outOfFuel => Outcome.outOfFuel
    | Outcome.fatal => Outcome.fatal
    | Outcome.undefined => Outcome.undefined
    | Outcome.outOfFuel => Outcome.outOfFuel

/-- The function `aggregate` (lines 158-318) on the sets that the readers give:
the exit status and the records written. The parameters `voteMode`,
`majorityThr`, `showTaxLineage` and the parsed `lcaRanks` are arguments; the
fatal test of lines 186-189, the loop over the sets, and the call
`alnSeqReader->close()` of line 312, which goes through the pointer whatever
`useAln` is. -/
def aggregate (x : Externals) (env : RecordEnv) (t : NcbiTaxonomy) (fuel : Nat) (useAln : Bool)
    (voteMode : Int) (majorityThr : ℚ) (ranks : List String) (showTaxLineage : Int)
    (sets : List (Nat × List SetMember)) : Outcome (Int × List (Nat × String)) :=
  let alnSeqReader := openAlnSeqReader useAln
  if useAln ≠ true ∧ voteMode = x.AGG_TAX_MINUS_LOG_EVAL then Outcome.fatal
  else
    match aggregateSets x env t fuel useAln alnSeqReader voteMode majorityThr ranks
        showTaxLineage sets with
    | Outcome.ok written =>
      match alnSeqReader with
      | none => Outcome.undefined
      | some _ => Outcome.ok (EXIT_SUCCESS, written)
    | Outcome.fatal => Outcome.fatal
    | Outcome.undefined => Outcome.undefined
    | Outcome.outOfFuel => Outcome.outOfFuel

/-- The entry point `aggregatetax` (lines 324-326). -/
def aggregatetax (x : Externals) (env : RecordEnv) (t : NcbiTaxonomy) (fuel : Nat)
    (voteMode : Int) (majorityThr : ℚ) (ranks : List String) (showTaxLineage : Int)
    (sets : List (Nat × List SetMember)) : Outcome (Int × List (Nat × String)) :=
  aggregate x env t fuel false voteMode majorityThr ranks showTaxLineage sets

/-- The entry point `aggregatetaxweights` (lines 320-322). -/
def aggregatetaxweights (x : Externals) (env : RecordEnv) (t : NcbiTaxonomy) (fuel : Nat)
    (voteMode : Int) (majorityThr : ℚ) (ranks : List String) (showTaxLineage : Int)
    (sets : List (Nat × List SetMember)) : Outcome (Int × List (Nat × String)) :=
  aggregate x env t fuel true voteMode majorityThr ranks showTaxLineage sets

/-! ## Joining the exons of a prediction (`unitesetstofasta.cpp`)

A shallow embedding of `preparePredDataAndHeader`
(`src/exonpredictor/unitesetstofasta.cpp`, lines 25-131) and of the test that
its caller makes on the joined exons (lines 291-297).

* The C++ `int` values are integers; an `int` operation whose result leaves
  the range of `int` has no defined behaviour.
* The buffer `contigData` is the list of the characters that may be read;
  a read outside it has no defined behaviour.
* The two streams are the texts written to them.
* The declarations of `Prediction`, of its exons and of the strand constants
  `PLUS` and `MINUS`, the function `Orf::complement` and the way a stream
  prints a number are not part of the translated sources; they are taken as
  records of fields and as parameters.
-/

/-- The C++ `INT_MIN`. -/
def INT_MIN : Int := -2147483648

/-- Sequencing of two steps: the second step runs when the first one returns. -/
def Outcome.bind {α β : Type} (o : Outcome α) (f : α → Outcome β) : Outcome β :=
  match o with
  | Outcome.ok a => f a
  | Outcome.fatal => Outcome.fatal
  | Outcome.undefined => Outcome.undefined
  | Outcome.outOfFuel => Outcome.outOfFuel

/-- The result of an `int` operation: undefined when it overflows. -/
def checkedInt (v : Int) : Outcome Int :=
  if INT_MIN ≤ v ∧ v ≤ INT_MAX then Outcome.ok v else Outcome.undefined

/-- The C function `abs` on an `int`. -/
def absInt (v : Int) : Outcome Int := checkedInt (if v < 0 then -v else v)

/-- The conversion `(int)` of a `size_t` value: the value modulo `2^32`, read
as a two's complement number. -/
def sizeToInt (n : Nat) : Int :=
  if n % 4294967296 < 2147483648 then ((n % 4294967296 : Nat) : Int)
  else ((n % 4294967296 : Nat) : Int) - 4294967296

/-- The strand constants `PLUS` and `MINUS`. -/
structure StrandConsts where
  PLUS : Int
  MINUS : Int

/-- How a stream prints an `int`, a `double` and a `size_t`. -/
structure StreamEnv where
  streamInt : Int → String
  streamDouble : ℚ → String
  streamSize : Nat → String

/-- An element of `Prediction::optimalExonSet`: the fields read by the
translated code. -/
structure Exon where
  targetMatchStart : Int
  targetMatchEnd : Int
  contigStart : Int
  contigEnd : Int
  nucleotideLen : Int
  potentialExonContigStartBeforeTrim : Int
  potentialExonContigEndBeforeTrim : Int
  strand : Int

/-- The class `Prediction`: the fields read by the translated code. -/
structure Prediction where
  optimalExonSet : List Exon
  strand : Int
  totalBitscore : Int
  combinedEvalue : ℚ
  numExons : Nat
  lowContigCoord : Int
  highContigCoord : Int

/-- The text `std::string(&contigData[start], (size_t)len)`: the `len`
characters from position `start` of the buffer. -/
def contigSegment (contigData : List Char) (start len : Int) : Outcome String :=
  if 0 ≤ start ∧ 0 ≤ len ∧ start + len ≤ (contigData.length : Int) then
    Outcome.ok (String.mk ((contigData.drop start.toNat).take len.toNat))
  else Outcome.undefined

/-- The function `reverseComplement` (lines 17-23) on a copy of the sequence:
character `i` of the result is the complement of character `n - i - 1`. -/
def reverseComplement (complement : Char → Char) (seq : String) : String :=
  String.mk (seq.data.reverse.map complement)

/-- Lines 67-73: the start and the length of the exon after the codons that
overlap the previous exon on the target are removed. -/
def trimExon (lastTargetPosMatched : Int) (e : Exon) : Outcome (Int × Int) :=
  if lastTargetPosMatched ≥ e.targetMatchStart then
    (checkedInt (lastTargetPosMatched - e.targetMatchStart)).bind fun a =>
    (checkedInt (a + 1)).bind fun diffInAAs =>
    (checkedInt (3 * diffInAAs)).bind fun three =>
    (checkedInt (e.contigStart + three)).bind fun exonAdjustedContigStart =>
    (checkedInt (e.nucleotideLen - three)).bind fun exonAdjustedNucleotideLen =>
    Outcome.ok (exonAdjustedContigStart, exonAdjustedNucleotideLen)
  else Outcome.ok (e.contigStart, e.nucleotideLen)

/-- The text that lines 82-91 write to the header stream for one exon. -/
def exonHeader (fmt : StreamEnv) (writeFragCoords : Int) (e : Exon)
    (absStart absAdjustedStart absEnd exonAdjustedNucleotideLen : Int) : String :=
  "|" ++
    (if writeFragCoords = 1 then
      "[" ++ fmt.streamInt e.potentialExonContigStartBeforeTrim ++ "]" else "") ++
    fmt.streamInt absStart ++ "[" ++ fmt.streamInt absAdjustedStart ++ "]:" ++
    (if writeFragCoords = 1 then
      "[" ++ fmt.streamInt e.potentialExonContigEndBeforeTrim ++ "]" else "") ++
    fmt.streamInt absEnd ++ "[" ++ fmt.streamInt absEnd ++ "]:" ++
    fmt.streamInt e.nucleotideLen ++ "[" ++ fmt.streamInt exonAdjustedNucleotideLen ++ "]"

/-- The loop over the exons (lines 50-100): from the last target position
matched and the two streams to the two streams after the loop. -/
def exonsLoop (c : StrandConsts) (fmt : StreamEnv) (complement : Char → Char)
    (predStrand : Int) (contigData : List Char) (writeFragCoords : Int) :
    Int → String → String → List Exon → Outcome (String × String)
  | _, joinedHeader, joinedExons, [] => Outcome.ok (joinedHeader, joinedExons)
  | lastTargetPosMatched, joinedHeader, joinedExons, e :: es =>
    if predStrand = c.MINUS ∧ (0 < e.contigStart ∨ 0 < e.contigEnd) then Outcome.fatal
    else
      (trimExon lastTargetPosMatched e).bind fun adjusted =>
      (if predStrand = c.PLUS then Outcome.ok adjusted.1
        else checkedInt (-1 * e.contigEnd)).bind fun lowContigCoord =>
      (contigSegment contigData lowContigCoord adjusted.2).bind fun exonContigSeq =>
      (absInt e.contigStart).bind fun absStart =>
      (absInt adjusted.1).bind fun absAdjustedStart =>
      (absInt e.contigEnd).bind fun absEnd =>
      exonsLoop c fmt complement predStrand contigData writeFragCoords e.targetMatchEnd
        (joinedHeader ++ exonHeader fmt writeFragCoords e absStart absAdjustedStart absEnd
          adjusted.2)
        (joinedExons ++
          (if predStrand = c.PLUS then exonContigSeq
            else reverseComplement complement exonContigSeq))
        es

/-- Lines 103-127: the stop codon written after the last exon, the empty text
when none is written. -/
def stopCodon (c : StrandConsts) (complement : Char → Char) (contigData : List Char)
    (writeFragCoords : Int) (contigLen : Nat) (lastExon : Exon) : Outcome String :=
  if writeFragCoords = 1 then
    (absInt lastExon.contigEnd).bind fun absEnd =>
      if lastExon.potentialExonContigEndBeforeTrim = absEnd then
        (if lastExon.strand = c.PLUS then
            checkedInt (lastExon.potentialExonContigEndBeforeTrim + 1)
          else checkedInt (lastExon.potentialExonContigEndBeforeTrim - 3)).bind
          fun stopCodonPosition =>
            if stopCodonPosition ≤ sizeToInt ((contigLen + 18446744073709551616 - 2) %
                18446744073709551616) ∧ 0 ≤ stopCodonPosition then
              (contigSegment contigData stopCodonPosition 3).bind fun stopCodonSeq =>
                Outcome.ok (if lastExon.strand = c.PLUS then stopCodonSeq
                  else reverseComplement complement stopCodonSeq)
            else Outcome.ok ""
      else Outcome.ok ""
  else Outcome.ok ""

/-- The function `preparePredDataAndHeader` (lines 25-131): the texts of the
header stream and of the exons stream when it returns. -/
def preparePredDataAndHeader (c : StrandConsts) (fmt : StreamEnv) (complement : Char → Char)
    (pred : Prediction) (targetHeaderAcc contigHeaderAcc : String) (contigData : List Char)
    (writeFragCoords : Int) (contigLen : Nat) : Outcome (String × String) :=
  match pred.optimalExonSet.getLast? with
  | none => Outcome.ok ("", "")
  | some lastExon =>
    let header := "" ++ targetHeaderAcc ++ "|" ++ contigHeaderAcc ++ "|" ++
      (if pred.strand = c.PLUS then "+|" else "-|") ++
      fmt.streamInt pred.totalBitscore ++ "|" ++ fmt.streamDouble pred.combinedEvalue ++ "|" ++
      fmt.streamSize pred.numExons ++ "|" ++
      fmt.streamInt pred.lowContigCoord ++ "|" ++ fmt.streamInt pred.highContigCoord
    (exonsLoop c fmt complement pred.strand contigData writeFragCoords (-1) header ""
      pred.optimalExonSet).bind fun streams =>
    (stopCodon c complement contigData writeFragCoords contigLen lastExon).bind fun stop =>
    Outcome.ok (streams.1 ++ "\n", streams.2 ++ stop ++ "\n")

/-- The test of lines 291-297 on the text of the exons stream: the length
without the newline, or the fatal exit when it is not a multiple of three. -/
def codingLength (result : String) : Outcome Nat :=
  let nuclLen := (result.length + 18446744073709551616 - 1) % 18446744073709551616
  if nuclLen % 3 ≠ 0 then Outcome.fatal else Outcome.ok nuclLen

/-- The number of codons that lines 69-73 remove from the start of an exon. -/
def trimmedCodons (lastTargetPosMatched : Int) (e : Exon) : Int :=
  if lastTargetPosMatched ≥ e.targetMatchStart then
    lastTargetPosMatched - e.targetMatchStart + 1
  else 0

/-- The sum of the lengths of the exons after trimming, each exon trimmed
against the end of the exon before it. -/
def adjustedTotal : Int → List Exon → Int
  | _, [] => 0
  | lastTargetPosMatched, e :: es =>
    (e.nucleotideLen - 3 * trimmedCodons lastTargetPosMatched e) +
      adjustedTotal e.targetMatchEnd es

/-- Every exon has a non-negative length after trimming. -/
def TrimmedNonneg : Int → List Exon → Prop
  | _, [] => True
  | lastTargetPosMatched, e :: es =>
    0 ≤ e.nucleotideLen - 3 * trimmedCodons lastTargetPosMatched e ∧
      TrimmedNonneg e.targetMatchEnd es

/-! ## The count-based consensus -/

/-- The number of assigned hits whose lineage holds the node `k`. -/
def countThrough (t : NcbiTaxonomy) (fuel : Nat) (setTaxa : List taxHit) (k : TaxID) : Nat :=
  ((assignedHits setTaxa).filter (fun h => decide (k ∈ lineageOf t fuel h.taxon))).length

/-- The node `k` qualifies by counts: some assigned hit visits it, the number
of assigned hits that visit it, divided by the number of assigned hits,
reaches the cutoff, and its rank has a positive rank-index. -/
def CountQualifies (t : NcbiTaxonomy) (fuel : Nat) (setTaxa : List taxHit) (c : ℚ)
    (k : TaxID) : Prop :=
  0 < countThrough t fuel setTaxa k ∧
    c ≤ (countThrough t fuel setTaxa k : ℚ) / ((assignedHits setTaxa).length : ℚ) ∧
    ∃ node, t.taxonNode k = some node ∧ 0 < t.findRankIndex node.rank

/-- The count-based consensus, the algorithm of the specification with members
counted instead of weights summed: the taxon `s` with the percent `p` is a
result when no node qualifies by counts and `s = 0`, `p = 0`, or when `s`
qualifies by counts, `p` is its share of the assigned hits, no node that
qualifies has a smaller rank-index, and none with the same rank-index has a
larger count. -/
def CountConsensus (t : NcbiTaxonomy) (fuel : Nat) (setTaxa : List taxHit) (c : ℚ)
    (s : TaxID) (p : FloatVal) : Prop :=
  (s = 0 ∧ p = FloatVal.fin 0 ∧ ∀ k, ¬ CountQualifies t fuel setTaxa c k) ∨
    (CountQualifies t fuel setTaxa c s ∧
      p = FloatVal.fin ((countThrough t fuel setTaxa s : ℚ) /
        ((assignedHits setTaxa).length : ℚ)) ∧
      ∀ k, CountQualifies t fuel setTaxa c k → ∀ ns nk, t.taxonNode s = some ns →
        t.taxonNode k = some nk →
        t.findRankIndex ns.rank ≤ t.findRankIndex nk.rank ∧
          (t.findRankIndex nk.rank = t.findRankIndex ns.rank →
            countThrough t fuel setTaxa k ≤ countThrough t fuel setTaxa s))

/-- Every assigned hit has the weight `1`. -/
def UniformWeights (setTaxa : List taxHit) : Prop :=
  ∀ h ∈ setTaxa, h.taxon ≠ 0 → h.weight = 1

/-- The node `k` meets the cutoff: it is a key of the map and its accumulated
fraction reaches the cutoff, be it the quotient `float(value) / total` that
line 108 forms or the exact quotient of the stored value and the total. -/
def MeetsCutoff (majorityCutoff : ℚ) (acc : AccState) (k : TaxID) : Prop :=
  ∃ v, acc.ancTaxIdsCounts.find k = some v ∧
    (((toFloat v).divBy acc.totalAssignedSeqsWeights).ge (FloatVal.fin majorityCutoff) = true ∨
      (0 < acc.totalAssignedSeqsWeights ∧ majorityCutoff ≤ v / acc.totalAssignedSeqsWeights))

/-- The nodes `a` and `b` lie on one lineage: one is an ancestor-or-self of the
other. -/
def OnOneLineage (t : NcbiTaxonomy) (fuel : Nat) (a b : TaxID) : Prop :=
  a ∈ lineageOf t fuel b ∨ b ∈ lineageOf t fuel a

/-! ## Sample inputs -/

/-- A sample rank-index table: three indexed ranks, every other rank unindexed. -/
def sampleRankIndex (rank : String) : Int :=
  if rank = "species" then 4
  else if rank = "genus" then 8
  else if rank = "superkingdom" then 28
  else -1

/-- The nodes of a sample tree with root `1`. -/
def sampleNode (id : TaxID) : Option TaxonNode :=
  if id = 1 then some ⟨1, 1, "no rank", "root"⟩
  else if id = 2 then some ⟨2, 1, "superkingdom", "Bacteria"⟩
  else if id = 10 then some ⟨10, 2, "genus", "G"⟩
  else if id = 11 then some ⟨11, 10, "species", "A"⟩
  else if id = 12 then some ⟨12, 10, "species", "B"⟩
  else if id = 20 then some ⟨20, 2, "genus", "H"⟩
  else if id = 21 then some ⟨21, 20, "species", "C"⟩
  else none

/-- A sample tree with root `1`. -/
def sampleTree : NcbiTaxonomy := ⟨sampleNode, sampleRankIndex⟩

/-- The nodes of a sample tree whose root is `2`; node `1` is a species below it. -/
def rootTwoNode (id : TaxID) : Option TaxonNode :=
  if id = 2 then some ⟨2, 2, "superkingdom", "Bacteria"⟩
  else if id = 1 then some ⟨1, 2, "species", "A"⟩
  else if id = 3 then some ⟨3, 2, "species", "B"⟩
  else none

/-- A sample tree whose root is `2`. -/
def rootTwoTree : NcbiTaxonomy := ⟨rootTwoNode, sampleRankIndex⟩

/-- The nodes of a sample tree in which the species `5` lies below the species `3`. -/
def nestedNode (id : TaxID) : Option TaxonNode :=
  if id = 1 then some ⟨1, 1, "no rank", "root"⟩
  else if id = 3 then some ⟨3, 1, "species", "S"⟩
  else if id = 5 then some ⟨5, 3, "species", "T"⟩
  else none

/-- A sample tree in which a species lies below a species. -/
def nestedTree : NcbiTaxonomy := ⟨nestedNode, sampleRankIndex⟩

/-- The nodes of a sample tree whose root `1` has an indexed rank. -/
def rankedRootNode (id : TaxID) : Option TaxonNode :=
  if id = 1 then some ⟨1, 1, "superkingdom", "Bacteria"⟩
  else if id = 11 then some ⟨11, 1, "species", "A"⟩
  else if id = 12 then some ⟨12, 1, "species", "B"⟩
  else none

/-- A sample tree whose root `1` has an indexed rank. -/
def rankedRootTree : NcbiTaxonomy := ⟨rankedRootNode, sampleRankIndex⟩

/-- The value of a run of decimal digits read after the value `acc`, and the
characters that follow the run. -/
def readDigits : Nat → List Char → Nat × List Char
  | acc, [] => (acc, [])
  | acc, c :: cs =>
    if c.isDigit then readDigits (acc * 10 + (c.toNat - '0'.toNat)) cs else (acc, c :: cs)

/-- The value and the number of digits of a run of decimal digits after a
decimal point, read after `acc` and `n` digits, and the characters that follow. -/
def readFraction : Nat → Nat → List Char → Nat × Nat × List Char
  | acc, n, [] => (acc, n, [])
  | acc, n, c :: cs =>
    if c.isDigit then readFraction (acc * 10 + (c.toNat - '0'.toNat)) (n + 1) cs
    else (acc, n, c :: cs)

/-- A sample `strtod` for decimal numbers `[-]digits[.digits][e[-]digits]`; the
value is `0` when the text does not start with a digit or a minus sign and a
digit. -/
def sampleStrtod (s : String) : ℚ :=
  let (neg, cs) := match s.data with
    | '-' :: rest => (true, rest)
    | cs => (false, cs)
  let (ip, cs1) := readDigits 0 cs
  let (fp, fn, cs2) := match cs1 with
    | '.' :: rest => readFraction 0 0 rest
    | other => (0, 0, other)
  let mantissa : ℚ := (ip : ℚ) + (fp : ℚ) / ((10 ^ fn : Nat) : ℚ)
  let scaled : ℚ := match cs2 with
    | 'e' :: '-' :: rest => mantissa / ((10 ^ (readDigits 0 rest).1 : Nat) : ℚ)
    | 'e' :: rest => mantissa * ((10 ^ (readDigits 0 rest).1 : Nat) : ℚ)
    | _ => mantissa
  if neg then -scaled else scaled

/-- A sample `log`: the first three terms of the series
`ln x = 2 (z + z^3/3 + z^5/5 + ...)` with `z = (x - 1) / (x + 1)`. -/
def sampleLog (x : ℚ) : ℚ :=
  let z := (x - 1) / (x + 1)
  2 * (z + z * z * z / 3 + z * z * z * z * z / 5)

/-- Sample externals: ten alignment columns, vote modes `0` and `1`. -/
def sampleExternals : Externals := ⟨10, 0, 1, sampleStrtod, sampleLog⟩

/-- The character of a decimal digit. -/
def decimalDigit : Nat → Char
  | 0 => '0'
  | 1 => '1'
  | 2 => '2'
  | 3 => '3'
  | 4 => '4'
  | 5 => '5'
  | 6 => '6'
  | 7 => '7'
  | 8 => '8'
  | _ => '9'

/-- The decimal digits of a number below `10 ^ fuel`, lowest digit last. -/
def digitsOf : Nat → Nat → List Char
  | 0, _ => []
  | fuel + 1, n =>
    if n < 10 then [decimalDigit n]
    else digitsOf fuel (n / 10) ++ [decimalDigit (n % 10)]

/-- A sample `SSTR` for a `size_t`: the decimal digits. -/
def sampleSstrSize (n : Nat) : String := String.mk (digitsOf (n + 1) n)

/-- A sample `SSTR` for an `int`. -/
def sampleSstrInt (i : Int) : String :=
  if i < 0 then "-" ++ sampleSstrSize i.natAbs else sampleSstrSize i.natAbs

/-- A run of digits without the zeros at its end. -/
def dropTrailingZeros : List Char → List Char
  | [] => []
  | c :: cs =>
    match dropTrailingZeros cs with
    | [] => if c = '0' then [] else [c]
    | r => c :: r

/-- The six decimal digits of a number of millionths below one. -/
def sixDigits (m : Nat) : List Char :=
  [decimalDigit (m / 100000 % 10), decimalDigit (m / 10000 % 10), decimalDigit (m / 1000 % 10),
    decimalDigit (m / 100 % 10), decimalDigit (m / 10 % 10), decimalDigit (m % 10)]

/-- A sample `SSTR` for a `float` in `[0, 10)`: the value rounded to six
decimals, printed without the zeros at its end and without the point when no
decimal is left; other values print as `nan`. -/
def sampleSstrFloat : FloatVal → String
  | FloatVal.fin q =>
    if 0 ≤ q ∧ q < 10 then
      let n := (roundf (q * 1000000)).num.natAbs
      match dropTrailingZeros (sixDigits (n % 1000000)) with
      | [] => sampleSstrSize (n / 1000000)
      | ds => sampleSstrSize (n / 1000000) ++ "." ++ String.mk ds
    else "nan"
  | _ => "nan"

/-- Sample record functions: the rank list is the node rank repeated once per
requested rank and joined by `;`, the lineage is the node name. -/
def sampleRecordEnv : RecordEnv :=
  ⟨sampleSstrInt, sampleSstrSize, sampleSstrFloat,
    fun node ranks => String.intercalate ";" (ranks.map (fun _ => node.rank)),
    fun node _ => node.name⟩

/-- Sample strand constants. -/
def sampleStrands : StrandConsts := ⟨1, -1⟩

/-- A sample stream: whole numbers in decimal, a `double` as `e`. -/
def sampleStreamEnv : StreamEnv := ⟨sampleSstrInt, fun _ => "e", sampleSstrSize⟩

/-- The complement of a nucleotide. -/
def sampleComplement (ch : Char) : Char :=
  if ch = 'A' then 'T' else if ch = 'T' then 'A' else if ch = 'C' then 'G'
  else if ch = 'G' then 'C' else ch

/-- A sample contig of 24 nucleotides followed by the end of its entry. -/
def sampleContig : List Char := "AAACCCGGGTTTACGTACGTAATT\n\x00".data

/-! ## Lemmas on the conversion to `float` -/

/-- With enough fuel `log2Floor` is the integer part of the binary logarithm. -/
theorem log2Floor_spec (fuel : Nat) : ∀ n, 0 < n → n ≤ fuel →
    2 ^ log2Floor fuel n ≤ n ∧ n < 2 ^ (log2Floor fuel n + 1) := by
  induction fuel with
  | zero => intro n h0 h1; omega
  | succ f ih =>
    intro n h0 h1
    unfold log2Floor
    by_cases h2 : n < 2
    · rw [if_pos h2]
      constructor
      · simpa using h0
      · simpa using h2
    · rw [if_neg h2]
      obtain ⟨a, b⟩ := ih (n / 2) (by omega) (by omega)
      constructor
      · rw [pow_succ]
        omega
      · rw [pow_succ]
        omega

/-- A whole quotient is not changed by the rounding. -/
theorem roundHalfEven_mul (m d : Nat) (hd : 0 < d) : roundHalfEven (m * d) d = m := by
  unfold roundHalfEven
  simp [Nat.mul_div_cancel _ hd, hd]

/-- The binary exponent of a positive whole number. -/
theorem binaryExponent_one (n : Nat) (hn : 0 < n) :
    binaryExponent n 1 = (log2Floor n n : Int) := by
  obtain ⟨a, _⟩ := log2Floor_spec n n hn (le_refl _)
  have h1 : log2Floor 1 1 = 0 := rfl
  unfold binaryExponent belowPow2
  simp only [h1]
  simp
  exact a

/-- The conversion of a positive value of normal exponent `e` that stays in range. -/
theorem toFloat_pos (x : ℚ) (hx : 0 < x) (n d : Nat) (e : Int)
    (hn : x.num.natAbs = n) (hd : x.den = d) (he : binaryExponent n d = e) (he0 : -126 ≤ e)
    (hb : beyondFloatRange (roundAtExponent n d (e - 23)) (e - 23) = false) :
    toFloat x = FloatVal.fin (timesPow2 (roundAtExponent n d (e - 23)) (e - 23)) := by
  subst hn
  subst hd
  subst he
  unfold toFloat
  rw [if_neg (ne_of_gt hx)]
  simp only [if_neg (not_lt.mpr he0), hb, hx, if_true, Bool.false_eq_true, if_false]

/-- Rounding a whole number. -/
theorem roundHalfEven_one (m : Nat) : roundHalfEven m 1 = m := by
  have := roundHalfEven_mul m 1 (by norm_num)
  rwa [Nat.mul_one] at this

/-- Single precision represents the whole numbers up to `2^24` exactly. -/
theorem toFloat_natCast (n : Nat) (h : n ≤ 2 ^ 24) : toFloat (n : ℚ) = FloatVal.fin (n : ℚ) := by
  by_cases h0 : n = 0
  · subst h0
    simp [toFloat]
  have hpos : 0 < n := Nat.pos_of_ne_zero h0
  obtain ⟨a, b⟩ := log2Floor_spec n n hpos (le_refl _)
  have hL : log2Floor n n ≤ 24 := by
    by_contra hc
    have : 2 ^ 25 ≤ 2 ^ log2Floor n n := Nat.pow_le_pow_right (by norm_num) (by omega)
    omega
  have hxpos : (0 : ℚ) < (n : ℚ) := by exact_mod_cast hpos
  have he := binaryExponent_one n hpos
  obtain ⟨L, hLdef⟩ : ∃ L, log2Floor n n = L := ⟨_, rfl⟩
  rw [hLdef] at a b hL he
  have hcases : L ≤ 22 ∨ L = 23 ∨ L = 24 := by omega
  rcases hcases with hlt | rfl | rfl
  · have hneg : ¬ (0 : Int) ≤ (L : Int) - 23 := by omega
    have hk : (-((L : Int) - 23)).toNat = 23 - L := by omega
    have hrv : roundAtExponent n 1 ((L : Int) - 23) = n * 2 ^ (23 - L) := by
      unfold roundAtExponent
      rw [if_neg hneg, hk, roundHalfEven_one]
    rw [toFloat_pos (n : ℚ) hxpos n 1 L (by simp) (by simp) he (by omega) ?_]
    · rw [hrv]
      unfold timesPow2
      rw [if_neg hneg, hk, Rat.mkRat_eq_div]
      push_cast
      field_simp
    · rw [hrv]
      unfold beyondFloatRange
      rw [if_neg hneg, hk]
      simp only [decide_eq_false_iff_not, not_le]
      have h2 : 0 < 2 ^ (23 - L) := Nat.pow_pos (by norm_num)
      exact Nat.mul_lt_mul_of_pos_right (by omega) h2
  · have hrv : roundAtExponent n 1 (((23 : Nat) : Int) - 23) = n := by
      unfold roundAtExponent
      simp [roundHalfEven_one]
    rw [toFloat_pos (n : ℚ) hxpos n 1 (23 : Nat) (by simp) (by simp) he (by omega) ?_]
    · rw [hrv]
      unfold timesPow2
      simp [Rat.mkRat_eq_div]
    · rw [hrv]
      unfold beyondFloatRange
      simp
      omega
  · have hn : n = 2 ^ 24 := by omega
    subst hn
    rw [toFloat_pos _ hxpos (2 ^ 24) 1 (24 : Nat) (by simp) (by simp) he (by omega) ?_]
    · with_unfolding_all rfl
    · with_unfolding_all rfl

/-! ## Lemmas on the map -/

theorem find_insert_of_absent (m : TaxMap) (k : TaxID) (v : ℚ) (k' : TaxID)
    (h : m.find k = none) :
    (m.insert k v).find k' = if k' = k then some v else m.find k' := by
  induction m with
  | nil => simp [TaxMap.insert, TaxMap.find]
  | cons e rest ih =>
    obtain ⟨k0, v0⟩ := e
    simp only [TaxMap.find] at h
    by_cases hk : k = k0
    · simp [hk] at h
    · simp only [hk, if_false] at h
      simp only [TaxMap.insert, hk, if_false]
      by_cases hlt : k < k0
      · simp [hlt, TaxMap.find]
      · simp only [hlt, if_false, TaxMap.find, ih h]
        by_cases h1 : k' = k0
        · have : k' ≠ k := fun h2 => hk (h2 ▸ h1)
          simp [h1, Ne.symm hk]
        · simp [h1]

theorem find_addAt (m : TaxMap) (k : TaxID) (w : ℚ) (k' : TaxID) :
    (m.addAt k w).find k' = if k' = k then (m.find k).map (fun v => v + w) else m.find k' := by
  induction m with
  | nil => simp [TaxMap.addAt, TaxMap.find]
  | cons e rest ih =>
    obtain ⟨k0, v0⟩ := e
    by_cases hk : k = k0
    · subst hk
      by_cases h1 : k' = k <;> simp [TaxMap.addAt, TaxMap.find, h1]
    · by_cases h1 : k' = k0
      · have : k' ≠ k := fun h2 => hk (h2 ▸ h1)
        simp [TaxMap.addAt, TaxMap.find, hk, h1, Ne.symm hk]
      · simp [TaxMap.addAt, TaxMap.find, hk, h1, ih]

theorem find_addWeightVal (w : ℚ) (m : TaxMap) (k k' : TaxID) :
    (addWeightVal w m k).find k' =
      if k' = k then some (match m.find k with | some v => v + w | none => truncToZero w)
      else m.find k' := by
  unfold addWeightVal
  cases hf : m.find k with
  | none => simp [find_insert_of_absent m k _ k' hf]
  | some v => simp [find_addAt, hf]

theorem addWeight_eq (w : ℚ) (m : TaxMap) (k : TaxID) (hw : -1 < w ∧ w < 4294967296) :
    addWeight m k w = Outcome.ok (addWeightVal w m k) := by
  unfold addWeight addWeightVal toUnsignedInt
  by_cases hf : (m.find k).isSome = true
  · simp [hf]
  · simp [hf, hw]

theorem truncToZero_natCast (n : Nat) : truncToZero (n : ℚ) = (n : ℚ) := by
  simp [truncToZero]

theorem find_isSome_iff_mem_keys (m : TaxMap) (k : TaxID) :
    (m.find k).isSome = true ↔ k ∈ m.map Prod.fst := by
  induction m with
  | nil => simp [TaxMap.find]
  | cons e rest ih =>
    obtain ⟨k0, v0⟩ := e
    by_cases hk : k = k0
    · simp [TaxMap.find, hk]
    · simp [TaxMap.find, hk, ih]

theorem mem_of_find (m : TaxMap) (k : TaxID) (v : ℚ) (h : m.find k = some v) : (k, v) ∈ m := by
  induction m with
  | nil => simp [TaxMap.find] at h
  | cons e rest ih =>
    obtain ⟨k0, v0⟩ := e
    by_cases hk : k = k0
    · simp [TaxMap.find, hk] at h
      simp [hk, h]
    · simp only [TaxMap.find, hk, if_false] at h
      exact List.mem_cons_of_mem _ (ih h)

theorem find_of_mem (m : TaxMap) (hs : KeysSorted m) (k : TaxID) (v : ℚ) (h : (k, v) ∈ m) :
    m.find k = some v := by
  induction m with
  | nil => simp at h
  | cons e rest ih =>
    obtain ⟨k0, v0⟩ := e
    unfold KeysSorted at hs
    simp only [List.map_cons, List.pairwise_cons] at hs
    rcases List.mem_cons.mp h with h1 | h1
    · simp only [Prod.mk.injEq] at h1
      simp [TaxMap.find, h1.1, h1.2]
    · have hlt : k0 < k := hs.1 k (List.mem_map.mpr ⟨(k, v), h1, rfl⟩)
      have hne : k ≠ k0 := ne_of_gt hlt
      simp only [TaxMap.find, hne, if_false]
      exact ih hs.2 h1

theorem keys_insert (m : TaxMap) (k : TaxID) (v : ℚ) (x : TaxID) :
    x ∈ (m.insert k v).map Prod.fst ↔ x = k ∨ x ∈ m.map Prod.fst := by
  induction m with
  | nil => simp [TaxMap.insert]
  | cons e rest ih =>
    obtain ⟨k0, v0⟩ := e
    by_cases hlt : k < k0
    · simp [TaxMap.insert, hlt]
    · by_cases hk : k = k0
      · simp [TaxMap.insert, hk]
      · simp only [TaxMap.insert, hlt, hk, if_false, List.map_cons, List.mem_cons, ih]
        tauto

theorem keys_addAt (m : TaxMap) (k : TaxID) (w : ℚ) :
    (m.addAt k w).map Prod.fst = m.map Prod.fst := by
  induction m with
  | nil => simp [TaxMap.addAt]
  | cons e rest ih =>
    obtain ⟨k0, v0⟩ := e
    by_cases hk : k = k0
    · simp [TaxMap.addAt, hk]
    · simp [TaxMap.addAt, hk, ih]

theorem keysSorted_insert (m : TaxMap) (k : TaxID) (v : ℚ) (hs : KeysSorted m) :
    KeysSorted (m.insert k v) := by
  induction m with
  | nil => simp [TaxMap.insert, KeysSorted]
  | cons e rest ih =>
    obtain ⟨k0, v0⟩ := e
    have hs' := hs
    unfold KeysSorted at hs'
    simp only [List.map_cons, List.pairwise_cons] at hs'
    by_cases hlt : k < k0
    · simp only [TaxMap.insert, hlt, if_true]
      unfold KeysSorted
      simp only [List.map_cons, List.pairwise_cons]
      refine ⟨?_, hs'⟩
      intro x hx
      rcases List.mem_cons.mp hx with h1 | h1
      · exact h1 ▸ hlt
      · exact lt_trans hlt (hs'.1 x h1)
    · by_cases hk : k = k0
      · subst hk
        simp only [TaxMap.insert, lt_irrefl, if_false, if_true]
        exact hs
      · simp only [TaxMap.insert, hlt, hk, if_false]
        unfold KeysSorted
        simp only [List.map_cons, List.pairwise_cons]
        refine ⟨?_, ih hs'.2⟩
        intro x hx
        rcases (keys_insert rest k v x).mp hx with h1 | h1
        · rw [h1]
          exact lt_of_le_of_ne (not_lt.mp hlt) (Ne.symm hk)
        · exact hs'.1 x h1

theorem keysSorted_addWeightVal (w : ℚ) (m : TaxMap) (k : TaxID) (hs : KeysSorted m) :
    KeysSorted (addWeightVal w m k) := by
  unfold addWeightVal
  by_cases hf : (m.find k).isSome = true
  · simp only [hf, if_true]
    unfold KeysSorted
    rw [keys_addAt]
    exact hs
  · simp only [hf]
    exact keysSorted_insert m k _ hs

/-! ## Lemmas on lineages -/

theorem lineage_head (t : NcbiTaxonomy) (fuel : Nat) (id : TaxID) (l : List TaxID)
    (h : lineage t fuel id = some l) : ∃ l', l = id :: l' := by
  cases fuel with
  | zero => simp [lineage] at h
  | succ f =>
    simp only [lineage] at h
    cases hn : t.taxonNode id with
    | none => simp [hn] at h
    | some node =>
      simp only [hn] at h
      by_cases hp : node.parentTaxId = id
      · simp only [hp, if_true, Option.some.injEq] at h
        exact ⟨[], h.symm⟩
      · simp only [hp, if_false, Option.map_eq_some'] at h
        obtain ⟨l', _, h2⟩ := h
        exact ⟨l', h2.symm⟩

theorem lineage_succ (t : NcbiTaxonomy) (fuel : Nat) : ∀ (id : TaxID) (l : List TaxID),
    lineage t fuel id = some l → lineage t (fuel + 1) id = some l := by
  induction fuel with
  | zero => intro id l h; simp [lineage] at h
  | succ f ih =>
    intro id l h
    rw [lineage] at h
    rw [lineage]
    cases hn : t.taxonNode id with
    | none => simp [hn] at h
    | some node =>
      simp only [hn] at h ⊢
      by_cases hp : node.parentTaxId = id
      · simpa [hp] using h
      · simp only [hp, if_false, Option.map_eq_some'] at h ⊢
        obtain ⟨l', h1, h2⟩ := h
        exact ⟨l', ih _ _ h1, h2⟩

theorem lineage_mono (t : NcbiTaxonomy) (f f' : Nat) (hle : f ≤ f') (id : TaxID) (l : List TaxID)
    (h : lineage t f id = some l) : lineage t f' id = some l := by
  induction hle with
  | refl => exact h
  | step _ ih => exact lineage_succ t _ id l ih

theorem lineage_mem (t : NcbiTaxonomy) (fuel : Nat) : ∀ (id : TaxID) (l : List TaxID),
    lineage t fuel id = some l → ∀ x ∈ l, ∃ l2, lineage t fuel x = some l2 ∧ l2 <:+ l := by
  induction fuel with
  | zero => intro id l h; simp [lineage] at h
  | succ f ih =>
    intro id l h x hx
    have h0 := h
    rw [lineage] at h
    cases hn : t.taxonNode id with
    | none => simp [hn] at h
    | some node =>
      simp only [hn] at h
      by_cases hp : node.parentTaxId = id
      · simp only [hp, if_true, Option.some.injEq] at h
        subst h
        simp only [List.mem_singleton] at hx
        subst hx
        exact ⟨[x], h0, List.suffix_refl _⟩
      · simp only [hp, if_false, Option.map_eq_some'] at h
        obtain ⟨l', h1, h2⟩ := h
        subst h2
        rcases List.mem_cons.mp hx with hx1 | hx1
        · subst hx1
          exact ⟨x :: l', h0, List.suffix_refl _⟩
        · obtain ⟨l2, h3, h4⟩ := ih _ _ h1 x hx1
          exact ⟨l2, lineage_succ t f x l2 h3, h4.trans (List.suffix_cons _ _)⟩

theorem lineage_unique (t : NcbiTaxonomy) (f f' : Nat) (id : TaxID) (l l' : List TaxID)
    (h : lineage t f id = some l) (h' : lineage t f' id = some l') : l = l' := by
  have h1 := lineage_mono t f (max f f') (le_max_left _ _) id l h
  have h2 := lineage_mono t f' (max f f') (le_max_right _ _) id l' h'
  rw [h1] at h2
  exact Option.some.inj h2

theorem lineage_nodup (t : NcbiTaxonomy) (fuel : Nat) : ∀ (id : TaxID) (l : List TaxID),
    lineage t fuel id = some l → l.Nodup := by
  induction fuel with
  | zero => intro id l h; simp [lineage] at h
  | succ f ih =>
    intro id l h
    have h0 := h
    rw [lineage] at h
    cases hn : t.taxonNode id with
    | none => simp [hn] at h
    | some node =>
      simp only [hn] at h
      by_cases hp : node.parentTaxId = id
      · simp only [hp, if_true, Option.some.injEq] at h
        subst h
        simp
      · simp only [hp, if_false, Option.map_eq_some'] at h
        obtain ⟨l', h1, h2⟩ := h
        subst h2
        refine List.nodup_cons.mpr ⟨?_, ih _ _ h1⟩
        intro hmem
        obtain ⟨l2, h3, h4⟩ := lineage_mem t f _ _ h1 id hmem
        have := lineage_unique t f (f + 1) id l2 (id :: l') h3 h0
        subst this
        have hlen := h4.length_le
        simp at hlen

theorem lineage_resolves (t : NcbiTaxonomy) (fuel : Nat) (id : TaxID) (l : List TaxID)
    (h : lineage t fuel id = some l) : ∀ x ∈ l, (t.taxonNode x).isSome = true := by
  intro x hx
  obtain ⟨l2, h3, _⟩ := lineage_mem t fuel id l h x hx
  cases fuel with
  | zero => simp [lineage] at h
  | succ f =>
    rw [lineage] at h3
    cases hn : t.taxonNode x with
    | none => simp [hn] at h3
    | some node => simp

/-! ## The accumulation loop -/

theorem ancestorsWalk_eq (t : NcbiTaxonomy) (w : ℚ) (hw : -1 < w ∧ w < 4294967296) (fuel : Nat) :
    ∀ (m : TaxMap) (id : TaxID) (node : TaxonNode) (l : List TaxID),
      t.taxonNode id = some node → lineage t fuel id = some (id :: l) →
      ancestorsWalk t w fuel m id node.parentTaxId = Outcome.ok (l.foldl (addWeightVal w) m) := by
  induction fuel with
  | zero => intro m id node l _ h; simp [lineage] at h
  | succ f ih =>
    intro m id node l hn h
    rw [lineage] at h
    simp only [hn] at h
    rw [ancestorsWalk]
    by_cases hp : node.parentTaxId = id
    · simp only [hp, if_true, Option.some.injEq, List.cons.injEq, true_and] at h
      subst h
      simp [hp]
    · simp only [hp, if_false, Option.map_eq_some', List.cons.injEq, true_and] at h
      obtain ⟨l', h1, h2⟩ := h
      subst h2
      obtain ⟨l'', hl''⟩ := lineage_head t f _ _ h1
      subst hl''
      have hres := lineage_resolves t f _ _ h1 node.parentTaxId (List.mem_cons_self _ _)
      obtain ⟨node', hn'⟩ := Option.isSome_iff_exists.mp hres
      simp only [hp, if_false, addWeight_eq w m _ hw, hn']
      rw [ih _ _ node' l'' hn' h1]
      simp

theorem accumulateHit_eq (t : NcbiTaxonomy) (fuel : Nat) (s : AccState) (h : taxHit)
    (hw : h.taxon ≠ 0 → -1 < h.weight ∧ h.weight < 4294967296)
    (hf : h.taxon ≠ 0 → (lineage t fuel h.taxon).isSome = true) :
    accumulateHit t fuel s h = Outcome.ok (accStep t fuel s h) := by
  unfold accumulateHit accStep
  by_cases h0 : h.taxon = 0
  · simp [h0]
  · simp only [h0, if_false]
    obtain ⟨l, hl⟩ := Option.isSome_iff_exists.mp (hf h0)
    obtain ⟨l', hl'⟩ := lineage_head t fuel _ _ hl
    subst hl'
    have hres := lineage_resolves t fuel _ _ hl h.taxon (List.mem_cons_self _ _)
    obtain ⟨node, hn⟩ := Option.isSome_iff_exists.mp hres
    simp only [hn, addWeight_eq h.weight _ _ (hw h0)]
    rw [ancestorsWalk_eq t h.weight (hw h0) fuel _ _ node l' hn hl]
    simp [lineageOf, hl]

theorem accumulate_eq (t : NcbiTaxonomy) (fuel : Nat) (setTaxa : List taxHit) :
    ∀ (s : AccState), WeightsConvertible setTaxa → FuelSuffices t fuel setTaxa →
      accumulate t fuel s setTaxa = Outcome.ok (accPure t fuel s setTaxa) := by
  induction setTaxa with
  | nil => intro s _ _; simp [accumulate, accPure]
  | cons h hs ih =>
    intro s hw hf
    rw [accumulate, accumulateHit_eq t fuel s h (hw h (List.mem_cons_self _ _))
      (hf h (List.mem_cons_self _ _))]
    simp only []
    rw [ih _ (fun x hx => hw x (List.mem_cons_of_mem _ hx))
      (fun x hx => hf x (List.mem_cons_of_mem _ hx))]
    simp [accPure]

theorem accPure_numAssigned (t : NcbiTaxonomy) (fuel : Nat) (setTaxa : List taxHit) :
    ∀ (s : AccState), (accPure t fuel s setTaxa).numAssignedSeqs =
      s.numAssignedSeqs + (assignedHits setTaxa).length := by
  induction setTaxa with
  | nil => intro s; simp [accPure, assignedHits]
  | cons h hs ih =>
    intro s
    have := ih (accStep t fuel s h)
    simp only [accPure, List.foldl_cons] at this ⊢
    rw [this]
    by_cases h0 : h.taxon = 0
    · simp [accStep, assignedHits, h0]
    · simp [accStep, assignedHits, h0]; omega

theorem accPure_numUnassigned (t : NcbiTaxonomy) (fuel : Nat) (setTaxa : List taxHit) :
    ∀ (s : AccState), (accPure t fuel s setTaxa).numUnassignedSeqs =
      s.numUnassignedSeqs + (setTaxa.filter (fun h => decide (h.taxon = 0))).length := by
  induction setTaxa with
  | nil => intro s; simp [accPure]
  | cons h hs ih =>
    intro s
    have := ih (accStep t fuel s h)
    simp only [accPure, List.foldl_cons] at this ⊢
    rw [this]
    by_cases h0 : h.taxon = 0
    · simp [accStep, h0]; omega
    · simp [accStep, h0]

theorem accPure_total (t : NcbiTaxonomy) (fuel : Nat) (setTaxa : List taxHit) :
    ∀ (s : AccState), (accPure t fuel s setTaxa).totalAssignedSeqsWeights =
      s.totalAssignedSeqsWeights + assignedWeight setTaxa := by
  induction setTaxa with
  | nil => intro s; simp [accPure, assignedWeight, assignedHits]
  | cons h hs ih =>
    intro s
    have := ih (accStep t fuel s h)
    simp only [accPure, List.foldl_cons] at this ⊢
    rw [this]
    by_cases h0 : h.taxon = 0
    · simp [accStep, assignedWeight, assignedHits, h0]
    · simp [accStep, assignedWeight, assignedHits, h0]; ring

theorem keysSorted_foldl (w : ℚ) (l : List TaxID) :
    ∀ (m : TaxMap), KeysSorted m → KeysSorted (l.foldl (addWeightVal w) m) := by
  induction l with
  | nil => intro m hm; exact hm
  | cons k ks ih => intro m hm; exact ih _ (keysSorted_addWeightVal w m k hm)

theorem accPure_keysSorted (t : NcbiTaxonomy) (fuel : Nat) (setTaxa : List taxHit) :
    ∀ (s : AccState), KeysSorted s.ancTaxIdsCounts →
      KeysSorted (accPure t fuel s setTaxa).ancTaxIdsCounts := by
  induction setTaxa with
  | nil => intro s hs; exact hs
  | cons h hs ih =>
    intro s hsort
    simp only [accPure, List.foldl_cons]
    apply ih
    unfold accStep
    by_cases h0 : h.taxon = 0
    · simpa [h0] using hsort
    · simp only [h0, if_false]
      exact keysSorted_foldl _ _ _ hsort

theorem find_isSome_addWeightVal (w : ℚ) (m : TaxMap) (k k' : TaxID) :
    ((addWeightVal w m k).find k').isSome = true ↔ k' = k ∨ (m.find k').isSome = true := by
  rw [find_addWeightVal]
  by_cases h : k' = k
  · simp [h]
  · simp [h]

theorem find_isSome_foldl (w : ℚ) (l : List TaxID) :
    ∀ (m : TaxMap) (k' : TaxID), ((l.foldl (addWeightVal w) m).find k').isSome = true ↔
      k' ∈ l ∨ (m.find k').isSome = true := by
  induction l with
  | nil => intro m k'; simp
  | cons k ks ih =>
    intro m k'
    simp only [List.foldl_cons, ih, find_isSome_addWeightVal, List.mem_cons]
    tauto

theorem accPure_isKey (t : NcbiTaxonomy) (fuel : Nat) (setTaxa : List taxHit) :
    ∀ (s : AccState) (k : TaxID),
      ((accPure t fuel s setTaxa).ancTaxIdsCounts.find k).isSome = true ↔
        (s.ancTaxIdsCounts.find k).isSome = true ∨
          ∃ h ∈ setTaxa, h.taxon ≠ 0 ∧ k ∈ lineageOf t fuel h.taxon := by
  induction setTaxa with
  | nil => intro s k; simp [accPure]
  | cons h hs ih =>
    intro s k
    simp only [accPure, List.foldl_cons]
    have := ih (accStep t fuel s h) k
    simp only [accPure] at this
    rw [this]
    by_cases h0 : h.taxon = 0
    · simp [accStep, h0]
    · simp only [accStep, h0, if_false, find_isSome_foldl, List.mem_cons, exists_eq_or_imp]
      simp only [ne_eq, h0, not_false_eq_true, true_and]
      tauto

theorem valueAt_addWeightVal (n : Nat) (m : TaxMap) (k k' : TaxID) :
    TaxMap.valueAt (addWeightVal (n : ℚ) m k) k' =
      TaxMap.valueAt m k' + (if k' = k then (n : ℚ) else 0) := by
  unfold TaxMap.valueAt
  rw [find_addWeightVal]
  by_cases h : k' = k
  · subst h
    cases hf : TaxMap.find m k' with
    | none => simp [truncToZero_natCast]
    | some v => simp
  · simp [h]

theorem valueAt_foldl (n : Nat) (l : List TaxID) :
    ∀ (m : TaxMap) (k' : TaxID), TaxMap.valueAt (l.foldl (addWeightVal (n : ℚ)) m) k' =
      TaxMap.valueAt m k' + (l.count k' : ℚ) * (n : ℚ) := by
  induction l with
  | nil => intro m k'; simp
  | cons k ks ih =>
    intro m k'
    simp only [List.foldl_cons, ih, valueAt_addWeightVal, List.count_cons]
    by_cases h : k' = k
    · subst h; simp; ring
    · have : ¬ (k = k') := fun h2 => h h2.symm
      simp [h, this]

theorem count_lineageOf (t : NcbiTaxonomy) (fuel : Nat) (id k : TaxID) :
    ((lineageOf t fuel id).count k : ℚ) = if k ∈ lineageOf t fuel id then 1 else 0 := by
  unfold lineageOf
  cases hl : lineage t fuel id with
  | none => simp
  | some l =>
    simp only [Option.getD_some]
    by_cases hm : k ∈ l
    · simp [hm, List.count_eq_one_of_mem (lineage_nodup t fuel id l hl) hm]
    · simp [hm, List.count_eq_zero_of_not_mem hm]

theorem accPure_valueAt (t : NcbiTaxonomy) (fuel : Nat) (setTaxa : List taxHit) :
    ∀ (s : AccState) (k : TaxID), WeightsWhole setTaxa →
      TaxMap.valueAt (accPure t fuel s setTaxa).ancTaxIdsCounts k =
        TaxMap.valueAt s.ancTaxIdsCounts k + lineageWeight t fuel setTaxa k := by
  induction setTaxa with
  | nil => intro s k _; simp [accPure, lineageWeight, assignedHits]
  | cons h hs ih =>
    intro s k hw
    simp only [accPure, List.foldl_cons]
    have := ih (accStep t fuel s h) k (fun x hx => hw x (List.mem_cons_of_mem _ hx))
    simp only [accPure] at this
    rw [this]
    by_cases h0 : h.taxon = 0
    · simp [accStep, h0, lineageWeight, assignedHits]
    · obtain ⟨n, hn, _⟩ := hw h (List.mem_cons_self _ _) h0
      simp only [accStep, h0, if_false, hn, valueAt_foldl, count_lineageOf]
      by_cases hm : k ∈ lineageOf t fuel h.taxon
      · simp [lineageWeight, assignedHits, h0, hm, hn]; ring
      · simp [lineageWeight, assignedHits, h0, hm]

/-! ## The selection loop -/

theorem FloatVal.gt_irrefl (a : FloatVal) : a.gt a = false := by
  cases a <;> simp [FloatVal.gt]

theorem FloatVal.gt_trans (a b c : FloatVal) (h1 : a.gt b = true) (h2 : b.gt c = true) :
    a.gt c = true := by
  cases a <;> cases b <;> cases c <;> simp_all [FloatVal.gt]
  exact lt_trans h2 h1

theorem FloatVal.gt_zero_of_ge (x : FloatVal) (c : ℚ) (hc : 0 < c)
    (h : x.ge (FloatVal.fin c) = true) : x.gt (FloatVal.fin 0) = true := by
  cases x <;> simp_all [FloatVal.gt, FloatVal.ge]
  exact lt_of_lt_of_le hc h

theorem Improves.trans {s0 s1 s2 : SelState} (h1 : Improves s0 s1) (h2 : Improves s1 s2) :
    Improves s0 s2 := by
  unfold Improves at *
  rcases h1 with h1 | h1 | ⟨h1, h1'⟩
  · subst h1; exact h2
  · rcases h2 with h2 | h2 | ⟨h2, h2'⟩
    · subst h2; exact Or.inr (Or.inl h1)
    · exact Or.inr (Or.inl (lt_trans h2 h1))
    · exact Or.inr (Or.inl (h2 ▸ h1))
  · rcases h2 with h2 | h2 | ⟨h2, h2'⟩
    · subst h2; exact Or.inr (Or.inr ⟨h1, h1'⟩)
    · exact Or.inr (Or.inl (h1 ▸ h2))
    · exact Or.inr (Or.inr ⟨h2.trans h1, FloatVal.gt_trans _ _ _ h2' h1'⟩)

/-- What one iteration of the selection loop does. -/
theorem selectStep_spec (t : NcbiTaxonomy) (c total : ℚ) (s0 s1 : SelState) (e : TaxID × ℚ)
    (h : selectStep t c total s0 e = Outcome.ok s1) :
    Improves s0 s1 ∧ (s1 = s0 ∨ Chosen t c total [e] s1) ∧
      (((toFloat e.2).divBy total).ge (FloatVal.fin c) = true →
        ∃ node, t.taxonNode e.1 = some node ∧
          (0 < t.findRankIndex node.rank →
            s1.minRank ≤ t.findRankIndex node.rank ∧
              (t.findRankIndex node.rank = s1.minRank →
                ((toFloat e.2).divBy total).gt s1.selectedPercent = false))) := by
  unfold selectStep at h
  by_cases hge : ((toFloat e.2).divBy total).ge (FloatVal.fin c) = true
  · simp only [hge, if_true] at h
    cases hn : t.taxonNode e.1 with
    | none => simp [hn] at h
    | some node =>
      simp only [hn] at h
      by_cases hr : 0 < t.findRankIndex node.rank
      · simp only [hr, if_true] at h
        by_cases hsel : t.findRankIndex node.rank < s0.minRank ∨
            (t.findRankIndex node.rank = s0.minRank ∧
              ((toFloat e.2).divBy total).gt s0.selectedPercent = true)
        · simp only [hsel, if_true, Outcome.ok.injEq] at h
          subst h
          refine ⟨?_, Or.inr ⟨e.2, node, by simp, hn, rfl, rfl, hge, hr⟩, ?_⟩
          · exact Or.inr hsel
          · intro _
            exact ⟨node, rfl, fun _ => ⟨le_refl _, fun _ => FloatVal.gt_irrefl _⟩⟩
        · simp only [hsel, if_false, Outcome.ok.injEq] at h
          subst h
          refine ⟨Or.inl rfl, Or.inl rfl, fun _ => ⟨node, rfl, fun _ => ?_⟩⟩
          have h1 : ¬ t.findRankIndex node.rank < s0.minRank := fun h2 => hsel (Or.inl h2)
          refine ⟨not_lt.mp h1, fun heq => ?_⟩
          cases hg : ((toFloat e.2).divBy total).gt s0.selectedPercent with
          | false => rfl
          | true => exact absurd (Or.inr ⟨heq, hg⟩) hsel
      · simp only [hr, if_false, Outcome.ok.injEq] at h
        subst h
        exact ⟨Or.inl rfl, Or.inl rfl, fun _ => ⟨node, rfl, fun h2 => absurd h2 hr⟩⟩
  · simp only [hge, Bool.false_eq_true, if_false, Outcome.ok.injEq] at h
    subst h
    exact ⟨Or.inl rfl, Or.inl rfl, fun h2 => absurd h2 hge⟩

/-- What the selection loop does: the final state is the initial one or was
written from a qualifying entry, and no qualifying entry beats it. -/
theorem selectLoop_spec (t : NcbiTaxonomy) (c total : ℚ) (es : TaxMap) :
    ∀ (s0 s : SelState), selectLoop t c total s0 es = Outcome.ok s →
      Improves s0 s ∧ (s = s0 ∨ Chosen t c total es s) ∧
        ∀ e ∈ es, ((toFloat e.2).divBy total).ge (FloatVal.fin c) = true →
          ∃ node, t.taxonNode e.1 = some node ∧
            (0 < t.findRankIndex node.rank →
              s.minRank ≤ t.findRankIndex node.rank ∧
                (t.findRankIndex node.rank = s.minRank →
                  ((toFloat e.2).divBy total).gt s.selectedPercent = false)) := by
  induction es with
  | nil =>
    intro s0 s h
    simp only [selectLoop, Outcome.ok.injEq] at h
    subst h
    exact ⟨Or.inl rfl, Or.inl rfl, by simp⟩
  | cons e es ih =>
    intro s0 s h
    rw [selectLoop] at h
    cases h1 : selectStep t c total s0 e with
    | ok s1 =>
      simp only [h1] at h
      obtain ⟨a1, b1, c1⟩ := selectStep_spec t c total s0 s1 e h1
      obtain ⟨a2, b2, c2⟩ := ih s1 s h
      refine ⟨a1.trans a2, ?_, ?_⟩
      · rcases b2 with b2 | ⟨v, node, hm, hn, hr, hp, hg, hpos⟩
        · subst b2
          rcases b1 with b1 | ⟨v, node, hm, hn, hr, hp, hg, hpos⟩
          · exact Or.inl b1
          · refine Or.inr ⟨v, node, ?_, hn, hr, hp, hg, hpos⟩
            simp only [List.mem_singleton] at hm
            simp [hm]
        · exact Or.inr ⟨v, node, List.mem_cons_of_mem _ hm, hn, hr, hp, hg, hpos⟩
      · intro e' he' hge
        rcases List.mem_cons.mp he' with he | he
        · subst he
          obtain ⟨node, hn, hrest⟩ := c1 hge
          refine ⟨node, hn, fun hpos => ?_⟩
          obtain ⟨hle, hgt⟩ := hrest hpos
          rcases a2 with a2 | a2 | ⟨a2, a2'⟩
          · subst a2; exact ⟨hle, hgt⟩
          · exact ⟨le_of_lt (lt_of_lt_of_le a2 hle), fun heq => absurd (heq ▸ a2) (not_lt.mpr hle)⟩
          · refine ⟨a2 ▸ hle, fun heq => ?_⟩
            cases hg : ((toFloat e'.2).divBy total).gt s.selectedPercent with
            | false => rfl
            | true =>
              have := FloatVal.gt_trans _ _ _ hg a2'
              rw [hgt (heq.trans a2)] at this
              exact absurd this (by simp)
        · exact c2 e' he hge
    | fatal => simp [h1] at h
    | undefined => simp [h1] at h
    | outOfFuel => simp [h1] at h

/-- The selection loop runs to its end when every key of the map resolves. -/
theorem selectLoop_ok (t : NcbiTaxonomy) (c total : ℚ) (es : TaxMap)
    (hres : ∀ e ∈ es, (t.taxonNode e.1).isSome = true) :
    ∀ (s0 : SelState), ∃ s, selectLoop t c total s0 es = Outcome.ok s := by
  induction es with
  | nil => intro s0; exact ⟨s0, rfl⟩
  | cons e es ih =>
    intro s0
    obtain ⟨node, hn⟩ := Option.isSome_iff_exists.mp (hres e (List.mem_cons_self _ _))
    have hstep : ∃ s1, selectStep t c total s0 e = Outcome.ok s1 := by
      unfold selectStep
      simp only [hn]
      split_ifs <;> exact ⟨_, rfl⟩
    obtain ⟨s1, h1⟩ := hstep
    obtain ⟨s, hs⟩ := ih (fun x hx => hres x (List.mem_cons_of_mem _ hx)) s1
    exact ⟨s, by rw [selectLoop, h1]; exact hs⟩

/-! ## Order of the keys along a run -/

theorem addWeight_keysSorted (m m' : TaxMap) (k : TaxID) (w : ℚ)
    (h : addWeight m k w = Outcome.ok m') (hs : KeysSorted m) : KeysSorted m' := by
  unfold addWeight at h
  by_cases hf : (m.find k).isSome = true
  · simp only [hf, if_true, Outcome.ok.injEq] at h
    subst h
    unfold KeysSorted
    rw [keys_addAt]
    exact hs
  · simp only [hf, Bool.false_eq_true, if_false] at h
    cases hu : toUnsignedInt w with
    | none => simp [hu] at h
    | some u =>
      simp only [hu, Outcome.ok.injEq] at h
      subst h
      exact keysSorted_insert m k u hs

theorem ancestorsWalk_keysSorted (t : NcbiTaxonomy) (w : ℚ) (fuel : Nat) :
    ∀ (m m' : TaxMap) (id p : TaxID), ancestorsWalk t w fuel m id p = Outcome.ok m' →
      KeysSorted m → KeysSorted m' := by
  induction fuel with
  | zero => intro m m' id p h; simp [ancestorsWalk] at h
  | succ f ih =>
    intro m m' id p h hs
    rw [ancestorsWalk] at h
    by_cases hp : p = id
    · simp only [hp, if_true, Outcome.ok.injEq] at h
      exact h ▸ hs
    · simp only [hp, if_false] at h
      cases ha : addWeight m p w with
      | ok m1 =>
        simp only [ha] at h
        cases hn : t.taxonNode p with
        | none => simp [hn] at h
        | some node =>
          simp only [hn] at h
          exact ih _ _ _ _ h (addWeight_keysSorted m m1 p w ha hs)
      | fatal => simp [ha] at h
      | undefined => simp [ha] at h
      | outOfFuel => simp [ha] at h

theorem accumulateHit_keysSorted (t : NcbiTaxonomy) (fuel : Nat) (s s' : AccState) (h : taxHit)
    (hok : accumulateHit t fuel s h = Outcome.ok s') (hs : KeysSorted s.ancTaxIdsCounts) :
    KeysSorted s'.ancTaxIdsCounts := by
  unfold accumulateHit at hok
  by_cases h0 : h.taxon = 0
  · simp only [h0, if_true, Outcome.ok.injEq] at hok
    subst hok
    exact hs
  · simp only [h0, if_false] at hok
    cases hn : t.taxonNode h.taxon with
    | none => simp [hn] at hok
    | some node =>
      simp only [hn] at hok
      cases ha : addWeight s.ancTaxIdsCounts h.taxon h.weight with
      | ok m1 =>
        simp only [ha] at hok
        cases hw : ancestorsWalk t h.weight fuel m1 h.taxon node.parentTaxId with
        | ok m2 =>
          simp only [hw, Outcome.ok.injEq] at hok
          subst hok
          exact ancestorsWalk_keysSorted t _ fuel _ _ _ _ hw
            (addWeight_keysSorted _ _ _ _ ha hs)
        | fatal => simp [hw] at hok
        | undefined => simp [hw] at hok
        | outOfFuel => simp [hw] at hok
      | fatal => simp [ha] at hok
      | undefined => simp [ha] at hok
      | outOfFuel => simp [ha] at hok

theorem accumulate_keysSorted (t : NcbiTaxonomy) (fuel : Nat) (setTaxa : List taxHit) :
    ∀ (s s' : AccState), accumulate t fuel s setTaxa = Outcome.ok s' →
      KeysSorted s.ancTaxIdsCounts → KeysSorted s'.ancTaxIdsCounts := by
  induction setTaxa with
  | nil =>
    intro s s' h hs
    simp only [accumulate, Outcome.ok.injEq] at h
    exact h ▸ hs
  | cons x xs ih =>
    intro s s' h hs
    rw [accumulate] at h
    cases h1 : accumulateHit t fuel s x with
    | ok s1 =>
      simp only [h1] at h
      exact ih _ _ h (accumulateHit_keysSorted t fuel s s1 x h1 hs)
    | fatal => simp [h1] at h
    | undefined => simp [h1] at h
    | outOfFuel => simp [h1] at h

theorem keysSorted_init : KeysSorted AccState.init.ancTaxIdsCounts := by
  simp [KeysSorted, AccState.init]

/-! ## The shape of a returning run -/

/-- A returning run of `selectTaxForSet` in terms of its three loops. -/
theorem selectTaxForSet_ok (t : NcbiTaxonomy) (fuel : Nat) (setTaxa : List taxHit) (c : ℚ)
    (res : SetResult) (h : selectTaxForSet t fuel setTaxa c = Outcome.ok res) :
    ∃ acc sel, accumulate t fuel AccState.init setTaxa = Outcome.ok acc ∧
      selectLoop t c acc.totalAssignedSeqsWeights SelState.init acc.ancTaxIdsCounts =
        Outcome.ok sel ∧
      res.selctedTaxon = sel.selctedTaxon ∧ res.selectedPercent = sel.selectedPercent ∧
      res.numAssignedSeqs = acc.numAssignedSeqs ∧
      res.numUnassignedSeqs = acc.numUnassignedSeqs ∧
      (sel.selctedTaxon = 1 → res.numSeqsAgreeWithSelectedTaxon = acc.numAssignedSeqs) ∧
      (sel.selctedTaxon ≠ 1 → sel.selctedTaxon = 0 → res.numSeqsAgreeWithSelectedTaxon = 0) ∧
      (sel.selctedTaxon ≠ 1 → sel.selctedTaxon ≠ 0 →
        countAgree t fuel sel.selctedTaxon 0 setTaxa =
          Outcome.ok res.numSeqsAgreeWithSelectedTaxon) := by
  unfold selectTaxForSet at h
  cases ha : accumulate t fuel AccState.init setTaxa with
  | ok acc =>
    simp only [ha] at h
    cases hs : selectLoop t c acc.totalAssignedSeqsWeights SelState.init acc.ancTaxIdsCounts with
    | ok sel =>
      simp only [hs] at h
      refine ⟨acc, sel, rfl, hs, ?_⟩
      by_cases h1 : sel.selctedTaxon = 1
      · simp only [h1, if_true, Outcome.ok.injEq] at h
        subst h
        simp [h1]
      · simp only [h1, if_false] at h
        by_cases h0 : sel.selctedTaxon = 0
        · simp only [h0, if_true, Outcome.ok.injEq] at h
          subst h
          simp [h0]
        · simp only [h0, if_false] at h
          cases hc : countAgree t fuel sel.selctedTaxon 0 setTaxa with
          | ok n =>
            simp only [hc, Outcome.ok.injEq] at h
            subst h
            simp [h1, h0]
          | fatal => simp [hc] at h
          | undefined => simp [hc] at h
          | outOfFuel => simp [hc] at h
    | fatal => simp [hs] at h
    | undefined => simp [hs] at h
    | outOfFuel => simp [hs] at h
  | fatal => simp [ha] at h
  | undefined => simp [ha] at h
  | outOfFuel => simp [ha] at h

/-- The selected taxon of a returning run that selects: it qualifies, and the
reported percent is its accumulated fraction. -/
theorem selected_chosen (t : NcbiTaxonomy) (fuel : Nat) (setTaxa : List taxHit) (c : ℚ)
    (res : SetResult) (h : selectTaxForSet t fuel setTaxa c = Outcome.ok res)
    (hne : res.selctedTaxon ≠ 0) :
    ∃ acc sel v node, accumulate t fuel AccState.init setTaxa = Outcome.ok acc ∧
      selectLoop t c acc.totalAssignedSeqsWeights SelState.init acc.ancTaxIdsCounts =
        Outcome.ok sel ∧
      sel.selctedTaxon = res.selctedTaxon ∧
      acc.ancTaxIdsCounts.find res.selctedTaxon = some v ∧
      t.taxonNode res.selctedTaxon = some node ∧
      sel.minRank = t.findRankIndex node.rank ∧
      res.selectedPercent = (toFloat v).divBy acc.totalAssignedSeqsWeights ∧
      ((toFloat v).divBy acc.totalAssignedSeqsWeights).ge (FloatVal.fin c) = true ∧
      0 < t.findRankIndex node.rank := by
  obtain ⟨acc, sel, ha, hs, h1, h2, _⟩ := selectTaxForSet_ok t fuel setTaxa c res h
  obtain ⟨_, hch, _⟩ := selectLoop_spec t c _ _ _ _ hs
  rcases hch with hch | ⟨v, node, hm, hn, hr, hp, hg, hpos⟩
  · rw [hch] at h1
    exact absurd h1 hne
  · have hsorted := accumulate_keysSorted t fuel setTaxa _ _ ha keysSorted_init
    rw [← h1] at hm hn
    exact ⟨acc, sel, v, node, ha, hs, h1.symm, find_of_mem _ hsorted _ _ hm, hn, hr,
      h2.trans hp, hg, hpos⟩

/-! ## The agreement loop -/

theorem agreeWalk_eq (t : NcbiTaxonomy) (sel : TaxID) (fuel : Nat) :
    ∀ (id : TaxID) (node : TaxonNode) (l : List TaxID),
      t.taxonNode id = some node → lineage t fuel id = some l →
      agreeWalk t sel fuel id node.parentTaxId = Outcome.ok (decide (sel ∈ l.dropLast)) := by
  induction fuel with
  | zero => intro id node l _ h; simp [lineage] at h
  | succ f ih =>
    intro id node l hn h
    rw [lineage] at h
    simp only [hn] at h
    rw [agreeWalk]
    by_cases hp : node.parentTaxId = id
    · simp only [hp, if_true, Option.some.injEq] at h
      subst h
      simp [hp]
    · simp only [hp, if_false, Option.map_eq_some'] at h
      obtain ⟨l', h1, h2⟩ := h
      subst h2
      obtain ⟨l'', hl''⟩ := lineage_head t f _ _ h1
      subst hl''
      have hres := lineage_resolves t f _ _ h1 node.parentTaxId (List.mem_cons_self _ _)
      obtain ⟨node', hn'⟩ := Option.isSome_iff_exists.mp hres
      simp only [hp, if_false, hn']
      by_cases hs : id = sel
      · simp [hs, List.dropLast]
      · rw [if_neg hs, ih _ node' _ hn' h1]
        have hs' : ¬ sel = id := fun h2 => hs h2.symm
        simp [List.dropLast, hs']

theorem countAgree_eq (t : NcbiTaxonomy) (fuel : Nat) (sel : TaxID) (setTaxa : List taxHit) :
    ∀ (n : Nat), FuelSuffices t fuel setTaxa →
      countAgree t fuel sel n setTaxa =
        Outcome.ok (n + (agreeingHits t fuel sel setTaxa).length) := by
  induction setTaxa with
  | nil => intro n _; simp [countAgree, agreeingHits, assignedHits]
  | cons h hs ih =>
    intro n hf
    have hf' : FuelSuffices t fuel hs := fun x hx => hf x (List.mem_cons_of_mem _ hx)
    rw [countAgree]
    by_cases h0 : h.taxon = 0
    · simp only [h0, if_true, ih n hf']
      simp [agreeingHits, assignedHits, h0]
    · simp only [h0, if_false]
      obtain ⟨l, hl⟩ := Option.isSome_iff_exists.mp (hf h (List.mem_cons_self _ _) h0)
      obtain ⟨l', hl'⟩ := lineage_head t fuel _ _ hl
      have hres := lineage_resolves t fuel _ _ hl h.taxon (hl' ▸ List.mem_cons_self _ _)
      obtain ⟨node, hn⟩ := Option.isSome_iff_exists.mp hres
      simp only [hn, agreeWalk_eq t sel fuel _ node l hn hl, ih _ hf']
      by_cases hm : sel ∈ l.dropLast
      · simp [agreeingHits, assignedHits, h0, lineageOf, hl, hm]; omega
      · simp [agreeingHits, assignedHits, h0, lineageOf, hl, hm]

/-! ## Fuel -/

theorem fuelSuffices_mono (t : NcbiTaxonomy) (f f' : Nat) (hle : f ≤ f') (setTaxa : List taxHit)
    (h : FuelSuffices t f setTaxa) : FuelSuffices t f' setTaxa := by
  intro x hx h0
  obtain ⟨l, hl⟩ := Option.isSome_iff_exists.mp (h x hx h0)
  rw [lineage_mono t f f' hle _ l hl]
  rfl

/-- On a tree whose lineages reach the root, some amount of fuel suffices for
every resolving hit of a list, and so does every larger amount. -/
theorem exists_fuel (t : NcbiTaxonomy) (hr : ReachesRoot t) (setTaxa : List taxHit) :
    ∃ f0, ∀ f, f0 ≤ f → ∀ h ∈ setTaxa, (t.taxonNode h.taxon).isSome = true →
      (lineage t f h.taxon).isSome = true := by
  induction setTaxa with
  | nil => exact ⟨0, by simp⟩
  | cons x xs ih =>
    obtain ⟨f1, hf1⟩ := ih
    by_cases hx : (t.taxonNode x.taxon).isSome = true
    · obtain ⟨node, hn⟩ := Option.isSome_iff_exists.mp hx
      obtain ⟨f2, hf2⟩ := hr _ node hn
      obtain ⟨l, hl⟩ := Option.isSome_iff_exists.mp hf2
      refine ⟨max f1 f2, fun f hf h hh hres => ?_⟩
      rcases List.mem_cons.mp hh with h1 | h1
      · subst h1
        rw [lineage_mono t f2 f (le_trans (le_max_right _ _) hf) _ l hl]
        rfl
      · exact hf1 f (le_trans (le_max_left _ _) hf) h h1 hres
    · refine ⟨f1, fun f hf h hh hres => ?_⟩
      rcases List.mem_cons.mp hh with h1 | h1
      · subst h1
        exact absurd hres hx
      · exact hf1 f hf h h1 hres

theorem exists_fuelSuffices (t : NcbiTaxonomy) (hr : ReachesRoot t) (setTaxa : List taxHit)
    (hres : Resolves t setTaxa) : ∃ f0, ∀ f, f0 ≤ f → FuelSuffices t f setTaxa := by
  obtain ⟨f0, hf0⟩ := exists_fuel t hr setTaxa
  exact ⟨f0, fun f hf h hh h0 => hf0 f hf h hh (hres h hh h0)⟩

/-- The keys of the accumulated map resolve in the tree. -/
theorem accPure_keys_resolve (t : NcbiTaxonomy) (fuel : Nat) (setTaxa : List taxHit)
    (k : TaxID)
    (hk : ((accPure t fuel AccState.init setTaxa).ancTaxIdsCounts.find k).isSome = true) :
    (t.taxonNode k).isSome = true := by
  rcases (accPure_isKey t fuel setTaxa AccState.init k).mp hk with h | ⟨h, _, _, hm⟩
  · simp [AccState.init, TaxMap.find] at h
  · unfold lineageOf at hm
    cases hl : lineage t fuel h.taxon with
    | none => simp [hl] at hm
    | some l =>
      simp only [hl, Option.getD_some] at hm
      exact lineage_resolves t fuel _ l hl k hm

/-- With enough fuel and convertible weights `selectTaxForSet` returns. -/
theorem selectTaxForSet_returns (t : NcbiTaxonomy) (fuel : Nat) (setTaxa : List taxHit) (c : ℚ)
    (hw : WeightsConvertible setTaxa) (hf : FuelSuffices t fuel setTaxa) :
    ∃ res, selectTaxForSet t fuel setTaxa c = Outcome.ok res := by
  have ha := accumulate_eq t fuel setTaxa AccState.init hw hf
  have hkeys : ∀ e ∈ (accPure t fuel AccState.init setTaxa).ancTaxIdsCounts,
      (t.taxonNode e.1).isSome = true := by
    intro e he
    apply accPure_keys_resolve t fuel setTaxa
    rw [find_isSome_iff_mem_keys]
    exact List.mem_map.mpr ⟨e, he, rfl⟩
  obtain ⟨sel, hs⟩ := selectLoop_ok t c
    (accPure t fuel AccState.init setTaxa).totalAssignedSeqsWeights _ hkeys SelState.init
  unfold selectTaxForSet
  simp only [ha, hs]
  by_cases h1 : sel.selctedTaxon = 1
  · simp [h1]
  · by_cases h0 : sel.selctedTaxon = 0
    · simp [h0]
    · simp [h1, h0, countAgree_eq t fuel sel.selctedTaxon setTaxa 0 hf]

/-! ## A returning run had enough fuel -/

theorem ancestorsWalk_ok_lineage (t : NcbiTaxonomy) (w : ℚ) (fuel : Nat) :
    ∀ (m m' : TaxMap) (id : TaxID) (node : TaxonNode), t.taxonNode id = some node →
      ancestorsWalk t w fuel m id node.parentTaxId = Outcome.ok m' →
      (lineage t fuel id).isSome = true := by
  induction fuel with
  | zero => intro m m' id node _ h; simp [ancestorsWalk] at h
  | succ f ih =>
    intro m m' id node hn h
    rw [ancestorsWalk] at h
    rw [lineage]
    simp only [hn]
    by_cases hp : node.parentTaxId = id
    · simp [hp]
    · simp only [hp, if_false] at h ⊢
      cases ha : addWeight m node.parentTaxId w with
      | ok m1 =>
        simp only [ha] at h
        cases hn' : t.taxonNode node.parentTaxId with
        | none => simp [hn'] at h
        | some node' =>
          simp only [hn'] at h
          have := ih _ _ _ node' hn' h
          simpa using this
      | fatal => simp [ha] at h
      | undefined => simp [ha] at h
      | outOfFuel => simp [ha] at h

theorem accumulateHit_ok_lineage (t : NcbiTaxonomy) (fuel : Nat) (s s' : AccState) (h : taxHit)
    (hok : accumulateHit t fuel s h = Outcome.ok s') (h0 : h.taxon ≠ 0) :
    (lineage t fuel h.taxon).isSome = true := by
  unfold accumulateHit at hok
  simp only [h0, if_false] at hok
  cases hn : t.taxonNode h.taxon with
  | none => simp [hn] at hok
  | some node =>
    simp only [hn] at hok
    cases ha : addWeight s.ancTaxIdsCounts h.taxon h.weight with
    | ok m1 =>
      simp only [ha] at hok
      cases hw : ancestorsWalk t h.weight fuel m1 h.taxon node.parentTaxId with
      | ok m2 => exact ancestorsWalk_ok_lineage t _ fuel _ _ _ node hn hw
      | fatal => simp [hw] at hok
      | undefined => simp [hw] at hok
      | outOfFuel => simp [hw] at hok
    | fatal => simp [ha] at hok
    | undefined => simp [ha] at hok
    | outOfFuel => simp [ha] at hok

theorem accumulate_ok_fuelSuffices (t : NcbiTaxonomy) (fuel : Nat) (setTaxa : List taxHit) :
    ∀ (s s' : AccState), accumulate t fuel s setTaxa = Outcome.ok s' →
      FuelSuffices t fuel setTaxa := by
  induction setTaxa with
  | nil => intro s s' _ x hx; simp at hx
  | cons x xs ih =>
    intro s s' h
    rw [accumulate] at h
    cases h1 : accumulateHit t fuel s x with
    | ok s1 =>
      simp only [h1] at h
      intro y hy h0
      rcases List.mem_cons.mp hy with hy1 | hy1
      · subst hy1
        exact accumulateHit_ok_lineage t fuel s s1 y h1 h0
      · exact ih _ _ h y hy1 h0
    | fatal => simp [h1] at h
    | undefined => simp [h1] at h
    | outOfFuel => simp [h1] at h

/-! ## The fatal exit -/

/-- The accumulation loop ends in the fatal exit when some assigned hit does
not resolve, provided the fuel suffices for the hits that resolve. -/
theorem accumulate_fatal (t : NcbiTaxonomy) (fuel : Nat) (setTaxa : List taxHit) :
    ∀ (s : AccState), WeightsConvertible setTaxa →
      (∀ h ∈ setTaxa, (t.taxonNode h.taxon).isSome = true →
        (lineage t fuel h.taxon).isSome = true) →
      (∃ h ∈ setTaxa, h.taxon ≠ 0 ∧ t.taxonNode h.taxon = none) →
      accumulate t fuel s setTaxa = Outcome.fatal := by
  induction setTaxa with
  | nil => intro s _ _ hbad; simp at hbad
  | cons x xs ih =>
    intro s hw hf hbad
    rw [accumulate]
    by_cases hx : x.taxon ≠ 0 ∧ t.taxonNode x.taxon = none
    · simp [accumulateHit, hx.1, hx.2]
    · have htail : ∃ h ∈ xs, h.taxon ≠ 0 ∧ t.taxonNode h.taxon = none := by
        obtain ⟨h, hh, hb⟩ := hbad
        rcases List.mem_cons.mp hh with h1 | h1
        · subst h1
          exact absurd hb hx
        · exact ⟨h, h1, hb⟩
      have hstep : accumulateHit t fuel s x = Outcome.ok (accStep t fuel s x) := by
        apply accumulateHit_eq t fuel s x (hw x (List.mem_cons_self _ _))
        intro h0
        apply hf x (List.mem_cons_self _ _)
        cases hn : t.taxonNode x.taxon with
        | none => exact absurd ⟨h0, hn⟩ hx
        | some node => rfl
      rw [hstep]
      exact ih _ (fun y hy => hw y (List.mem_cons_of_mem _ hy))
        (fun y hy => hf y (List.mem_cons_of_mem _ hy)) htail

/-! ## A candidate that beats every other one is selected -/

theorem weightsConvertible_of_whole (setTaxa : List taxHit) (h : WeightsWhole setTaxa) :
    WeightsConvertible setTaxa := by
  intro x hx h0
  obtain ⟨n, hn, hlt⟩ := h x hx h0
  rw [hn]
  constructor
  · have : (0 : ℚ) ≤ (n : ℚ) := Nat.cast_nonneg n
    linarith
  · exact_mod_cast hlt

theorem find_eq_valueAt (m : TaxMap) (k : TaxID) (h : (m.find k).isSome = true) :
    m.find k = some (TaxMap.valueAt m k) := by
  obtain ⟨v, hv⟩ := Option.isSome_iff_exists.mp h
  simp [TaxMap.valueAt, hv]

/-- If the entry of `T` qualifies and every other qualifying node has a larger
rank-index, the run returns `T` with the fraction of `T`. -/
theorem selectTaxForSet_selects (t : NcbiTaxonomy) (fuel : Nat) (setTaxa : List taxHit) (c : ℚ)
    (T : TaxID) (vT : ℚ) (nodeT : TaxonNode) (hT0 : T ≠ 0)
    (hw : WeightsConvertible setTaxa) (hf : FuelSuffices t fuel setTaxa) (hc : 0 < c)
    (hfind : (accPure t fuel AccState.init setTaxa).ancTaxIdsCounts.find T = some vT)
    (hn : t.taxonNode T = some nodeT)
    (hge : ((toFloat vT).divBy (accPure t fuel AccState.init setTaxa).totalAssignedSeqsWeights).ge
      (FloatVal.fin c) = true)
    (hpos : 0 < t.findRankIndex nodeT.rank) (hint : t.findRankIndex nodeT.rank ≤ INT_MAX)
    (hbest : ∀ k, k ≠ T → Qualifies t c (accPure t fuel AccState.init setTaxa) k →
      ∀ node, t.taxonNode k = some node →
        t.findRankIndex nodeT.rank < t.findRankIndex node.rank) :
    ∃ res, selectTaxForSet t fuel setTaxa c = Outcome.ok res ∧ res.selctedTaxon = T ∧
      res.selectedPercent =
        (toFloat vT).divBy (accPure t fuel AccState.init setTaxa).totalAssignedSeqsWeights ∧
      res.numAssignedSeqs = (assignedHits setTaxa).length ∧
      res.numUnassignedSeqs = (setTaxa.filter (fun h => decide (h.taxon = 0))).length ∧
      res.numSeqsAgreeWithSelectedTaxon =
        if T = 1 then (assignedHits setTaxa).length
        else (agreeingHits t fuel T setTaxa).length := by
  obtain ⟨res, hsel⟩ := selectTaxForSet_returns t fuel setTaxa c hw hf
  obtain ⟨acc, sel, ha, hs, h1, h2, h3, h4, h5, h6, h7⟩ :=
    selectTaxForSet_ok t fuel setTaxa c res hsel
  have hacc := accumulate_eq t fuel setTaxa AccState.init hw hf
  rw [ha] at hacc
  cases hacc
  have hsorted := accPure_keysSorted t fuel setTaxa AccState.init keysSorted_init
  obtain ⟨_, hch, hall⟩ := selectLoop_spec t c _ _ _ _ hs
  obtain ⟨node', hn', hrest⟩ := hall (T, vT) (mem_of_find _ _ _ hfind) hge
  rw [hn] at hn'
  cases hn'
  obtain ⟨hle, hgt⟩ := hrest hpos
  have hselT : sel.selctedTaxon = T ∧ sel.selectedPercent =
      (toFloat vT).divBy (accPure t fuel AccState.init setTaxa).totalAssignedSeqsWeights := by
    rcases hch with hch | ⟨v, node, hm, hnk, hr, hp, hg, hposk⟩
    · rw [hch] at hle hgt
      have heq : t.findRankIndex nodeT.rank = SelState.init.minRank := le_antisymm hint hle
      have := hgt heq
      rw [show SelState.init.selectedPercent = FloatVal.fin 0 from rfl,
        FloatVal.gt_zero_of_ge _ c hc hge] at this
      exact absurd this (by simp)
    · by_cases hk : sel.selctedTaxon = T
      · rw [hk] at hm
        have := find_of_mem _ hsorted _ _ hm
        rw [hfind] at this
        cases this
        exact ⟨hk, hp⟩
      · have hq : Qualifies t c (accPure t fuel AccState.init setTaxa) sel.selctedTaxon :=
          ⟨v, node, find_of_mem _ hsorted _ _ hm, hnk, hg, hposk⟩
        have := hbest _ hk hq node hnk
        rw [← hr] at this
        exact absurd hle (not_le.mpr this)
  refine ⟨res, hsel, h1.trans hselT.1, h2.trans hselT.2, ?_, ?_, ?_⟩
  · rw [h3, accPure_numAssigned]
    simp [AccState.init]
  · rw [h4, accPure_numUnassigned]
    simp [AccState.init]
  · by_cases hT1 : T = 1
    · rw [if_pos hT1, h5 (hselT.1.trans hT1), accPure_numAssigned]
      simp [AccState.init]
    · rw [if_neg hT1]
      have hc' := h7 (by rw [hselT.1]; exact hT1) (by rw [hselT.1]; exact hT0)
      rw [countAgree_eq t fuel _ setTaxa 0 hf, hselT.1] at hc'
      simp only [Outcome.ok.injEq, zero_add] at hc'
      exact hc'.symm

theorem fdiv_self (x : ℚ) (hx : x ≠ 0) : fdiv x x = FloatVal.fin 1 := by
  simp [fdiv, hx]

theorem lineageWeight_of_same_taxon (t : NcbiTaxonomy) (fuel : Nat) (setTaxa : List taxHit)
    (T k : TaxID) (hall : ∀ h ∈ setTaxa, h.taxon = T) (hk : k ∈ lineageOf t fuel T) :
    lineageWeight t fuel setTaxa k = assignedWeight setTaxa := by
  unfold lineageWeight assignedWeight
  congr 2
  apply List.filter_eq_self.mpr
  intro h hh
  have hmem : h ∈ setTaxa := (List.mem_filter.mp hh).1
  simp [hall h hmem, hk]

/-- The lineage of a node that is not a root is the node followed by the
lineage of its parent. -/
theorem lineageOf_child (t : NcbiTaxonomy) (fuel : Nat) (id : TaxID) (node : TaxonNode)
    (hn : t.taxonNode id = some node) (hp : node.parentTaxId ≠ id)
    (hf : (lineage t fuel id).isSome = true) :
    (lineage t fuel node.parentTaxId).isSome = true ∧
      lineageOf t fuel id = id :: lineageOf t fuel node.parentTaxId ∧
      lineageOf t fuel node.parentTaxId ≠ [] := by
  obtain ⟨l, hl⟩ := Option.isSome_iff_exists.mp hf
  cases fuel with
  | zero => simp [lineage] at hl
  | succ f =>
    have hl0 := hl
    rw [lineage] at hl
    simp only [hn, hp, if_false, Option.map_eq_some'] at hl
    obtain ⟨l', h1, h2⟩ := hl
    have h3 := lineage_succ t f _ _ h1
    obtain ⟨l'', hl''⟩ := lineage_head t f _ _ h1
    refine ⟨by simp [h3], ?_, ?_⟩
    · simp [lineageOf, hl0, h3, h2]
    · simp [lineageOf, h3, hl'']

/-! ## The sample trees are well formed -/

theorem sampleRankIndex_le (r : String) : sampleRankIndex r ≤ INT_MAX := by
  unfold sampleRankIndex
  split_ifs <;> decide

theorem sampleTree_wellFormed : WellFormed sampleTree := by
  refine ⟨rfl, ?_⟩
  intro id node h
  simp only [sampleTree, sampleNode] at h
  split_ifs at h with h1 h2 h3 h4 h5 h6 h7
  all_goals (subst id; exact ⟨4, by decide⟩)

theorem rootTwoTree_wellFormed : WellFormed rootTwoTree := by
  refine ⟨rfl, ?_⟩
  intro id node h
  simp only [rootTwoTree, rootTwoNode] at h
  split_ifs at h with h1 h2 h3
  all_goals (subst id; exact ⟨4, by decide⟩)

theorem nestedTree_wellFormed : WellFormed nestedTree := by
  refine ⟨rfl, ?_⟩
  intro id node h
  simp only [nestedTree, nestedNode] at h
  split_ifs at h with h1 h2 h3
  all_goals (subst id; exact ⟨4, by decide⟩)

theorem digitChar_ne_tab (n : Nat) : decimalDigit n ≠ '\t' := by
  unfold decimalDigit
  split <;> decide

theorem noTab_digitsOf (fuel : Nat) : ∀ n, '\t' ∉ digitsOf fuel n := by
  induction fuel with
  | zero => intro n; simp [digitsOf]
  | succ f ih =>
    intro n
    unfold digitsOf
    split_ifs
    · simp only [List.mem_singleton]
      exact fun h => digitChar_ne_tab n h.symm
    · simp only [List.mem_append, List.mem_singleton, not_or]
      exact ⟨ih _, fun h => digitChar_ne_tab _ h.symm⟩

theorem noTab_sampleSstrSize (n : Nat) : NoTab (sampleSstrSize n) :=
  noTab_digitsOf (n + 1) n

theorem noTab_sampleSstrInt (i : Int) : NoTab (sampleSstrInt i) := by
  unfold sampleSstrInt NoTab
  split_ifs
  · rw [String.data_append]
    simp only [List.mem_append, not_or]
    exact ⟨by decide, noTab_sampleSstrSize _⟩
  · exact noTab_sampleSstrSize _

theorem mem_of_mem_dropTrailingZeros (l : List Char) :
    ∀ x, x ∈ dropTrailingZeros l → x ∈ l := by
  induction l with
  | nil => intro x hx; simp [dropTrailingZeros] at hx
  | cons c cs ih =>
    intro x hx
    unfold dropTrailingZeros at hx
    cases hr : dropTrailingZeros cs with
    | nil =>
      rw [hr] at hx
      simp only [] at hx
      split_ifs at hx
      · simp at hx
      · simp only [List.mem_singleton] at hx
        rw [hx]
        exact List.mem_cons_self _ _
    | cons r rs =>
      rw [hr] at hx
      simp only [] at hx
      rcases List.mem_cons.mp hx with h | h
      · rw [h]
        exact List.mem_cons_self _ _
      · exact List.mem_cons_of_mem _ (ih x (by rw [hr]; exact h))

theorem noTab_sixDigits (m : Nat) : '\t' ∉ sixDigits m := by
  unfold sixDigits
  simp only [List.mem_cons, List.mem_singleton, List.not_mem_nil, or_false, not_or]
  exact ⟨fun h => digitChar_ne_tab _ h.symm, fun h => digitChar_ne_tab _ h.symm,
    fun h => digitChar_ne_tab _ h.symm, fun h => digitChar_ne_tab _ h.symm,
    fun h => digitChar_ne_tab _ h.symm, fun h => digitChar_ne_tab _ h.symm⟩

theorem noTab_sampleSstrFloat (p : FloatVal) : NoTab (sampleSstrFloat p) := by
  have hnan : '\t' ∉ ("nan" : String).data := by decide
  have hdot : '\t' ∉ ("." : String).data := by decide
  unfold NoTab
  cases p with
  | nan => exact hnan
  | negInf => exact hnan
  | posInf => exact hnan
  | fin q =>
    unfold sampleSstrFloat
    simp only []
    split_ifs
    · split
      · exact noTab_sampleSstrSize _
      · simp only [String.data_append, List.mem_append, not_or]
        refine ⟨⟨noTab_sampleSstrSize _, hdot⟩, ?_⟩
        intro hmem
        exact noTab_sixDigits _ (mem_of_mem_dropTrailingZeros _ _ hmem)
    · exact hnan

/-! ## The claims -/

/-- C1, evaluated on the code: for the single hit of taxon `11` and weight `5/2`
on the well-formed sample tree, the accumulation loop stores `2` under node `11`
and under each of its ancestors, while the sum of the weights of the hits whose
lineage contains the node is `5/2`; `totalAssignedSeqsWeights` is the sum `5/2`. -/
theorem C1_first_weight_is_truncated :
    WellFormed sampleTree ∧
      accumulate sampleTree 10 AccState.init [⟨11, 41 / 500, 5 / 2⟩] =
        Outcome.ok ⟨[(1, 2), (2, 2), (10, 2), (11, 2)], 1, 0, 5 / 2⟩ ∧
      lineageWeight sampleTree 10 [⟨11, 41 / 500, 5 / 2⟩] 11 = 5 / 2 ∧
      assignedWeight [⟨11, 41 / 500, 5 / 2⟩] = 5 / 2 := by
  refine ⟨sampleTree_wellFormed, ?_, ?_, ?_⟩ <;> with_unfolding_all decide

/-- The choice of the selection loop is the best among the nodes that pass its
own test: when `selectTaxForSet` returns a non-zero taxon `s`, no node that
passes the test of line 109 on the quotient of line 108 has a rank-index
strictly smaller than that of `s`, and none with the rank-index of `s` has a
strictly larger quotient. -/
theorem selected_is_best_of_passing (t : NcbiTaxonomy) (fuel : Nat) (setTaxa : List taxHit)
    (majorityCutoff : ℚ) (res : SetResult)
    (h : selectTaxForSet t fuel setTaxa majorityCutoff = Outcome.ok res)
    (hne : res.selctedTaxon ≠ 0) :
    ∃ acc rs fs, accumulate t fuel AccState.init setTaxa = Outcome.ok acc ∧
      rankIndexOf t res.selctedTaxon = some rs ∧ fractionOf acc res.selctedTaxon = some fs ∧
      ∀ k rk fk, Qualifies t majorityCutoff acc k → rankIndexOf t k = some rk →
        fractionOf acc k = some fk → rs ≤ rk ∧ (rk = rs → fk.gt fs = false) := by
  obtain ⟨acc, sel, v, node, ha, hs, h1, hf, hn, hr, hp, hg, hpos⟩ :=
    selected_chosen t fuel setTaxa majorityCutoff res h hne
  obtain ⟨acc', sel', ha', hs', _, h2, _⟩ := selectTaxForSet_ok t fuel setTaxa majorityCutoff res h
  rw [ha] at ha'
  cases ha'
  rw [hs] at hs'
  cases hs'
  refine ⟨acc, t.findRankIndex node.rank, (toFloat v).divBy acc.totalAssignedSeqsWeights, ha, ?_, ?_, ?_⟩
  · simp [rankIndexOf, hn]
  · simp [fractionOf, hf]
  · intro k rk fk hq hrk hfk
    obtain ⟨vk, nk, hfind, hnk, hgek, hposk⟩ := hq
    simp only [rankIndexOf, hnk, Option.map_some', Option.some.injEq] at hrk
    simp only [fractionOf, hfind, Option.map_some', Option.some.injEq] at hfk
    obtain ⟨_, _, hall⟩ := selectLoop_spec t majorityCutoff _ _ _ _ hs
    obtain ⟨nk', hnk', hrest⟩ := hall (k, vk) (mem_of_find _ _ _ hfind) hgek
    rw [hnk] at hnk'
    cases hnk'
    obtain ⟨hle, hgt⟩ := hrest hposk
    rw [hr] at hle hgt
    rw [← hp, h2] at *
    subst hrk hfk
    exact ⟨hle, fun heq => hgt heq⟩

/-- The choice of the loop at a concrete input: the set of the scenario on the
sample tree. -/
theorem selected_is_best_of_passing_sample :
    selectTaxForSet sampleTree 10 [⟨11, 1, 1⟩, ⟨12, 1, 1⟩, ⟨10, 1, 1⟩, ⟨0, 1, 0⟩] (1 / 2) =
        Outcome.ok ⟨10, 3, 1, 3, FloatVal.fin 1⟩ ∧
      ∃ acc rs fs, accumulate sampleTree 10 AccState.init
          [⟨11, 1, 1⟩, ⟨12, 1, 1⟩, ⟨10, 1, 1⟩, ⟨0, 1, 0⟩] = Outcome.ok acc ∧
        rankIndexOf sampleTree 10 = some rs ∧ fractionOf acc 10 = some fs ∧
        ∀ k rk fk, Qualifies sampleTree (1 / 2) acc k → rankIndexOf sampleTree k = some rk →
          fractionOf acc k = some fk → rs ≤ rk ∧ (rk = rs → fk.gt fs = false) :=
  ⟨by with_unfolding_all decide,
    selected_is_best_of_passing sampleTree 10 [⟨11, 1, 1⟩, ⟨12, 1, 1⟩, ⟨10, 1, 1⟩, ⟨0, 1, 0⟩]
      (1 / 2) ⟨10, 3, 1, 3, FloatVal.fin 1⟩ (by with_unfolding_all decide) (by decide)⟩

/-- C2, evaluated on the code: hits of species `11` with the weights `1` and
`1 + 1/2^23` and a hit of species `21` with the weight `2 + 1/2^23` on the
well-formed sample tree, cutoff `1/2`.  Species `11` accumulates `2 + 1/2^23`
of the denominator `4 + 1/2^22`, exactly one half, and its rank-index `4` is
positive: it qualifies.  The code stores that sum under `11`, but line 108
divides `float(2 + 1/2^23)`, which is `2`; the quotient is below the cutoff, the
loop passes over `11`, and `selectTaxForSet` returns the superkingdom `2`, whose
rank-index `28` is larger than that of the qualifying species. -/
theorem C2_qualifying_species_passed_over :
    WellFormed sampleTree ∧
      accumulate sampleTree 10 AccState.init
          [⟨11, 1, 1⟩, ⟨11, 1, 8388609 / 8388608⟩, ⟨21, 1, 16777217 / 8388608⟩] =
        Outcome.ok ⟨[(1, 16777217 / 4194304), (2, 16777217 / 4194304),
          (10, 16777217 / 8388608), (11, 16777217 / 8388608), (20, 2), (21, 2)], 3, 0,
          16777217 / 4194304⟩ ∧
      toFloat (16777217 / 8388608) = FloatVal.fin 2 ∧
      selectTaxForSet sampleTree 10
          [⟨11, 1, 1⟩, ⟨11, 1, 8388609 / 8388608⟩, ⟨21, 1, 16777217 / 8388608⟩] (1 / 2) =
        Outcome.ok ⟨2, 3, 0, 3, FloatVal.fin (16777216 / 16777217)⟩ ∧
      accumulatedFraction sampleTree 10
          [⟨11, 1, 1⟩, ⟨11, 1, 8388609 / 8388608⟩, ⟨21, 1, 16777217 / 8388608⟩] 11 =
        FloatVal.fin (1 / 2) ∧
      QualifiesByWeight sampleTree 10
        [⟨11, 1, 1⟩, ⟨11, 1, 8388609 / 8388608⟩, ⟨21, 1, 16777217 / 8388608⟩] (1 / 2) 11 ∧
      rankIndexOf sampleTree 11 = some 4 ∧ rankIndexOf sampleTree 2 = some 28 := by
  have hl : lineageOf sampleTree 10 11 = [11, 10, 2, 1] := by with_unfolding_all rfl
  refine ⟨sampleTree_wellFormed, ?_, ?_, ?_, ?_,
    ⟨⟨⟨11, 1, 1⟩, by simp [assignedHits], by rw [hl]; simp⟩, ?_,
      ⟨11, 10, "species", "A"⟩, rfl, by decide⟩, rfl, rfl⟩ <;> with_unfolding_all rfl

/-- C3, evaluated on the code: hits of taxon `11` with the weights `1` and
`1 + 3/2^24` and a hit of its parent `10` with the weight `1/2^25` on the
well-formed sample tree, cutoff `1`.  Node `11` accumulates `2 + 3/2^24` of the
total `2 + 3/2^24 + 1/2^25`, a quotient below the cutoff; line 108 divides
`float(it->second)`, which is `2 + 4/2^24`, so `selectTaxForSet` returns `11`
with a `selectedPercent` that is not the quotient of the accumulated weight and
the total. -/
theorem C3_selected_below_cutoff :
    WellFormed sampleTree ∧
      accumulate sampleTree 10 AccState.init
          [⟨11, 1 / 3, 1⟩, ⟨11, 1 / 3, 16777219 / 16777216⟩, ⟨10, 1 / 3, 1 / 33554432⟩] =
        Outcome.ok ⟨[(1, 67108871 / 33554432), (2, 67108871 / 33554432),
          (10, 67108871 / 33554432), (11, 33554435 / 16777216)], 3, 0, 67108871 / 33554432⟩ ∧
      selectTaxForSet sampleTree 10
          [⟨11, 1 / 3, 1⟩, ⟨11, 1 / 3, 16777219 / 16777216⟩, ⟨10, 1 / 3, 1 / 33554432⟩] 1 =
        Outcome.ok ⟨11, 3, 0, 2, FloatVal.fin (67108872 / 67108871)⟩ ∧
      (33554435 / 16777216 : ℚ) / (67108871 / 33554432) < 1 ∧
      (33554435 / 16777216 : ℚ) / (67108871 / 33554432) ≠ 67108872 / 67108871 := by
  refine ⟨sampleTree_wellFormed, ?_, ?_, by norm_num, by norm_num⟩ <;> with_unfolding_all rfl

/-- On a well-formed tree in which the taxa of the hits resolve, with weights in
the range of the `unsigned int` conversion, rank-indices that are C++ `int`s and
a positive cutoff, `selectTaxForSet` returns, given enough fuel; it returns `0`
exactly when no node passes the test of the selection loop on the quotient of
line 108, and then `selectedPercent` and `numSeqsAgreeWithSelectedTaxon` are
`0`. -/
theorem zero_iff_none_passes (t : NcbiTaxonomy) (setTaxa : List taxHit)
    (majorityCutoff : ℚ) (hwf : WellFormed t) (hres : Resolves t setTaxa)
    (hw : WeightsConvertible setTaxa) (hint : ∀ r, t.findRankIndex r ≤ INT_MAX)
    (hc : 0 < majorityCutoff) :
    ∃ fuel0, ∀ fuel, fuel0 ≤ fuel →
      ∃ acc res, accumulate t fuel AccState.init setTaxa = Outcome.ok acc ∧
        selectTaxForSet t fuel setTaxa majorityCutoff = Outcome.ok res ∧
        (res.selctedTaxon = 0 ↔ ∀ k, ¬ Qualifies t majorityCutoff acc k) ∧
        (res.selctedTaxon = 0 →
          res.selectedPercent = FloatVal.fin 0 ∧ res.numSeqsAgreeWithSelectedTaxon = 0) := by
  obtain ⟨f0, hf0⟩ := exists_fuelSuffices t hwf.2 setTaxa hres
  refine ⟨f0, fun fuel hfuel => ?_⟩
  have hf := hf0 fuel hfuel
  obtain ⟨res, hsel⟩ := selectTaxForSet_returns t fuel setTaxa majorityCutoff hw hf
  obtain ⟨acc, sel, ha, hs, h1, h2, _, _, h5, h6, _⟩ :=
    selectTaxForSet_ok t fuel setTaxa majorityCutoff res hsel
  have hacc := accumulate_eq t fuel setTaxa AccState.init hw hf
  rw [ha] at hacc
  cases hacc
  obtain ⟨_, hch, hall⟩ := selectLoop_spec t majorityCutoff _ _ _ _ hs
  have hkey0 : ∀ v, (0, v) ∉ (accPure t fuel AccState.init setTaxa).ancTaxIdsCounts := by
    intro v hm
    have hk : ((accPure t fuel AccState.init setTaxa).ancTaxIdsCounts.find 0).isSome = true := by
      rw [find_isSome_iff_mem_keys]
      exact List.mem_map.mpr ⟨(0, v), hm, rfl⟩
    have := accPure_keys_resolve t fuel setTaxa 0 hk
    rw [hwf.1] at this
    simp at this
  have hiff : sel.selctedTaxon = 0 ↔ sel = SelState.init := by
    constructor
    · intro hz
      rcases hch with hch | ⟨v, _, hm, _⟩
      · exact hch
      · rw [hz] at hm
        exact absurd hm (hkey0 v)
    · intro hi
      rw [hi]
      rfl
  refine ⟨_, res, ha, hsel, ?_, ?_⟩
  · rw [h1, hiff]
    constructor
    · intro hi k hq
      obtain ⟨v, node, hfind, hn, hge, hpos⟩ := hq
      obtain ⟨node', hn', hrest⟩ := hall (k, v) (mem_of_find _ _ _ hfind) hge
      rw [hn] at hn'
      cases hn'
      obtain ⟨hle, hgt⟩ := hrest hpos
      rw [hi] at hle hgt
      have heq : t.findRankIndex node.rank = SelState.init.minRank :=
        le_antisymm (hint _) hle
      have := hgt heq
      rw [show SelState.init.selectedPercent = FloatVal.fin 0 from rfl,
        FloatVal.gt_zero_of_ge _ majorityCutoff hc hge] at this
      exact absurd this (by simp)
    · intro hnone
      rcases hch with hch | ⟨v, node, hm, hn, _, _, hg, hpos⟩
      · exact hch
      · have hsorted := accPure_keysSorted t fuel setTaxa AccState.init keysSorted_init
        exact absurd ⟨v, node, find_of_mem _ hsorted _ _ hm, hn, hg, hpos⟩ (hnone _)
  · intro hz
    rw [h1] at hz
    have hi := hiff.mp hz
    refine ⟨?_, h6 (by rw [hz]; decide) hz⟩
    rw [h2, hi]
    rfl

/-- The result `0` at a concrete input: eight hits on species `11` and two on
species `21` of the sample tree, cutoff `9/10`. -/
theorem zero_iff_none_passes_sample :
    WellFormed sampleTree ∧
      Resolves sampleTree (List.replicate 8 ⟨11, 1, 1⟩ ++ List.replicate 2 ⟨21, 1, 1⟩) ∧
      WeightsConvertible (List.replicate 8 ⟨11, 1, 1⟩ ++ List.replicate 2 ⟨21, 1, 1⟩) ∧
      (0 : ℚ) < 9 / 10 ∧
      ∃ fuel0, ∀ fuel, fuel0 ≤ fuel →
        ∃ acc res, accumulate sampleTree fuel AccState.init
            (List.replicate 8 ⟨11, 1, 1⟩ ++ List.replicate 2 ⟨21, 1, 1⟩) = Outcome.ok acc ∧
          selectTaxForSet sampleTree fuel
            (List.replicate 8 ⟨11, 1, 1⟩ ++ List.replicate 2 ⟨21, 1, 1⟩) (9 / 10) =
              Outcome.ok res ∧
          (res.selctedTaxon = 0 ↔ ∀ k, ¬ Qualifies sampleTree (9 / 10) acc k) ∧
          (res.selctedTaxon = 0 →
            res.selectedPercent = FloatVal.fin 0 ∧ res.numSeqsAgreeWithSelectedTaxon = 0) :=
  have hres : Resolves sampleTree (List.replicate 8 ⟨11, 1, 1⟩ ++ List.replicate 2 ⟨21, 1, 1⟩) := by
    intro h hh _
    simp only [List.mem_append, List.mem_replicate] at hh
    rcases hh with ⟨_, rfl⟩ | ⟨_, rfl⟩ <;> rfl
  have hw : WeightsConvertible
      (List.replicate 8 ⟨11, 1, 1⟩ ++ List.replicate 2 ⟨21, 1, 1⟩) := by
    intro h hh _
    simp only [List.mem_append, List.mem_replicate] at hh
    rcases hh with ⟨_, rfl⟩ | ⟨_, rfl⟩ <;> norm_num
  ⟨sampleTree_wellFormed, hres, hw, by norm_num,
    zero_iff_none_passes sampleTree _ (9 / 10) sampleTree_wellFormed hres hw
      sampleRankIndex_le (by norm_num)⟩

/-- C4, evaluated on the code, at two inputs on the well-formed sample tree.
Hits of species `11` with the weights `1` and `1 + 1/2^24`, cutoff `1`: species
`11` accumulates the whole denominator `2 + 1/2^24` and its rank-index is
positive, so it qualifies; the code stores that sum, but line 108 divides
`float(2 + 1/2^24)`, which is `2`, no quotient reaches the cutoff, and
`selectTaxForSet` returns `0`.  One hit of species `11` with the weight `1/2`,
cutoff `1/2`: species `11` accumulates the whole denominator and qualifies, but
lines 85 and 94 store `0` under every node, and `selectTaxForSet` returns
`0`. -/
theorem C4_zero_though_species_qualifies :
    WellFormed sampleTree ∧
      accumulate sampleTree 10 AccState.init [⟨11, 1, 1⟩, ⟨11, 1, 16777217 / 16777216⟩] =
        Outcome.ok ⟨[(1, 33554433 / 16777216), (2, 33554433 / 16777216),
          (10, 33554433 / 16777216), (11, 33554433 / 16777216)], 2, 0,
          33554433 / 16777216⟩ ∧
      toFloat (33554433 / 16777216) = FloatVal.fin 2 ∧
      selectTaxForSet sampleTree 10 [⟨11, 1, 1⟩, ⟨11, 1, 16777217 / 16777216⟩] 1 =
        Outcome.ok ⟨0, 2, 0, 0, FloatVal.fin 0⟩ ∧
      accumulatedFraction sampleTree 10 [⟨11, 1, 1⟩, ⟨11, 1, 16777217 / 16777216⟩] 11 =
        FloatVal.fin 1 ∧
      QualifiesByWeight sampleTree 10 [⟨11, 1, 1⟩, ⟨11, 1, 16777217 / 16777216⟩] 1 11 ∧
      accumulate sampleTree 10 AccState.init [⟨11, 1, 1 / 2⟩] =
        Outcome.ok ⟨[(1, 0), (2, 0), (10, 0), (11, 0)], 1, 0, 1 / 2⟩ ∧
      selectTaxForSet sampleTree 10 [⟨11, 1, 1 / 2⟩] (1 / 2) =
        Outcome.ok ⟨0, 1, 0, 0, FloatVal.fin 0⟩ ∧
      accumulatedFraction sampleTree 10 [⟨11, 1, 1 / 2⟩] 11 = FloatVal.fin 1 ∧
      QualifiesByWeight sampleTree 10 [⟨11, 1, 1 / 2⟩] (1 / 2) 11 := by
  have hl : lineageOf sampleTree 10 11 = [11, 10, 2, 1] := by with_unfolding_all rfl
  refine ⟨sampleTree_wellFormed, ?_, ?_, ?_, ?_,
    ⟨⟨⟨11, 1, 1⟩, by simp [assignedHits], by rw [hl]; simp⟩, ?_,
      ⟨11, 10, "species", "A"⟩, rfl, by decide⟩, ?_, ?_, ?_,
    ⟨⟨⟨11, 1, 1 / 2⟩, by simp [assignedHits], by rw [hl]; simp⟩, ?_,
      ⟨11, 10, "species", "A"⟩, rfl, by decide⟩⟩ <;> with_unfolding_all rfl

/-- C5 as stated fails: on the tree with root `2`, the hits `[1, 1, 3]` and
cutoff `1/2` select the species `1`, which is not the root; two hits visit `1`
before the root, and the reported `numSeqsAgreeWithSelectedTaxon` is `3`. -/
theorem C5_counterexample :
    selectTaxForSet rootTwoTree 10 [⟨1, 1, 1⟩, ⟨1, 1, 1⟩, ⟨3, 1, 1⟩] (1 / 2) =
        Outcome.ok ⟨1, 3, 0, 3, FloatVal.fin (2 / 3)⟩ ∧
      ¬ IsRoot rootTwoTree 1 ∧
      (agreeingHits rootTwoTree 10 1 [⟨1, 1, 1⟩, ⟨1, 1, 1⟩, ⟨3, 1, 1⟩]).length = 2 := by
  refine ⟨by with_unfolding_all decide, ?_, by with_unfolding_all decide⟩
  rintro ⟨node, h1, h2⟩
  simp only [rootTwoTree, rootTwoNode] at h1
  simp only [show ¬ ((1 : TaxID) = 2) by decide, if_false, if_true, Option.some.injEq] at h1
  subst h1
  simp at h2

/-- C5, amended: when `selectTaxForSet` returns a taxon `s` other than `0` and
`1`, `numSeqsAgreeWithSelectedTaxon` is the number of assigned hits whose
lineage holds `s` before the root. -/
theorem C5_agree_counts_lineages (t : NcbiTaxonomy) (fuel : Nat) (setTaxa : List taxHit)
    (majorityCutoff : ℚ) (res : SetResult)
    (h : selectTaxForSet t fuel setTaxa majorityCutoff = Outcome.ok res)
    (h0 : res.selctedTaxon ≠ 0) (h1 : res.selctedTaxon ≠ 1) :
    res.numSeqsAgreeWithSelectedTaxon =
      (agreeingHits t fuel res.selctedTaxon setTaxa).length := by
  obtain ⟨acc, sel, ha, _, hs, _, _, _, _, _, hc⟩ :=
    selectTaxForSet_ok t fuel setTaxa majorityCutoff res h
  rw [hs] at h0 h1
  have hcount := hc h1 h0
  rw [countAgree_eq t fuel _ setTaxa 0 (accumulate_ok_fuelSuffices t fuel setTaxa _ _ ha)] at hcount
  simp only [Outcome.ok.injEq, zero_add] at hcount
  rw [hs]
  exact hcount.symm

/-- C5, amended, at a concrete input: two hits on species `11` and one on
species `21` of the sample tree. -/
theorem C5_agree_counts_lineages_witness :
    selectTaxForSet sampleTree 10 [⟨11, 1, 1⟩, ⟨11, 1, 1⟩, ⟨21, 1, 1⟩] (1 / 2) =
        Outcome.ok ⟨11, 3, 0, 2, FloatVal.fin (2 / 3)⟩ ∧
      (2 : Nat) = (agreeingHits sampleTree 10 11 [⟨11, 1, 1⟩, ⟨11, 1, 1⟩, ⟨21, 1, 1⟩]).length :=
  ⟨by with_unfolding_all decide,
    C5_agree_counts_lineages sampleTree 10 [⟨11, 1, 1⟩, ⟨11, 1, 1⟩, ⟨21, 1, 1⟩] (1 / 2)
      ⟨11, 3, 0, 2, FloatVal.fin (2 / 3)⟩ (by with_unfolding_all decide) (by decide) (by decide)⟩

/-- C6 as stated fails: on the tree whose only root is `2`, the hits `[1, 3]`
and cutoff `9/10` select the root `2`; both hits are assigned and the reported
`numSeqsAgreeWithSelectedTaxon` is `0`. -/
theorem C6_counterexample :
    selectTaxForSet rootTwoTree 10 [⟨1, 1, 1⟩, ⟨3, 1, 1⟩] (9 / 10) =
        Outcome.ok ⟨2, 2, 0, 0, FloatVal.fin 1⟩ ∧
      IsRoot rootTwoTree 2 ∧ ∀ id, IsRoot rootTwoTree id → id = 2 := by
  refine ⟨by with_unfolding_all decide, ⟨⟨2, 2, "superkingdom", "Bacteria"⟩, rfl, rfl⟩, ?_⟩
  rintro id ⟨node, h1, h2⟩
  simp only [rootTwoTree, rootTwoNode] at h1
  split_ifs at h1 with a b c
  · exact a
  · simp only [Option.some.injEq] at h1
    rw [← h1] at h2
    exact h2.symm
  · simp only [Option.some.injEq] at h1
    rw [← h1] at h2
    exact h2.symm

/-- C6, amended: when `selectTaxForSet` returns the taxon `1`, the id that line
124 takes for the root, `numSeqsAgreeWithSelectedTaxon` is `numAssignedSeqs`. -/
theorem C6_root_one_all_agree (t : NcbiTaxonomy) (fuel : Nat) (setTaxa : List taxHit)
    (majorityCutoff : ℚ) (res : SetResult)
    (h : selectTaxForSet t fuel setTaxa majorityCutoff = Outcome.ok res)
    (h1 : res.selctedTaxon = 1) :
    res.numSeqsAgreeWithSelectedTaxon = res.numAssignedSeqs := by
  obtain ⟨acc, sel, _, _, hs, _, hn, _, hr, _, _⟩ :=
    selectTaxForSet_ok t fuel setTaxa majorityCutoff res h
  rw [hs] at h1
  rw [hr h1, hn]

/-- C6, amended, at a concrete input: one hit on each species of the sample
tree whose root `1` is a superkingdom, cutoff `9/10`. -/
theorem C6_root_one_all_agree_witness :
    selectTaxForSet rankedRootTree 10 [⟨11, 1, 1⟩, ⟨12, 1, 1⟩] (9 / 10) =
        Outcome.ok ⟨1, 2, 0, 2, FloatVal.fin 1⟩ ∧ (2 : Nat) = 2 :=
  ⟨by with_unfolding_all decide,
    C6_root_one_all_agree rankedRootTree 10 [⟨11, 1, 1⟩, ⟨12, 1, 1⟩] (9 / 10)
      ⟨1, 2, 0, 2, FloatVal.fin 1⟩ (by with_unfolding_all decide) rfl⟩

/-- C7 as stated fails: on the tree in which the species `5` lies below the
species `3`, the single hit of taxon `5` and weight `1` with cutoff `1` makes
`selectTaxForSet` return `3`, not `5`. -/
theorem C7_counterexample :
    selectTaxForSet nestedTree 10 [⟨5, 1, 1⟩] 1 = Outcome.ok ⟨3, 1, 0, 1, FloatVal.fin 1⟩ ∧
      WellFormed nestedTree ∧
      (nestedTree.taxonNode 5).map (fun node => nestedTree.findRankIndex node.rank) = some 4 :=
  ⟨by with_unfolding_all decide, nestedTree_wellFormed, by decide⟩

/-- C7, amended: when every hit carries the same non-zero taxon `T`, the weights
are whole numbers of a positive total that `float` represents exactly, the tree
is well formed, the rank of `T` has a positive rank-index, every proper
ancestor of `T` has an unindexed rank or a rank-index larger than that of `T`,
and the cutoff is in `(0, 1]`, then `selectTaxForSet` returns `T` with
`selectedPercent = 1`, given enough fuel. -/
theorem C7_shared_taxon_is_selected (t : NcbiTaxonomy) (setTaxa : List taxHit)
    (majorityCutoff : ℚ) (T : TaxID) (nodeT : TaxonNode)
    (hwf : WellFormed t) (hall : ∀ h ∈ setTaxa, h.taxon = T) (hT : T ≠ 0)
    (hww : WeightsWhole setTaxa) (htot : 0 < assignedWeight setTaxa)
    (hrep : toFloat (assignedWeight setTaxa) = FloatVal.fin (assignedWeight setTaxa))
    (hn : t.taxonNode T = some nodeT) (hpos : 0 < t.findRankIndex nodeT.rank)
    (hint : t.findRankIndex nodeT.rank ≤ INT_MAX)
    (hanc : ∀ fuel k node, k ∈ lineageOf t fuel T → k ≠ T → t.taxonNode k = some node →
      t.findRankIndex node.rank ≤ 0 ∨ t.findRankIndex nodeT.rank < t.findRankIndex node.rank)
    (hc : 0 < majorityCutoff) (hc1 : majorityCutoff ≤ 1) :
    ∃ fuel0, ∀ fuel, fuel0 ≤ fuel →
      ∃ res, selectTaxForSet t fuel setTaxa majorityCutoff = Outcome.ok res ∧
        res.selctedTaxon = T ∧ res.selectedPercent = FloatVal.fin 1 := by
  have hres : Resolves t setTaxa := by
    intro h hh _
    rw [hall h hh, hn]
    rfl
  obtain ⟨f0, hf0⟩ := exists_fuelSuffices t hwf.2 setTaxa hres
  refine ⟨f0, fun fuel hfuel => ?_⟩
  have hf := hf0 fuel hfuel
  have hw := weightsConvertible_of_whole setTaxa hww
  have hne : ∃ x, x ∈ setTaxa := by
    cases setTaxa with
    | nil => simp [assignedWeight, assignedHits] at htot
    | cons x xs => exact ⟨x, List.mem_cons_self _ _⟩
  obtain ⟨x, hx⟩ := hne
  have hxT := hall x hx
  obtain ⟨l, hl⟩ := Option.isSome_iff_exists.mp (hf x hx (by rw [hxT]; exact hT))
  rw [hxT] at hl
  obtain ⟨l', hl'⟩ := lineage_head t fuel _ _ hl
  have hTmem : T ∈ lineageOf t fuel T := by
    simp [lineageOf, hl, hl']
  have hval : ∀ k, k ∈ lineageOf t fuel T →
      (accPure t fuel AccState.init setTaxa).ancTaxIdsCounts.find k =
        some (assignedWeight setTaxa) := by
    intro k hk
    have hkey : ((accPure t fuel AccState.init setTaxa).ancTaxIdsCounts.find k).isSome = true :=
      (accPure_isKey t fuel setTaxa AccState.init k).mpr
        (Or.inr ⟨x, hx, by rw [hxT]; exact hT, by rw [hxT]; exact hk⟩)
    rw [find_eq_valueAt _ _ hkey, accPure_valueAt t fuel setTaxa AccState.init k hww,
      lineageWeight_of_same_taxon t fuel setTaxa T k hall hk]
    simp [AccState.init, TaxMap.valueAt, TaxMap.find]
  have htotal : (accPure t fuel AccState.init setTaxa).totalAssignedSeqsWeights =
      assignedWeight setTaxa := by
    rw [accPure_total]
    simp [AccState.init]
  have hfrac : (toFloat (assignedWeight setTaxa)).divBy
      (accPure t fuel AccState.init setTaxa).totalAssignedSeqsWeights = FloatVal.fin 1 := by
    rw [htotal, hrep]
    exact fdiv_self _ (ne_of_gt htot)
  obtain ⟨res, hsel, h1, h2, _⟩ := selectTaxForSet_selects t fuel setTaxa majorityCutoff T
    (assignedWeight setTaxa) nodeT hT hw hf hc (hval T hTmem) hn
    (by rw [hfrac]; simpa [FloatVal.ge] using hc1) hpos hint
    (by
      intro k hk hq node hnk
      obtain ⟨v, node', hfind, hnk', _, hposk⟩ := hq
      rw [hnk] at hnk'
      cases hnk'
      have hkey : ((accPure t fuel AccState.init setTaxa).ancTaxIdsCounts.find k).isSome =
          true := by simp [hfind]
      rcases (accPure_isKey t fuel setTaxa AccState.init k).mp hkey with h | ⟨y, hy, _, hm⟩
      · simp [AccState.init, TaxMap.find] at h
      · rw [hall y hy] at hm
        rcases hanc fuel k node hm hk hnk with h3 | h3
        · exact absurd hposk (not_lt.mpr h3)
        · exact h3)
  exact ⟨res, hsel, h1, h2.trans hfrac⟩

/-- C7, amended, at a concrete input: three hits on species `11` of the sample
tree with weights `2`, `1` and `0`, cutoff `1`. -/
theorem C7_shared_taxon_is_selected_witness :
    ∃ fuel0, ∀ fuel, fuel0 ≤ fuel →
      ∃ res, selectTaxForSet sampleTree fuel [⟨11, 1, 2⟩, ⟨11, 1, 1⟩, ⟨11, 1, 0⟩] 1 =
          Outcome.ok res ∧
        res.selctedTaxon = 11 ∧ res.selectedPercent = FloatVal.fin 1 :=
  C7_shared_taxon_is_selected sampleTree [⟨11, 1, 2⟩, ⟨11, 1, 1⟩, ⟨11, 1, 0⟩] 1 11
    ⟨11, 10, "species", "A"⟩ sampleTree_wellFormed
    (by
      intro h hh
      simp only [List.mem_cons, List.mem_singleton, List.not_mem_nil, or_false] at hh
      rcases hh with rfl | rfl | rfl <;> rfl)
    (by decide)
    (by
      intro h hh _
      simp only [List.mem_cons, List.mem_singleton, List.not_mem_nil, or_false] at hh
      rcases hh with rfl | rfl | rfl
      · exact ⟨2, by norm_num, by norm_num⟩
      · exact ⟨1, by norm_num, by norm_num⟩
      · exact ⟨0, by norm_num, by norm_num⟩)
    (by with_unfolding_all decide) (by with_unfolding_all rfl) rfl (by decide) (by decide)
    (by
      intro fuel k node hk hne hnode
      have hsub : k = 11 ∨ k = 10 ∨ k = 2 ∨ k = 1 := by
        unfold lineageOf at hk
        cases hl : lineage sampleTree fuel 11 with
        | none => simp [hl] at hk
        | some l =>
          have := lineage_unique sampleTree fuel 4 11 l [11, 10, 2, 1] hl (by decide)
          subst this
          simpa [hl] using hk
      rcases hsub with rfl | rfl | rfl | rfl
      · exact absurd rfl hne
      · simp only [sampleTree, sampleNode] at hnode
        simp only [show ¬ ((10 : TaxID) = 1) by decide, show ¬ ((10 : TaxID) = 2) by decide,
          if_false, if_true, Option.some.injEq] at hnode
        subst hnode
        exact Or.inr (by decide)
      · simp only [sampleTree, sampleNode] at hnode
        simp only [show ¬ ((2 : TaxID) = 1) by decide, if_false, if_true,
          Option.some.injEq] at hnode
        subst hnode
        exact Or.inr (by decide)
      · simp only [sampleTree, sampleNode, if_true, Option.some.injEq] at hnode
        subst hnode
        exact Or.inl (by decide))
    (by norm_num) (by norm_num)

/-- C8: for the hits `[A, B, G, 0]` of weight `1` and cutoff `1/2`, on a
well-formed tree in which the distinct nodes `A` and `B` have parent `G`, `G` is
not the root, the rank of `G` has a positive rank-index and every proper
ancestor of `G` has an unindexed rank or a larger rank-index, `selectTaxForSet`
returns `G` with `selectedPercent = 1`, `numAssignedSeqs = 3`,
`numSeqsAgreeWithSelectedTaxon = 3` and `numUnassignedSeqs = 1`; the total is
`3`, `G` accumulates `3`, `A` and `B` accumulate `1` each. -/
theorem C8_scenario_selects_genus (t : NcbiTaxonomy) (A B G : TaxID)
    (nodeA nodeB nodeG : TaxonNode) (e1 e2 e3 e4 : ℚ) (hwf : WellFormed t)
    (hA : t.taxonNode A = some nodeA) (hAp : nodeA.parentTaxId = G)
    (hB : t.taxonNode B = some nodeB) (hBp : nodeB.parentTaxId = G) (hAB : A ≠ B)
    (hG : t.taxonNode G = some nodeG) (hGroot : nodeG.parentTaxId ≠ G)
    (hpos : 0 < t.findRankIndex nodeG.rank) (hint : t.findRankIndex nodeG.rank ≤ INT_MAX)
    (hanc : ∀ fuel k node, k ∈ lineageOf t fuel G → k ≠ G → t.taxonNode k = some node →
      t.findRankIndex node.rank ≤ 0 ∨ t.findRankIndex nodeG.rank < t.findRankIndex node.rank) :
    ∃ fuel0, ∀ fuel, fuel0 ≤ fuel →
      selectTaxForSet t fuel [⟨A, e1, 1⟩, ⟨B, e2, 1⟩, ⟨G, e3, 1⟩, ⟨0, e4, 1⟩] (1 / 2) =
          Outcome.ok ⟨G, 3, 1, 3, FloatVal.fin 1⟩ ∧
        ∃ acc, accumulate t fuel AccState.init
            [⟨A, e1, 1⟩, ⟨B, e2, 1⟩, ⟨G, e3, 1⟩, ⟨0, e4, 1⟩] = Outcome.ok acc ∧
          acc.totalAssignedSeqsWeights = 3 ∧ acc.ancTaxIdsCounts.find G = some 3 ∧
          acc.ancTaxIdsCounts.find A = some 1 ∧ acc.ancTaxIdsCounts.find B = some 1 := by
  have hA0 : A ≠ 0 := fun h => by rw [h, hwf.1] at hA; cases hA
  have hB0 : B ≠ 0 := fun h => by rw [h, hwf.1] at hB; cases hB
  have hG0 : G ≠ 0 := fun h => by rw [h, hwf.1] at hG; cases hG
  have hAG : A ≠ G := fun h => by
    rw [h, hG] at hA
    cases hA
    exact hGroot hAp
  have hBG : B ≠ G := fun h => by
    rw [h, hG] at hB
    cases hB
    exact hGroot hBp
  have hres : Resolves t [⟨A, e1, 1⟩, ⟨B, e2, 1⟩, ⟨G, e3, 1⟩, ⟨0, e4, 1⟩] := by
    intro h hh h0
    simp only [List.mem_cons, List.mem_singleton, List.not_mem_nil, or_false] at hh
    rcases hh with rfl | rfl | rfl | rfl
    · simp [hA]
    · simp [hB]
    · simp [hG]
    · exact absurd rfl h0
  have hww : WeightsWhole [⟨A, e1, 1⟩, ⟨B, e2, 1⟩, ⟨G, e3, 1⟩, ⟨0, e4, 1⟩] := by
    intro h hh _
    simp only [List.mem_cons, List.mem_singleton, List.not_mem_nil, or_false] at hh
    rcases hh with rfl | rfl | rfl | rfl <;> exact ⟨1, by norm_num, by norm_num⟩
  have hw := weightsConvertible_of_whole _ hww
  obtain ⟨f0, hf0⟩ := exists_fuelSuffices t hwf.2 _ hres
  refine ⟨f0, fun fuel hfuel => ?_⟩
  have hf := hf0 fuel hfuel
  have hfA : (lineage t fuel A).isSome = true := hf ⟨A, e1, 1⟩ (by simp) hA0
  have hfB : (lineage t fuel B).isSome = true := hf ⟨B, e2, 1⟩ (by simp) hB0
  have hfG : (lineage t fuel G).isSome = true := hf ⟨G, e3, 1⟩ (by simp) hG0
  obtain ⟨_, hLA, _⟩ := lineageOf_child t fuel A nodeA hA (by rw [hAp]; exact fun h => hAG h.symm) hfA
  obtain ⟨_, hLB, _⟩ := lineageOf_child t fuel B nodeB hB (by rw [hBp]; exact fun h => hBG h.symm) hfB
  obtain ⟨_, hLG, hLGne⟩ := lineageOf_child t fuel G nodeG hG hGroot hfG
  rw [hAp] at hLA
  rw [hBp] at hLB
  obtain ⟨lA, hlA⟩ := Option.isSome_iff_exists.mp hfA
  obtain ⟨lB, hlB⟩ := Option.isSome_iff_exists.mp hfB
  have hAnd : (lineageOf t fuel A).Nodup := by
    simpa [lineageOf, hlA] using lineage_nodup t fuel A lA hlA
  have hBnd : (lineageOf t fuel B).Nodup := by
    simpa [lineageOf, hlB] using lineage_nodup t fuel B lB hlB
  have hAnot : A ∉ lineageOf t fuel G := by
    rw [hLA] at hAnd
    exact (List.nodup_cons.mp hAnd).1
  have hBnot : B ∉ lineageOf t fuel G := by
    rw [hLB] at hBnd
    exact (List.nodup_cons.mp hBnd).1
  have hGmem : G ∈ lineageOf t fuel G := by
    rw [hLG]
    exact List.mem_cons_self _ _
  have hacc := accumulate_eq t fuel _ AccState.init hw hf
  have hkey : ∀ k, ((accPure t fuel AccState.init
      [⟨A, e1, 1⟩, ⟨B, e2, 1⟩, ⟨G, e3, 1⟩, ⟨0, e4, 1⟩]).ancTaxIdsCounts.find k).isSome = true ↔
      k = A ∨ k = B ∨ k ∈ lineageOf t fuel G := by
    intro k
    rw [accPure_isKey]
    simp only [AccState.init, TaxMap.find, Option.isSome_none, Bool.false_eq_true, false_or,
      List.mem_cons, List.mem_singleton, List.not_mem_nil, or_false, exists_eq_or_imp,
      exists_eq_left, ne_eq, hA0, hB0, hG0, not_false_eq_true, true_and, not_true_eq_false,
      false_and, hLA, hLB]
    tauto
  have hvalue : ∀ k, TaxMap.valueAt (accPure t fuel AccState.init
      [⟨A, e1, 1⟩, ⟨B, e2, 1⟩, ⟨G, e3, 1⟩, ⟨0, e4, 1⟩]).ancTaxIdsCounts k =
      (if k ∈ lineageOf t fuel A then 1 else 0) + ((if k ∈ lineageOf t fuel B then 1 else 0) +
        (if k ∈ lineageOf t fuel G then 1 else 0)) := by
    intro k
    rw [accPure_valueAt t fuel _ AccState.init k hww]
    simp only [AccState.init, TaxMap.valueAt, TaxMap.find, Option.getD_none, zero_add,
      lineageWeight, assignedHits, List.filter_cons, List.filter_nil, ne_eq, hA0, hB0, hG0,
      not_false_eq_true, decide_True, if_true, not_true_eq_false, decide_False]
    by_cases h1 : k ∈ lineageOf t fuel A <;> by_cases h2 : k ∈ lineageOf t fuel B <;>
      by_cases h3 : k ∈ lineageOf t fuel G <;> simp [h1, h2, h3]
  have hvG : ∀ k, k ∈ lineageOf t fuel G → (accPure t fuel AccState.init
      [⟨A, e1, 1⟩, ⟨B, e2, 1⟩, ⟨G, e3, 1⟩, ⟨0, e4, 1⟩]).ancTaxIdsCounts.find k = some 3 := by
    intro k hk
    rw [find_eq_valueAt _ _ ((hkey k).mpr (Or.inr (Or.inr hk))), hvalue, hLA, hLB]
    simp [hk]
    norm_num
  have hvA : (accPure t fuel AccState.init
      [⟨A, e1, 1⟩, ⟨B, e2, 1⟩, ⟨G, e3, 1⟩, ⟨0, e4, 1⟩]).ancTaxIdsCounts.find A = some 1 := by
    rw [find_eq_valueAt _ _ ((hkey A).mpr (Or.inl rfl)), hvalue, hLA, hLB]
    simp [hAnot, hAB]
  have hvB : (accPure t fuel AccState.init
      [⟨A, e1, 1⟩, ⟨B, e2, 1⟩, ⟨G, e3, 1⟩, ⟨0, e4, 1⟩]).ancTaxIdsCounts.find B = some 1 := by
    rw [find_eq_valueAt _ _ ((hkey B).mpr (Or.inr (Or.inl rfl))), hvalue, hLA, hLB]
    simp [hBnot, Ne.symm hAB]
  have htotal : (accPure t fuel AccState.init
      [⟨A, e1, 1⟩, ⟨B, e2, 1⟩, ⟨G, e3, 1⟩, ⟨0, e4, 1⟩]).totalAssignedSeqsWeights = 3 := by
    rw [accPure_total]
    simp [AccState.init, assignedWeight, assignedHits, hA0, hB0, hG0]
    norm_num
  obtain ⟨res, hsel, h1, h2, h3, h4, h5⟩ := selectTaxForSet_selects t fuel _ (1 / 2) G 3 nodeG
    hG0 hw hf (by norm_num) (hvG G hGmem) hG
    (by rw [htotal]; with_unfolding_all decide) hpos hint
    (by
      intro k hk hq node hnk
      obtain ⟨v, node', hfind, hnk', hge, hposk⟩ := hq
      rw [hnk] at hnk'
      cases hnk'
      rcases (hkey k).mp (by simp [hfind]) with h | h | h
      · rw [h, hvA] at hfind
        cases hfind
        rw [htotal] at hge
        exact absurd hge (by with_unfolding_all decide)
      · rw [h, hvB] at hfind
        cases hfind
        rw [htotal] at hge
        exact absurd hge (by with_unfolding_all decide)
      · rcases hanc fuel k node h hk hnk with h6 | h6
        · exact absurd hposk (not_lt.mpr h6)
        · exact h6)
  refine ⟨?_, _, hacc, htotal, hvG G hGmem, hvA, hvB⟩
  rw [hsel]
  have hagree : (agreeingHits t fuel G
      [⟨A, e1, 1⟩, ⟨B, e2, 1⟩, ⟨G, e3, 1⟩, ⟨0, e4, 1⟩]).length = 3 := by
    have hdrop : G ∈ (lineageOf t fuel G).dropLast := by
      rw [hLG]
      cases hrest : lineageOf t fuel nodeG.parentTaxId with
      | nil => exact absurd hrest hLGne
      | cons y ys => simp [List.dropLast]
    have hdropA : G ∈ (lineageOf t fuel A).dropLast := by
      rw [hLA]
      cases hrest : lineageOf t fuel G with
      | nil => rw [hrest] at hGmem; simp at hGmem
      | cons y ys =>
        rw [hrest] at hdrop
        simp only [List.dropLast_cons₂, List.mem_cons]
        exact Or.inr hdrop
    have hdropB : G ∈ (lineageOf t fuel B).dropLast := by
      rw [hLB]
      cases hrest : lineageOf t fuel G with
      | nil => rw [hrest] at hGmem; simp at hGmem
      | cons y ys =>
        rw [hrest] at hdrop
        simp only [List.dropLast_cons₂, List.mem_cons]
        exact Or.inr hdrop
    simp [agreeingHits, assignedHits, hA0, hB0, hG0, hdrop, hdropA, hdropB]
  have h2' : res.selectedPercent = FloatVal.fin 1 := by
    rw [h2, htotal]
    with_unfolding_all decide
  have h3' : res.numAssignedSeqs = 3 := by
    rw [h3]
    simp [assignedHits, hA0, hB0, hG0]
  have h4' : res.numUnassignedSeqs = 1 := by
    rw [h4]
    simp [hA0, hB0, hG0]
  have h5' : res.numSeqsAgreeWithSelectedTaxon = 3 := by
    rw [h5, hagree]
    simp [assignedHits, hA0, hB0, hG0]
  cases res
  simp only at h1 h2' h3' h4' h5'
  simp [h1, h2', h3', h4', h5']

/-- C8 at a concrete input: species `11` and `12` below genus `10` of the
sample tree. -/
theorem C8_scenario_selects_genus_witness :
    ∃ fuel0, ∀ fuel, fuel0 ≤ fuel →
      selectTaxForSet sampleTree fuel [⟨11, 1, 1⟩, ⟨12, 1, 1⟩, ⟨10, 1, 1⟩, ⟨0, 1, 1⟩] (1 / 2) =
          Outcome.ok ⟨10, 3, 1, 3, FloatVal.fin 1⟩ ∧
        ∃ acc, accumulate sampleTree fuel AccState.init
            [⟨11, 1, 1⟩, ⟨12, 1, 1⟩, ⟨10, 1, 1⟩, ⟨0, 1, 1⟩] = Outcome.ok acc ∧
          acc.totalAssignedSeqsWeights = 3 ∧ acc.ancTaxIdsCounts.find 10 = some 3 ∧
          acc.ancTaxIdsCounts.find 11 = some 1 ∧ acc.ancTaxIdsCounts.find 12 = some 1 :=
  C8_scenario_selects_genus sampleTree 11 12 10 ⟨11, 10, "species", "A"⟩
    ⟨12, 10, "species", "B"⟩ ⟨10, 2, "genus", "G"⟩ 1 1 1 1 sampleTree_wellFormed rfl rfl rfl rfl
    (by decide) rfl (by decide) (by decide) (by decide)
    (by
      intro fuel k node hk hne hnode
      have hsub : k = 10 ∨ k = 2 ∨ k = 1 := by
        unfold lineageOf at hk
        cases hl : lineage sampleTree fuel 10 with
        | none => simp [hl] at hk
        | some l =>
          have := lineage_unique sampleTree fuel 3 10 l [10, 2, 1] hl (by decide)
          subst this
          simpa [hl] using hk
      rcases hsub with rfl | rfl | rfl
      · exact absurd rfl hne
      · simp only [sampleTree, sampleNode] at hnode
        simp only [show ¬ ((2 : TaxID) = 1) by decide, if_false, if_true,
          Option.some.injEq] at hnode
        subst hnode
        exact Or.inr (by decide)
      · simp only [sampleTree, sampleNode, if_true, Option.some.injEq] at hnode
        subst hnode
        exact Or.inl (by decide))

/-- C9, evaluated on the code: the two orders of the hits of taxon `11` with
weights `1/2` and `1` on the well-formed sample tree, cutoff `9/10`, give
different results: no selection in one order, taxon `11` with
`selectedPercent = 1` in the other. -/
theorem C9_order_changes_result :
    WellFormed sampleTree ∧
      List.Perm [(⟨11, 3 / 5, 1 / 2⟩ : taxHit), ⟨11, 1 / 3, 1⟩]
        [⟨11, 1 / 3, 1⟩, ⟨11, 3 / 5, 1 / 2⟩] ∧
      selectTaxForSet sampleTree 10 [⟨11, 3 / 5, 1 / 2⟩, ⟨11, 1 / 3, 1⟩] (9 / 10) =
        Outcome.ok ⟨0, 2, 0, 0, FloatVal.fin 0⟩ ∧
      selectTaxForSet sampleTree 10 [⟨11, 1 / 3, 1⟩, ⟨11, 3 / 5, 1 / 2⟩] (9 / 10) =
        Outcome.ok ⟨11, 2, 0, 2, FloatVal.fin 1⟩ :=
  ⟨sampleTree_wellFormed, List.Perm.swap _ _ _, by with_unfolding_all decide,
    by with_unfolding_all decide⟩

/-- C10: on a tree whose lineages all reach the root, with weights in the range
of the `unsigned int` conversion and enough fuel, `selectTaxForSet` ends in the
fatal exit exactly when some hit has a non-zero taxon that does not resolve; it
returns a result otherwise, and hits of taxon `0` never cause the exit. -/
theorem C10_fatal_iff_unresolved (t : NcbiTaxonomy) (setTaxa : List taxHit)
    (majorityCutoff : ℚ) (hr : ReachesRoot t) (hw : WeightsConvertible setTaxa) :
    ∃ fuel0, ∀ fuel, fuel0 ≤ fuel →
      (selectTaxForSet t fuel setTaxa majorityCutoff = Outcome.fatal ↔
        ∃ h ∈ setTaxa, h.taxon ≠ 0 ∧ t.taxonNode h.taxon = none) ∧
      (selectTaxForSet t fuel setTaxa majorityCutoff = Outcome.fatal ∨
        ∃ res, selectTaxForSet t fuel setTaxa majorityCutoff = Outcome.ok res) := by
  obtain ⟨f0, hf0⟩ := exists_fuel t hr setTaxa
  refine ⟨f0, fun fuel hfuel => ?_⟩
  by_cases hbad : ∃ h ∈ setTaxa, h.taxon ≠ 0 ∧ t.taxonNode h.taxon = none
  · have hfatal : selectTaxForSet t fuel setTaxa majorityCutoff = Outcome.fatal := by
      unfold selectTaxForSet
      rw [accumulate_fatal t fuel setTaxa AccState.init hw (hf0 fuel hfuel) hbad]
    exact ⟨⟨fun _ => hbad, fun _ => hfatal⟩, Or.inl hfatal⟩
  · have hf : FuelSuffices t fuel setTaxa := by
      intro h hh h0
      apply hf0 fuel hfuel h hh
      cases hn : t.taxonNode h.taxon with
      | none => exact absurd ⟨h, hh, h0, hn⟩ hbad
      | some node => rfl
    obtain ⟨res, hres⟩ := selectTaxForSet_returns t fuel setTaxa majorityCutoff hw hf
    refine ⟨⟨fun h => ?_, fun h => absurd h hbad⟩, Or.inr ⟨res, hres⟩⟩
    rw [hres] at h
    cases h

/-- C10 at a concrete input: a hit of taxon `0`, a hit on species `11` of the
sample tree, and a hit of taxon `77`, which the sample tree does not hold. -/
theorem C10_fatal_iff_unresolved_witness :
    selectTaxForSet sampleTree 10 [⟨0, 1, 1⟩, ⟨11, 1, 1⟩, ⟨77, 1, 1⟩] (1 / 2) = Outcome.fatal ∧
      ∃ fuel0, ∀ fuel, fuel0 ≤ fuel →
        (selectTaxForSet sampleTree fuel [⟨0, 1, 1⟩, ⟨11, 1, 1⟩, ⟨77, 1, 1⟩] (1 / 2) =
            Outcome.fatal ↔
          ∃ h ∈ [(⟨0, 1, 1⟩ : taxHit), ⟨11, 1, 1⟩, ⟨77, 1, 1⟩],
            h.taxon ≠ 0 ∧ sampleTree.taxonNode h.taxon = none) ∧
        (selectTaxForSet sampleTree fuel [⟨0, 1, 1⟩, ⟨11, 1, 1⟩, ⟨77, 1, 1⟩] (1 / 2) =
            Outcome.fatal ∨
          ∃ res, selectTaxForSet sampleTree fuel [⟨0, 1, 1⟩, ⟨11, 1, 1⟩, ⟨77, 1, 1⟩] (1 / 2) =
            Outcome.ok res) :=
  ⟨by with_unfolding_all decide,
    C10_fatal_iff_unresolved sampleTree [⟨0, 1, 1⟩, ⟨11, 1, 1⟩, ⟨77, 1, 1⟩] (1 / 2)
      sampleTree_wellFormed.2
      (by
        intro h hh _
        simp only [List.mem_cons, List.mem_singleton, List.not_mem_nil, or_false] at hh
        rcases hh with rfl | rfl | rfl <;> norm_num)⟩

/-! ## The claims on `taxHit::setByEntry` -/

theorem sampleLog_nonpos (e : ℚ) (h0 : 0 < e) (h1 : e ≤ 1) : sampleLog e ≤ 0 := by
  unfold sampleLog
  have hz : (e - 1) / (e + 1) ≤ 0 :=
    div_nonpos_of_nonpos_of_nonneg (by linarith) (by linarith)
  have hsq : 0 ≤ (e - 1) / (e + 1) * ((e - 1) / (e + 1)) := mul_self_nonneg _
  have h3 : (e - 1) / (e + 1) * ((e - 1) / (e + 1)) * ((e - 1) / (e + 1)) ≤ 0 :=
    mul_nonpos_of_nonneg_of_nonpos hsq hz
  have h4 : 0 ≤ (e - 1) / (e + 1) * ((e - 1) / (e + 1)) * ((e - 1) / (e + 1)) *
      ((e - 1) / (e + 1)) := mul_nonneg_of_nonpos_of_nonpos h3 hz
  have h5 : (e - 1) / (e + 1) * ((e - 1) / (e + 1)) * ((e - 1) / (e + 1)) *
      ((e - 1) / (e + 1)) * ((e - 1) / (e + 1)) ≤ 0 :=
    mul_nonpos_of_nonneg_of_nonpos h4 hz
  simp only []
  linarith

/-- The weight that lines 37-45 write for a parsed e-value. -/
theorem setByEntry_weight (x : Externals) (taxon : TaxID) (voteMode : Int) (evalue : ℚ)
    (h : taxHit)
    (hret : (if voteMode = x.AGG_TAX_UNIFORM then Outcome.ok (⟨taxon, evalue, 1⟩ : taxHit)
      else if voteMode = x.AGG_TAX_MINUS_LOG_EVAL then
        if 0 < evalue then Outcome.ok ⟨taxon, evalue, -(x.log evalue)⟩
        else Outcome.ok ⟨taxon, evalue, MAX_WEIGHT⟩
      else Outcome.ok ⟨taxon, evalue, 0⟩) = Outcome.ok h) :
    h.taxon = taxon ∧ h.evalue = evalue ∧
      (voteMode = x.AGG_TAX_UNIFORM → h.weight = 1) ∧
      (voteMode ≠ x.AGG_TAX_UNIFORM → voteMode = x.AGG_TAX_MINUS_LOG_EVAL → 0 < h.evalue →
        h.weight = -(x.log h.evalue)) ∧
      (voteMode ≠ x.AGG_TAX_UNIFORM → voteMode = x.AGG_TAX_MINUS_LOG_EVAL → ¬ 0 < h.evalue →
        h.weight = MAX_WEIGHT) ∧
      (voteMode ≠ x.AGG_TAX_UNIFORM → voteMode ≠ x.AGG_TAX_MINUS_LOG_EVAL → h.weight = 0) := by
  by_cases hu : voteMode = x.AGG_TAX_UNIFORM
  · rw [if_pos hu] at hret
    cases hret
    exact ⟨rfl, rfl, fun _ => rfl, fun h => absurd hu h, fun h => absurd hu h,
      fun h => absurd hu h⟩
  · rw [if_neg hu] at hret
    by_cases he : voteMode = x.AGG_TAX_MINUS_LOG_EVAL
    · rw [if_pos he] at hret
      by_cases hpos : 0 < evalue
      · rw [if_pos hpos] at hret
        cases hret
        exact ⟨rfl, rfl, fun h => absurd h hu, fun _ _ _ => rfl, fun _ _ h => absurd hpos h,
          fun _ h => absurd he h⟩
      · rw [if_neg hpos] at hret
        cases hret
        exact ⟨rfl, rfl, fun h => absurd h hu, fun _ _ h => absurd h hpos, fun _ _ _ => rfl,
          fun _ h => absurd he h⟩
    · rw [if_neg he] at hret
      cases hret
      exact ⟨rfl, rfl, fun h => absurd h hu, fun _ h => absurd h he, fun _ h => absurd h he,
        fun _ _ => rfl⟩

/-- What a returning call of `setByEntry` wrote. -/
theorem setByEntry_ok (x : Externals) (taxonInput : TaxID) (useAln : Bool)
    (taxHitData : List String) (numCols : Nat) (voteMode : Int) (h : taxHit)
    (hret : setByEntry x taxonInput useAln taxHitData numCols voteMode = Outcome.ok h) :
    h.taxon = taxonInput ∧
      (useAln = true → ∃ field, taxHitData[3]? = some field ∧ h.evalue = x.strtod field) ∧
      (useAln = false → h.evalue = 1) ∧
      (voteMode = x.AGG_TAX_UNIFORM → h.weight = 1) ∧
      (voteMode ≠ x.AGG_TAX_UNIFORM → voteMode = x.AGG_TAX_MINUS_LOG_EVAL → 0 < h.evalue →
        h.weight = -(x.log h.evalue)) ∧
      (voteMode ≠ x.AGG_TAX_UNIFORM → voteMode = x.AGG_TAX_MINUS_LOG_EVAL → ¬ 0 < h.evalue →
        h.weight = MAX_WEIGHT) ∧
      (voteMode ≠ x.AGG_TAX_UNIFORM → voteMode ≠ x.AGG_TAX_MINUS_LOG_EVAL → h.weight = 0) := by
  unfold setByEntry at hret
  by_cases hfatal : taxonInput ≠ 0 ∧ numCols < x.ALN_RES_WITHOUT_BT_COL_CNT ∧ useAln = true
  · rw [if_pos hfatal] at hret
    cases hret
  · rw [if_neg hfatal] at hret
    cases useAln with
    | false =>
      simp only [Bool.false_eq_true, if_false] at hret
      obtain ⟨h1, h2, h3⟩ := setByEntry_weight x taxonInput voteMode 1 h hret
      exact ⟨h1, by simp, fun _ => h2, h3⟩
    | true =>
      simp only [if_true] at hret
      cases hget : taxHitData[3]? with
      | none =>
        simp only [hget] at hret
        cases hret
      | some field =>
        simp only [hget] at hret
        obtain ⟨h1, h2, h3⟩ := setByEntry_weight x taxonInput voteMode (x.strtod field) h hret
        exact ⟨h1, fun _ => ⟨field, rfl, h2⟩, by simp, h3⟩

/-- C11: in evalue-weighted vote mode with alignment statistics in use, a hit
that `setByEntry` returns has the e-value parsed from the fourth field of the
alignment record, the weight `-log(evalue)` when the e-value is positive, and
the weight `1000` when the e-value is `0`. -/
theorem C11_evalue_mode_weight (x : Externals) (taxonInput : TaxID) (taxHitData : List String)
    (numCols : Nat) (h : taxHit) (hmodes : x.AGG_TAX_UNIFORM ≠ x.AGG_TAX_MINUS_LOG_EVAL)
    (hret : setByEntry x taxonInput true taxHitData numCols x.AGG_TAX_MINUS_LOG_EVAL =
      Outcome.ok h) :
    ∃ field, taxHitData[3]? = some field ∧ h.evalue = x.strtod field ∧
      (0 < h.evalue → h.weight = -(x.log h.evalue)) ∧ (h.evalue = 0 → h.weight = 1000) := by
  obtain ⟨_, h2, _, _, h5, h6, _⟩ :=
    setByEntry_ok x taxonInput true taxHitData numCols x.AGG_TAX_MINUS_LOG_EVAL h hret
  obtain ⟨field, hf, he⟩ := h2 rfl
  refine ⟨field, hf, he, h5 (Ne.symm hmodes) rfl, fun h0 => ?_⟩
  rw [h6 (Ne.symm hmodes) rfl (by rw [h0]; exact lt_irrefl 0)]
  rfl

set_option maxRecDepth 2000 in
/-- C11 at a concrete input: an alignment record of ten columns with the e-value
field `0.5`, and one with the e-value field `0`. -/
theorem C11_evalue_mode_weight_witness :
    (∃ field, ["t1", "50", "0.9", "0.5", "1", "20", "60", "5", "25", "80"][3]? = some field ∧
        (1 / 2 : ℚ) = sampleStrtod field ∧
        ((0 : ℚ) < 1 / 2 → (842 / 1215 : ℚ) = -(sampleLog (1 / 2))) ∧
        ((1 / 2 : ℚ) = 0 → (842 / 1215 : ℚ) = 1000)) ∧
      setByEntry sampleExternals 11 true
        ["t1", "50", "0.9", "0", "1", "20", "60", "5", "25", "80"] 10 1 =
        Outcome.ok ⟨11, 0, 1000⟩ :=
  ⟨C11_evalue_mode_weight sampleExternals 11
      ["t1", "50", "0.9", "0.5", "1", "20", "60", "5", "25", "80"] 10 ⟨11, 1 / 2, 842 / 1215⟩
      (by decide) (by with_unfolding_all decide),
    by with_unfolding_all decide⟩

/-- C12: in uniform vote mode a hit that `setByEntry` returns has weight `1`,
whatever the taxon, the e-value field and the alignment flag. -/
theorem C12_uniform_weight_one (x : Externals) (taxonInput : TaxID) (useAln : Bool)
    (taxHitData : List String) (numCols : Nat) (h : taxHit)
    (hret : setByEntry x taxonInput useAln taxHitData numCols x.AGG_TAX_UNIFORM =
      Outcome.ok h) :
    h.weight = 1 := by
  obtain ⟨_, _, _, h4, _⟩ :=
    setByEntry_ok x taxonInput useAln taxHitData numCols x.AGG_TAX_UNIFORM h hret
  exact h4 rfl

set_option maxRecDepth 2000 in
/-- C12 at a concrete input: an alignment record with the e-value field `1e-3`
in uniform mode. -/
theorem C12_uniform_weight_one_witness :
    setByEntry sampleExternals 11 true
        ["t1", "50", "0.9", "1e-3", "1", "20", "60", "5", "25", "80"] 10 0 =
        Outcome.ok ⟨11, 1 / 1000, 1⟩ ∧ (1 : ℚ) = 1 :=
  ⟨by with_unfolding_all decide,
    C12_uniform_weight_one sampleExternals 11 true
      ["t1", "50", "0.9", "1e-3", "1", "20", "60", "5", "25", "80"] 10 ⟨11, 1 / 1000, 1⟩
      (by with_unfolding_all decide)⟩

set_option maxRecDepth 2000 in
/-- C13 as stated fails: in evalue-weighted mode the alignment record with the
e-value field `2` gives a hit of e-value `2 >= 0` and of negative weight
`-log 2`. -/
theorem C13_counterexample :
    setByEntry sampleExternals 11 true
        ["t1", "50", "0.9", "2", "1", "20", "60", "5", "25", "80"] 10 1 =
        Outcome.ok ⟨11, 2, -(842 / 1215)⟩ ∧
      (0 : ℚ) ≤ 2 ∧ -(842 / 1215 : ℚ) < 0 :=
  ⟨by with_unfolding_all decide, by norm_num, by norm_num⟩

/-- C13, amended: a hit that `setByEntry` returns has a weight `>= 0` in every
vote mode and with either alignment flag, provided that in evalue-weighted mode
its e-value is at most `1`; `log` is any function that is `<= 0` on `(0, 1]`. -/
theorem C13_weight_nonneg (x : Externals) (taxonInput : TaxID) (useAln : Bool)
    (taxHitData : List String) (numCols : Nat) (voteMode : Int) (h : taxHit)
    (hlog : ∀ e, 0 < e → e ≤ 1 → x.log e ≤ 0)
    (hret : setByEntry x taxonInput useAln taxHitData numCols voteMode = Outcome.ok h)
    (hle : voteMode = x.AGG_TAX_MINUS_LOG_EVAL → h.evalue ≤ 1) :
    0 ≤ h.weight := by
  obtain ⟨_, _, _, h4, h5, h6, h7⟩ :=
    setByEntry_ok x taxonInput useAln taxHitData numCols voteMode h hret
  by_cases hu : voteMode = x.AGG_TAX_UNIFORM
  · rw [h4 hu]
    norm_num
  · by_cases he : voteMode = x.AGG_TAX_MINUS_LOG_EVAL
    · by_cases hpos : 0 < h.evalue
      · rw [h5 hu he hpos]
        have := hlog h.evalue hpos (hle he)
        linarith
      · rw [h6 hu he hpos]
        norm_num [MAX_WEIGHT]
    · rw [h7 hu he]

set_option maxRecDepth 2000 in
/-- C13, amended, at a concrete input: the alignment record with the e-value
field `0.5` in evalue-weighted mode. -/
theorem C13_weight_nonneg_witness : (0 : ℚ) ≤ 842 / 1215 :=
  C13_weight_nonneg sampleExternals 11 true
    ["t1", "50", "0.9", "0.5", "1", "20", "60", "5", "25", "80"] 10 1 ⟨11, 1 / 2, 842 / 1215⟩
    sampleLog_nonpos (by with_unfolding_all decide) (fun _ => by norm_num)

/-- C14: with alignment statistics in use, a record with a non-zero taxon and
fewer than `ALN_RES_WITHOUT_BT_COL_CNT` columns makes `setByEntry` end in the
fatal exit, in every vote mode; a record with taxon `0` never does. -/
theorem C14_missing_columns_fatal (x : Externals) (taxHitData : List String) (numCols : Nat)
    (voteMode : Int) :
    (∀ taxonInput, taxonInput ≠ 0 → numCols < x.ALN_RES_WITHOUT_BT_COL_CNT →
        setByEntry x taxonInput true taxHitData numCols voteMode = Outcome.fatal) ∧
      ∀ useAln, setByEntry x 0 useAln taxHitData numCols voteMode ≠ Outcome.fatal := by
  constructor
  · intro taxonInput h0 hcols
    unfold setByEntry
    rw [if_pos ⟨h0, hcols, rfl⟩]
  · intro useAln hfatal
    unfold setByEntry at hfatal
    rw [if_neg (fun h => h.1 rfl)] at hfatal
    cases useAln with
    | false =>
      simp only [Bool.false_eq_true, if_false] at hfatal
      split_ifs at hfatal
    | true =>
      simp only [if_true] at hfatal
      cases hget : taxHitData[3]? with
      | none =>
        simp only [hget] at hfatal
        cases hfatal
      | some field =>
        simp only [hget] at hfatal
        split_ifs at hfatal

/-- C14 at a concrete input: an alignment record of three columns, with taxon
`11` and with taxon `0`. -/
theorem C14_missing_columns_fatal_witness :
    setByEntry sampleExternals 11 true ["t1", "50", "0.9"] 3 1 = Outcome.fatal ∧
      setByEntry sampleExternals 0 true ["t1", "50", "0.9"] 3 1 ≠ Outcome.fatal :=
  ⟨(C14_missing_columns_fatal sampleExternals ["t1", "50", "0.9"] 3 1).1 11 (by decide)
      (by decide),
    (C14_missing_columns_fatal sampleExternals ["t1", "50", "0.9"] 3 1).2 true⟩

/-! ## Hits of taxon `0` and the counters -/

theorem accumulateHit_congr (t : NcbiTaxonomy) (fuel : Nat) (s : AccState) (a b : taxHit)
    (h : SameAssigned a b) : accumulateHit t fuel s a = accumulateHit t fuel s b := by
  by_cases h0 : a.taxon = 0
  · have hb : b.taxon = 0 := h.1 ▸ h0
    simp [accumulateHit, h0, hb]
  · rw [h.2 h0]

theorem accumulate_congr (t : NcbiTaxonomy) (fuel : Nat) (l1 l2 : List taxHit)
    (h : SameExceptUnassigned l1 l2) :
    ∀ (s : AccState), accumulate t fuel s l1 = accumulate t fuel s l2 := by
  induction h with
  | nil => intro s; rfl
  | cons hab _ ih =>
    intro s
    rw [accumulate, accumulate, accumulateHit_congr t fuel s _ _ hab]
    cases accumulateHit t fuel s _ with
    | ok s1 => exact ih s1
    | fatal => rfl
    | undefined => rfl
    | outOfFuel => rfl

theorem countAgree_congr (t : NcbiTaxonomy) (fuel : Nat) (sel : TaxID) (l1 l2 : List taxHit)
    (h : SameExceptUnassigned l1 l2) :
    ∀ (n : Nat), countAgree t fuel sel n l1 = countAgree t fuel sel n l2 := by
  induction h with
  | nil => intro n; rfl
  | @cons a b _ _ hab _ ih =>
    intro n
    rw [countAgree, countAgree]
    by_cases h0 : a.taxon = 0
    · have hb : b.taxon = 0 := hab.1 ▸ h0
      simp only [h0, hb, if_true]
      exact ih n
    · have hab' := hab.2 h0
      subst hab'
      simp only [h0, if_false]
      cases t.taxonNode a.taxon with
      | none => rfl
      | some node =>
        simp only []
        cases agreeWalk t sel fuel a.taxon node.parentTaxId with
        | ok b => exact ih _
        | fatal => rfl
        | undefined => rfl
        | outOfFuel => rfl

/-- The accumulation loop over hits of taxon `0` only counts them. -/
theorem accumulate_unassigned (t : NcbiTaxonomy) (fuel : Nat) (setTaxa : List taxHit)
    (h0 : ∀ h ∈ setTaxa, h.taxon = 0) :
    ∀ (s : AccState), accumulate t fuel s setTaxa =
      Outcome.ok { s with numUnassignedSeqs := s.numUnassignedSeqs + setTaxa.length } := by
  induction setTaxa with
  | nil => intro s; rfl
  | cons x xs ih =>
    intro s
    rw [accumulate]
    simp only [accumulateHit, h0 x (List.mem_cons_self _ _), if_true]
    rw [ih (fun y hy => h0 y (List.mem_cons_of_mem _ hy))]
    simp only [List.length_cons, Outcome.ok.injEq, AccState.mk.injEq, true_and, and_true]
    omega

theorem accumulateHit_ok_counts (t : NcbiTaxonomy) (fuel : Nat) (s s' : AccState) (h : taxHit)
    (hok : accumulateHit t fuel s h = Outcome.ok s') :
    s'.numAssignedSeqs = s.numAssignedSeqs + (if h.taxon = 0 then 0 else 1) ∧
      s'.numUnassignedSeqs = s.numUnassignedSeqs + (if h.taxon = 0 then 1 else 0) := by
  unfold accumulateHit at hok
  by_cases h0 : h.taxon = 0
  · simp only [h0, if_true, Outcome.ok.injEq] at hok
    subst hok
    simp [h0]
  · simp only [h0, if_false] at hok ⊢
    cases hn : t.taxonNode h.taxon with
    | none => simp [hn] at hok
    | some node =>
      simp only [hn] at hok
      cases ha : addWeight s.ancTaxIdsCounts h.taxon h.weight with
      | ok m1 =>
        simp only [ha] at hok
        cases hw : ancestorsWalk t h.weight fuel m1 h.taxon node.parentTaxId with
        | ok m2 =>
          simp only [hw, Outcome.ok.injEq] at hok
          subst hok
          simp
        | fatal => simp [hw] at hok
        | undefined => simp [hw] at hok
        | outOfFuel => simp [hw] at hok
      | fatal => simp [ha] at hok
      | undefined => simp [ha] at hok
      | outOfFuel => simp [ha] at hok

theorem accumulate_ok_counts (t : NcbiTaxonomy) (fuel : Nat) (setTaxa : List taxHit) :
    ∀ (s s' : AccState), accumulate t fuel s setTaxa = Outcome.ok s' →
      s'.numAssignedSeqs = s.numAssignedSeqs + (assignedHits setTaxa).length ∧
        s'.numUnassignedSeqs = s.numUnassignedSeqs +
          (setTaxa.filter (fun h => decide (h.taxon = 0))).length := by
  induction setTaxa with
  | nil =>
    intro s s' h
    simp only [accumulate, Outcome.ok.injEq] at h
    subst h
    simp [assignedHits]
  | cons x xs ih =>
    intro s s' h
    rw [accumulate] at h
    cases h1 : accumulateHit t fuel s x with
    | ok s1 =>
      simp only [h1] at h
      obtain ⟨a1, a2⟩ := accumulateHit_ok_counts t fuel s s1 x h1
      obtain ⟨b1, b2⟩ := ih s1 s' h
      rw [b1, b2, a1, a2]
      by_cases h0 : x.taxon = 0
      · simp [assignedHits, h0]
        omega
      · simp [assignedHits, h0]
        omega
    | fatal => simp [h1] at h
    | undefined => simp [h1] at h
    | outOfFuel => simp [h1] at h

theorem length_assigned_add_unassigned (setTaxa : List taxHit) :
    (assignedHits setTaxa).length + (setTaxa.filter (fun h => decide (h.taxon = 0))).length =
      setTaxa.length := by
  induction setTaxa with
  | nil => simp [assignedHits]
  | cons x xs ih =>
    unfold assignedHits at ih ⊢
    by_cases h0 : x.taxon = 0
    · simp [h0] at ih ⊢
      omega
    · simp [h0] at ih ⊢
      omega

/-- C15: two hit lists that are equal except for the `evalue` and `weight`
fields of the hits with taxon `0` make `selectTaxForSet` end in the same way,
with the same selected taxon, counters and `selectedPercent`, for every tree,
cutoff and fuel. -/
theorem C15_unassigned_fields_ignored (t : NcbiTaxonomy) (fuel : Nat) (l1 l2 : List taxHit)
    (majorityCutoff : ℚ) (h : SameExceptUnassigned l1 l2) :
    selectTaxForSet t fuel l1 majorityCutoff = selectTaxForSet t fuel l2 majorityCutoff := by
  unfold selectTaxForSet
  rw [accumulate_congr t fuel l1 l2 h]
  cases accumulate t fuel AccState.init l2 with
  | ok acc =>
    simp only []
    cases selectLoop t majorityCutoff acc.totalAssignedSeqsWeights SelState.init
        acc.ancTaxIdsCounts with
    | ok sel =>
      simp only []
      rw [countAgree_congr t fuel sel.selctedTaxon l1 l2 h]
    | fatal => rfl
    | undefined => rfl
    | outOfFuel => rfl
  | fatal => rfl
  | undefined => rfl
  | outOfFuel => rfl

/-- C15 at a concrete input: two lists on the sample tree that differ in the
e-value and the weight of the hit of taxon `0`. -/
theorem C15_unassigned_fields_ignored_witness :
    selectTaxForSet sampleTree 10 [⟨11, 1, 1⟩, ⟨0, 1, 1⟩, ⟨12, 1, 1⟩] (1 / 2) =
      selectTaxForSet sampleTree 10 [⟨11, 1, 1⟩, ⟨0, 7, 1000⟩, ⟨12, 1, 1⟩] (1 / 2) :=
  C15_unassigned_fields_ignored sampleTree 10 [⟨11, 1, 1⟩, ⟨0, 1, 1⟩, ⟨12, 1, 1⟩]
    [⟨11, 1, 1⟩, ⟨0, 7, 1000⟩, ⟨12, 1, 1⟩] (1 / 2)
    (List.Forall₂.cons ⟨rfl, fun _ => rfl⟩
      (List.Forall₂.cons ⟨rfl, fun h => absurd rfl h⟩
        (List.Forall₂.cons ⟨rfl, fun _ => rfl⟩ List.Forall₂.nil)))

/-- C16: when every hit has taxon `0`, `selectTaxForSet` returns `0` with
`selectedPercent = 0`, `numAssignedSeqs = 0`, `numSeqsAgreeWithSelectedTaxon = 0`
and `numUnassignedSeqs` the length of the list, for every tree, cutoff and fuel. -/
theorem C16_all_unassigned (t : NcbiTaxonomy) (fuel : Nat) (setTaxa : List taxHit)
    (majorityCutoff : ℚ) (h0 : ∀ h ∈ setTaxa, h.taxon = 0) :
    selectTaxForSet t fuel setTaxa majorityCutoff =
      Outcome.ok ⟨0, 0, setTaxa.length, 0, FloatVal.fin 0⟩ := by
  unfold selectTaxForSet
  rw [accumulate_unassigned t fuel setTaxa h0]
  simp [AccState.init, selectLoop, SelState.init]

/-- C16 at a concrete input: three hits of taxon `0`, on the sample tree and
without fuel. -/
theorem C16_all_unassigned_witness :
    selectTaxForSet sampleTree 0 [⟨0, 1, 1⟩, ⟨0, 1 / 2, 3⟩, ⟨0, 1, 0⟩] (1 / 2) =
      Outcome.ok ⟨0, 0, 3, 0, FloatVal.fin 0⟩ :=
  C16_all_unassigned sampleTree 0 [⟨0, 1, 1⟩, ⟨0, 1 / 2, 3⟩, ⟨0, 1, 0⟩] (1 / 2)
    (by
      intro h hh
      simp only [List.mem_cons, List.mem_singleton, List.not_mem_nil, or_false] at hh
      rcases hh with rfl | rfl | rfl <;> rfl)

/-- C17: when `selectTaxForSet` returns, `numAssignedSeqs` is the number of hits
with a non-zero taxon, `numUnassignedSeqs` the number of hits with taxon `0`,
their sum (the `totalNumSeqs` of the driver) the number of hits, and
`numSeqsAgreeWithSelectedTaxon` is at most `numAssignedSeqs`. -/
theorem C17_counters (t : NcbiTaxonomy) (fuel : Nat) (setTaxa : List taxHit)
    (majorityCutoff : ℚ) (res : SetResult)
    (h : selectTaxForSet t fuel setTaxa majorityCutoff = Outcome.ok res) :
    res.numAssignedSeqs = (assignedHits setTaxa).length ∧
      res.numUnassignedSeqs = (setTaxa.filter (fun h => decide (h.taxon = 0))).length ∧
      res.numAssignedSeqs + res.numUnassignedSeqs = setTaxa.length ∧
      res.numSeqsAgreeWithSelectedTaxon ≤ res.numAssignedSeqs := by
  obtain ⟨acc, sel, ha, _, _, _, h3, h4, h5, h6, h7⟩ :=
    selectTaxForSet_ok t fuel setTaxa majorityCutoff res h
  obtain ⟨c1, c2⟩ := accumulate_ok_counts t fuel setTaxa _ _ ha
  simp only [AccState.init, zero_add] at c1 c2
  have hA : res.numAssignedSeqs = (assignedHits setTaxa).length := h3.trans c1
  have hU : res.numUnassignedSeqs =
      (setTaxa.filter (fun h => decide (h.taxon = 0))).length := h4.trans c2
  refine ⟨hA, hU, ?_, ?_⟩
  · rw [hA, hU]
    exact length_assigned_add_unassigned setTaxa
  · by_cases h1 : sel.selctedTaxon = 1
    · rw [h5 h1, h3]
    · by_cases h0 : sel.selctedTaxon = 0
      · rw [h6 h1 h0]
        exact Nat.zero_le _
      · have hc := h7 h1 h0
        rw [countAgree_eq t fuel _ setTaxa 0
          (accumulate_ok_fuelSuffices t fuel setTaxa _ _ ha)] at hc
        simp only [Outcome.ok.injEq, zero_add] at hc
        rw [← hc, hA]
        exact List.length_filter_le _ _

/-- C17 at a concrete input: the set of the scenario on the sample tree. -/
theorem C17_counters_witness :
    (3 : Nat) = (assignedHits [⟨11, 1, 1⟩, ⟨12, 1, 1⟩, ⟨10, 1, 1⟩, ⟨0, 1, 1⟩]).length ∧
      (1 : Nat) = (([⟨11, 1, 1⟩, ⟨12, 1, 1⟩, ⟨10, 1, 1⟩, ⟨0, 1, 1⟩] : List taxHit).filter
        (fun h => decide (h.taxon = 0))).length ∧
      3 + 1 = ([⟨11, 1, 1⟩, ⟨12, 1, 1⟩, ⟨10, 1, 1⟩, ⟨0, 1, 1⟩] : List taxHit).length ∧
      3 ≤ 3 :=
  C17_counters sampleTree 10 [⟨11, 1, 1⟩, ⟨12, 1, 1⟩, ⟨10, 1, 1⟩, ⟨0, 1, 1⟩] (1 / 2)
    ⟨10, 3, 1, 3, FloatVal.fin 1⟩ (by with_unfolding_all decide)

/-! ## Bounds on the stored totals -/

theorem truncToZero_eq_floor (w : ℚ) (hw : 0 ≤ w) : truncToZero w = ((⌊w⌋ : Int) : ℚ) := by
  unfold truncToZero
  rw [Rat.floor_def, Int.tdiv_eq_ediv (Rat.num_nonneg.mpr hw) (Int.ofNat_nonneg _)]

theorem truncToZero_nonneg (w : ℚ) (hw : 0 ≤ w) : 0 ≤ truncToZero w := by
  rw [truncToZero_eq_floor w hw]
  exact_mod_cast Int.floor_nonneg.mpr hw

theorem truncToZero_le (w : ℚ) (hw : 0 ≤ w) : truncToZero w ≤ w := by
  rw [truncToZero_eq_floor w hw]
  exact Int.floor_le w

theorem weightsConvertible_of_nonneg (setTaxa : List taxHit) (h : WeightsNonneg setTaxa) :
    WeightsConvertible setTaxa := by
  intro x hx h0
  obtain ⟨h1, h2⟩ := h x hx h0
  exact ⟨by linarith, h2⟩

/-- One "add currWeight" of a non-negative weight keeps the stored values
non-negative and raises the value of the key by at most the weight. -/
theorem valueAt_addWeightVal_bounds (w : ℚ) (hw : 0 ≤ w) (m : TaxMap) (k k' : TaxID) :
    (0 ≤ TaxMap.valueAt m k' → 0 ≤ TaxMap.valueAt (addWeightVal w m k) k') ∧
      TaxMap.valueAt (addWeightVal w m k) k' ≤
        TaxMap.valueAt m k' + (if k' = k then w else 0) := by
  unfold TaxMap.valueAt
  rw [find_addWeightVal]
  by_cases h : k' = k
  · subst h
    cases hf : TaxMap.find m k' with
    | none =>
      simp only [if_true, Option.getD_some, Option.getD_none, zero_add]
      exact ⟨fun _ => truncToZero_nonneg w hw, truncToZero_le w hw⟩
    | some v =>
      simp only [if_true, Option.getD_some]
      exact ⟨fun hv => add_nonneg hv hw, le_refl _⟩
  · simp [h]

theorem valueAt_foldl_bounds (w : ℚ) (hw : 0 ≤ w) (l : List TaxID) :
    ∀ (m : TaxMap) (k' : TaxID),
      (0 ≤ TaxMap.valueAt m k' → 0 ≤ TaxMap.valueAt (l.foldl (addWeightVal w) m) k') ∧
        TaxMap.valueAt (l.foldl (addWeightVal w) m) k' ≤
          TaxMap.valueAt m k' + (l.count k' : ℚ) * w := by
  induction l with
  | nil => intro m k'; simp
  | cons k ks ih =>
    intro m k'
    obtain ⟨a1, a2⟩ := valueAt_addWeightVal_bounds w hw m k k'
    obtain ⟨b1, b2⟩ := ih (addWeightVal w m k) k'
    simp only [List.foldl_cons]
    refine ⟨fun h => b1 (a1 h), le_trans b2 ?_⟩
    rw [List.count_cons]
    by_cases h : k' = k
    · subst h
      simp only [if_true] at a2
      simp only [beq_self_eq_true, if_true, Nat.cast_add, Nat.cast_one]
      linarith
    · have h' : ¬ (k = k') := fun h2 => h h2.symm
      simp only [h, if_false, add_zero] at a2
      simp only [beq_iff_eq, h', if_false, add_zero]
      linarith

/-- With non-negative weights every stored total is non-negative and at most the
sum of the weights of the hits whose lineage holds the node. -/
theorem accPure_valueAt_bounds (t : NcbiTaxonomy) (fuel : Nat) (setTaxa : List taxHit) :
    ∀ (s : AccState) (k : TaxID), WeightsNonneg setTaxa →
      (0 ≤ TaxMap.valueAt s.ancTaxIdsCounts k →
        0 ≤ TaxMap.valueAt (accPure t fuel s setTaxa).ancTaxIdsCounts k) ∧
      TaxMap.valueAt (accPure t fuel s setTaxa).ancTaxIdsCounts k ≤
        TaxMap.valueAt s.ancTaxIdsCounts k + lineageWeight t fuel setTaxa k := by
  induction setTaxa with
  | nil => intro s k _; simp [accPure, lineageWeight, assignedHits]
  | cons h hs ih =>
    intro s k hw
    simp only [accPure, List.foldl_cons]
    obtain ⟨b1, b2⟩ := ih (accStep t fuel s h) k (fun x hx => hw x (List.mem_cons_of_mem _ hx))
    simp only [accPure] at b1 b2
    by_cases h0 : h.taxon = 0
    · have hstep : (accStep t fuel s h).ancTaxIdsCounts = s.ancTaxIdsCounts := by
        simp [accStep, h0]
      rw [hstep] at b1 b2
      refine ⟨b1, le_trans b2 ?_⟩
      simp [lineageWeight, assignedHits, h0]
    · obtain ⟨hnn, _⟩ := hw h (List.mem_cons_self _ _) h0
      have hstep : (accStep t fuel s h).ancTaxIdsCounts =
          (lineageOf t fuel h.taxon).foldl (addWeightVal h.weight) s.ancTaxIdsCounts := by
        simp [accStep, h0]
      obtain ⟨a1, a2⟩ := valueAt_foldl_bounds h.weight hnn (lineageOf t fuel h.taxon)
        s.ancTaxIdsCounts k
      rw [hstep] at b1 b2
      refine ⟨fun hs0 => b1 (a1 hs0), le_trans b2 ?_⟩
      rw [count_lineageOf] at a2
      by_cases hm : k ∈ lineageOf t fuel h.taxon
      · simp only [hm, if_true, one_mul] at a2
        simp only [lineageWeight, assignedHits, List.filter_cons, ne_eq, h0, not_false_eq_true,
          decide_True, if_true, hm, List.map_cons, List.sum_cons]
        simp only [lineageWeight, assignedHits, ne_eq] at *
        linarith
      · simp only [hm, if_false, zero_mul, add_zero] at a2
        simp only [lineageWeight, assignedHits, List.filter_cons, ne_eq, h0, not_false_eq_true,
          decide_True, if_true, hm, decide_False, Bool.false_eq_true, if_false]
        simp only [lineageWeight, assignedHits, ne_eq] at *
        linarith

theorem sum_filter_le_sum (l : List taxHit) (p : taxHit → Bool)
    (hnn : ∀ h ∈ l, 0 ≤ h.weight) :
    ((l.filter p).map (fun h => h.weight)).sum ≤ (l.map (fun h => h.weight)).sum := by
  induction l with
  | nil => simp
  | cons x xs ih =>
    have hx := hnn x (List.mem_cons_self _ _)
    have := ih (fun y hy => hnn y (List.mem_cons_of_mem _ hy))
    by_cases hp : p x = true
    · simp only [List.filter_cons, hp, if_true, List.map_cons, List.sum_cons]
      linarith
    · simp only [List.filter_cons, hp, List.map_cons, List.sum_cons]
      simp only [Bool.false_eq_true, if_false]
      linarith

theorem lineageWeight_le_assignedWeight (t : NcbiTaxonomy) (fuel : Nat) (setTaxa : List taxHit)
    (k : TaxID) (hw : WeightsNonneg setTaxa) :
    lineageWeight t fuel setTaxa k ≤ assignedWeight setTaxa := by
  unfold lineageWeight assignedWeight
  apply sum_filter_le_sum
  intro h hh
  unfold assignedHits at hh
  obtain ⟨hm, h0⟩ := List.mem_filter.mp hh
  exact (hw h hm (by simpa using h0)).1

theorem assignedWeight_nonneg (setTaxa : List taxHit) (hw : WeightsNonneg setTaxa) :
    0 ≤ assignedWeight setTaxa := by
  unfold assignedWeight
  apply List.sum_nonneg
  intro x hx
  obtain ⟨h, hh, rfl⟩ := List.mem_map.mp hx
  unfold assignedHits at hh
  obtain ⟨hm, h0⟩ := List.mem_filter.mp hh
  exact (hw h hm (by simpa using h0)).1

/-- C18, evaluated on the code: two hits of taxon `11` with the weights `1` and
`1 + 3/2^24` on the well-formed sample tree, cutoff `1/2`.  The accumulation
loop stores `2 + 3/2^24` under node `11`, which is also the total weight;
`float(it->second)` rounds it up to `2 + 4/2^24`, and `selectTaxForSet` returns
`selectedPercent = 33554436/33554435`, a value above `1`. -/
theorem C18_selectedPercent_above_one :
    WellFormed sampleTree ∧
      accumulate sampleTree 10 AccState.init [⟨11, 1 / 3, 1⟩, ⟨11, 1 / 3, 16777219 / 16777216⟩] =
        Outcome.ok ⟨[(1, 33554435 / 16777216), (2, 33554435 / 16777216),
          (10, 33554435 / 16777216), (11, 33554435 / 16777216)], 2, 0, 33554435 / 16777216⟩ ∧
      toFloat (33554435 / 16777216) = FloatVal.fin (33554436 / 16777216) ∧
      selectTaxForSet sampleTree 10 [⟨11, 1 / 3, 1⟩, ⟨11, 1 / 3, 16777219 / 16777216⟩] (1 / 2) =
        Outcome.ok ⟨11, 2, 0, 2, FloatVal.fin (33554436 / 33554435)⟩ ∧
      (1 : ℚ) < 33554436 / 33554435 := by
  refine ⟨sampleTree_wellFormed, ?_, ?_, ?_, by norm_num⟩ <;> with_unfolding_all rfl

/-- C19, evaluated on the code: for the single hit of taxon `11` and weight
`1/2` on the well-formed sample tree, the accumulation loop stores `0` under the
taxon of the hit and under every ancestor up to the root, which is less than
the weight `1/2` of the hit. -/
theorem C19_running_total_below_weight :
    WellFormed sampleTree ∧
      accumulate sampleTree 10 AccState.init [⟨11, 3 / 5, 1 / 2⟩] =
        Outcome.ok ⟨[(1, 0), (2, 0), (10, 0), (11, 0)], 1, 0, 1 / 2⟩ ∧
      lineage sampleTree 10 11 = some [11, 10, 2, 1] ∧ (0 : ℚ) < 1 / 2 := by
  refine ⟨sampleTree_wellFormed, ?_, ?_, ?_⟩ <;> with_unfolding_all decide

/-! ## The record of one set -/

theorem tabCount_append (a b : String) : tabCount (a ++ b) = tabCount a + tabCount b := by
  simp [tabCount, List.count_append]

theorem tabCount_of_noTab (s : String) (h : NoTab s) : tabCount s = 0 :=
  List.count_eq_zero.mpr h

theorem newlineCount_append (a b : String) :
    newlineCount (a ++ b) = newlineCount a + newlineCount b := by
  simp [newlineCount, List.count_append]

theorem newlineCount_of_noNewline (s : String) (h : NoNewline s) : newlineCount s = 0 :=
  List.count_eq_zero.mpr h

theorem splitTab_ne_nil (l : List Char) : splitTab l ≠ [] := by
  induction l with
  | nil => simp [splitTab]
  | cons c cs ih =>
    unfold splitTab
    by_cases hc : c = '\t'
    · simp [hc]
    · simp only [hc, if_false]
      cases hs : splitTab cs with
      | nil => exact absurd hs ih
      | cons f fs => simp

theorem splitTab_of_noTab (a : List Char) (h : '\t' ∉ a) : splitTab a = [a] := by
  induction a with
  | nil => rfl
  | cons c cs ih =>
    have hc : c ≠ '\t' := fun hc => h (hc ▸ List.mem_cons_self _ _)
    have hcs : '\t' ∉ cs := fun hm => h (List.mem_cons_of_mem _ hm)
    simp [splitTab, hc, ih hcs]

theorem splitTab_append_tab (a rest : List Char) (h : '\t' ∉ a) :
    splitTab (a ++ '\t' :: rest) = a :: splitTab rest := by
  induction a with
  | nil => simp [splitTab]
  | cons c cs ih =>
    have hc : c ≠ '\t' := fun hc => h (hc ▸ List.mem_cons_self _ _)
    have hcs : '\t' ∉ cs := fun hm => h (List.mem_cons_of_mem _ hm)
    simp [splitTab, hc, ih hcs]

/-- The pieces of seven tab-free texts joined by tabs and followed by a tail. -/
theorem splitTab_seven (a b c d e f g tail : List Char) (ha : '\t' ∉ a) (hb : '\t' ∉ b)
    (hc : '\t' ∉ c) (hd : '\t' ∉ d) (he : '\t' ∉ e) (hf : '\t' ∉ f) :
    splitTab (a ++ '\t' :: (b ++ '\t' :: (c ++ '\t' :: (d ++ '\t' :: (e ++ '\t' ::
      (f ++ '\t' :: (g ++ tail))))))) = a :: b :: c :: d :: e :: f :: splitTab (g ++ tail) := by
  rw [splitTab_append_tab a _ ha, splitTab_append_tab b _ hb, splitTab_append_tab c _ hc,
    splitTab_append_tab d _ hd, splitTab_append_tab e _ he, splitTab_append_tab f _ hf]

theorem noTab_no_rank : NoTab "no rank" := by unfold NoTab; decide

theorem noTab_unclassified : NoTab "unclassified" := by unfold NoTab; decide

theorem data_seven (s1 s2 s3 s4 s5 s6 s7 : String) :
    ("" ++ s1 ++ "\t" ++ s2 ++ "\t" ++ s3 ++ "\t" ++ s4 ++ "\t" ++ s5 ++ "\t" ++ s6 ++ "\t" ++
      s7).data =
      s1.data ++ '\t' :: (s2.data ++ '\t' :: (s3.data ++ '\t' :: (s4.data ++ '\t' ::
        (s5.data ++ '\t' :: (s6.data ++ '\t' :: s7.data))))) := by
  have hempty : ("" : String).data = [] := rfl
  have htab : ("\t" : String).data = ['\t'] := rfl
  simp only [String.data_append, hempty, htab, List.nil_append, List.append_assoc,
    List.singleton_append, List.cons_append]

/-- The pieces of the seven leading fields of a record text followed by a tail. -/
theorem splitTab_record (s1 s2 s3 s4 s5 s6 s7 : String) (tail : List Char) (h1 : NoTab s1)
    (h2 : NoTab s2) (h3 : NoTab s3) (h4 : NoTab s4) (h5 : NoTab s5) (h6 : NoTab s6) :
    splitTab (("" ++ s1 ++ "\t" ++ s2 ++ "\t" ++ s3 ++ "\t" ++ s4 ++ "\t" ++ s5 ++ "\t" ++ s6 ++
      "\t" ++ s7).data ++ tail) =
      s1.data :: s2.data :: s3.data :: s4.data :: s5.data :: s6.data ::
        splitTab (s7.data ++ tail) := by
  rw [data_seven]
  simp only [List.append_assoc, List.cons_append]
  exact splitTab_seven _ _ _ _ _ _ _ tail h1 h2 h3 h4 h5 h6

theorem tabCount_seven (s1 s2 s3 s4 s5 s6 s7 : String) (h1 : NoTab s1) (h2 : NoTab s2)
    (h3 : NoTab s3) (h4 : NoTab s4) (h5 : NoTab s5) (h6 : NoTab s6) (h7 : NoTab s7) :
    tabCount ("" ++ s1 ++ "\t" ++ s2 ++ "\t" ++ s3 ++ "\t" ++ s4 ++ "\t" ++ s5 ++ "\t" ++ s6 ++
      "\t" ++ s7) = 6 := by
  have htab : tabCount "\t" = 1 := rfl
  have hempty : tabCount "" = 0 := rfl
  simp only [tabCount_append, htab, hempty, tabCount_of_noTab _ h1, tabCount_of_noTab _ h2,
    tabCount_of_noTab _ h3, tabCount_of_noTab _ h4, tabCount_of_noTab _ h5,
    tabCount_of_noTab _ h6, tabCount_of_noTab _ h7]

theorem newlineCount_seven (s1 s2 s3 s4 s5 s6 s7 : String) (h1 : NoNewline s1)
    (h2 : NoNewline s2) (h3 : NoNewline s3) (h4 : NoNewline s4) (h5 : NoNewline s5)
    (h6 : NoNewline s6) (h7 : NoNewline s7) :
    newlineCount ("" ++ s1 ++ "\t" ++ s2 ++ "\t" ++ s3 ++ "\t" ++ s4 ++ "\t" ++ s5 ++ "\t" ++
      s6 ++ "\t" ++ s7) = 0 := by
  have htab : newlineCount "\t" = 0 := rfl
  have hempty : newlineCount "" = 0 := rfl
  simp only [newlineCount_append, htab, hempty, newlineCount_of_noNewline _ h1,
    newlineCount_of_noNewline _ h2, newlineCount_of_noNewline _ h3,
    newlineCount_of_noNewline _ h4, newlineCount_of_noNewline _ h5,
    newlineCount_of_noNewline _ h6, newlineCount_of_noNewline _ h7]

/-- The fields of the text of a set without consensus. -/
theorem noConsensusText_fields (env : RecordEnv) (ranks : List String) (showTaxLineage : Int)
    (total assigned agree : Nat) (pct : FloatVal) (hint : ∀ i, NoTab (env.sstrInt i))
    (hsize : ∀ n, NoTab (env.sstrSize n)) (hfloat : ∀ p, NoTab (env.sstrFloat p)) :
    (splitTab (noConsensusText env ranks showTaxLineage total assigned agree pct).data).map
        String.mk =
      [env.sstrInt 0, "no rank", "unclassified", env.sstrSize total, env.sstrSize assigned,
        env.sstrSize agree, env.sstrFloat (roundedPercent pct)] ++
        trailingFields ranks showTaxLineage := by
  have key := fun tail => splitTab_record (env.sstrInt 0) "no rank" "unclassified"
    (env.sstrSize total) (env.sstrSize assigned) (env.sstrSize agree)
    (env.sstrFloat (roundedPercent pct)) tail (hint 0) noTab_no_rank noTab_unclassified
    (hsize total) (hsize assigned) (hsize agree)
  have hp : '\t' ∉ (env.sstrFloat (roundedPercent pct)).data := hfloat (roundedPercent pct)
  have htab : ("\t" : String).data = ['\t'] := rfl
  have hsingle : splitTab ['\t'] = [[], []] := by simp [splitTab]
  have hnil : splitTab [] = [[]] := rfl
  unfold noConsensusText trailingFields
  by_cases hr : ranks = [] <;> by_cases hm : 0 < showTaxLineage
  · simp only [hr, hm, ne_eq, not_true_eq_false, if_false, if_true]
    rw [String.data_append, htab, key, splitTab_append_tab _ _ hp, hnil]
    rfl
  · simp only [hr, hm, ne_eq, not_true_eq_false, if_false]
    have := key []
    rw [List.append_nil] at this
    rw [this, List.append_nil, splitTab_of_noTab _ hp]
    rfl
  · simp only [hr, hm, ne_eq, not_false_eq_true, if_true]
    rw [String.data_append, String.data_append, htab, List.append_assoc, key,
      List.singleton_append, splitTab_append_tab _ _ hp, hsingle]
    rfl
  · simp only [hr, hm, ne_eq, not_false_eq_true, if_true, if_false]
    rw [String.data_append, htab, key, splitTab_append_tab _ _ hp, hnil]
    rfl

theorem data_append_tab (s x : String) : (s ++ ("\t" ++ x)).data = s.data ++ '\t' :: x.data := by
  have htab : ("\t" : String).data = ['\t'] := rfl
  simp only [String.data_append, htab, List.singleton_append]

/-- The fields of the text of a set with a selected node. -/
theorem consensusText_fields (env : RecordEnv) (ranks : List String) (showTaxLineage : Int)
    (node : TaxonNode) (total assigned agree : Nat) (pct : FloatVal)
    (hint : ∀ i, NoTab (env.sstrInt i)) (hsize : ∀ n, NoTab (env.sstrSize n))
    (hfloat : ∀ p, NoTab (env.sstrFloat p)) (hrank : NoTab node.rank) (hname : NoTab node.name)
    (hlca : NoTab (env.lcaRanks node ranks)) (hlin : ∀ b, NoTab (env.taxLineage node b)) :
    (splitTab (consensusText env ranks showTaxLineage node total assigned agree pct).data).map
        String.mk =
      [env.sstrInt node.taxId, node.rank, node.name, env.sstrSize total, env.sstrSize assigned,
        env.sstrSize agree, env.sstrFloat (roundedPercent pct)] ++
        (if ranks ≠ [] then [env.lcaRanks node ranks] else []) ++
        (if showTaxLineage = 1 then [env.taxLineage node true] else []) ++
        (if showTaxLineage = 2 then [env.taxLineage node false] else []) := by
  have key := fun tail => splitTab_record (env.sstrInt node.taxId) node.rank node.name
    (env.sstrSize total) (env.sstrSize assigned) (env.sstrSize agree)
    (env.sstrFloat (roundedPercent pct)) tail (hint node.taxId) hrank hname
    (hsize total) (hsize assigned) (hsize agree)
  have key0 := key []
  rw [List.append_nil] at key0
  have hp : '\t' ∉ (env.sstrFloat (roundedPercent pct)).data := hfloat (roundedPercent pct)
  have hl : '\t' ∉ (env.lcaRanks node ranks).data := hlca
  have ht : '\t' ∉ (env.taxLineage node true).data := hlin true
  have hf : '\t' ∉ (env.taxLineage node false).data := hlin false
  have htab : ("\t" : String).data = ['\t'] := rfl
  unfold consensusText
  by_cases hr : ranks = []
  · by_cases h1 : showTaxLineage = 1
    · simp only [hr, h1, ne_eq, not_true_eq_false, if_false, if_true]
      simp only [show ¬ ((1 : Int) = 2) by decide, if_false]
      rw [data_append_tab, key, splitTab_append_tab _ _ hp, splitTab_of_noTab _ ht]
      rfl
    · by_cases h2 : showTaxLineage = 2
      · simp only [hr, h2, ne_eq, not_true_eq_false, if_false, if_true]
        simp only [show ¬ ((2 : Int) = 1) by decide, if_false]
        rw [data_append_tab, key, splitTab_append_tab _ _ hp, splitTab_of_noTab _ hf]
        rfl
      · simp only [hr, h1, h2, ne_eq, not_true_eq_false, if_false]
        rw [key0, List.append_nil, splitTab_of_noTab _ hp]
        rfl
  · by_cases h1 : showTaxLineage = 1
    · simp only [hr, h1, ne_eq, not_false_eq_true, if_true]
      simp only [show ¬ ((1 : Int) = 2) by decide, if_false]
      rw [data_append_tab, data_append_tab, List.append_assoc, List.cons_append, key,
        splitTab_append_tab _ _ hp, splitTab_append_tab _ _ hl, splitTab_of_noTab _ ht]
      rfl
    · by_cases h2 : showTaxLineage = 2
      · simp only [hr, h2, ne_eq, not_false_eq_true, if_true]
        simp only [show ¬ ((2 : Int) = 1) by decide, if_false]
        rw [data_append_tab, data_append_tab, List.append_assoc, List.cons_append, key,
          splitTab_append_tab _ _ hp, splitTab_append_tab _ _ hl, splitTab_of_noTab _ hf]
        rfl
      · simp only [hr, h1, h2, ne_eq, not_false_eq_true, if_true, if_false]
        rw [data_append_tab, key, splitTab_append_tab _ _ hp, splitTab_of_noTab _ hl]
        rfl

theorem tabCount_noConsensusText (env : RecordEnv) (ranks : List String) (showTaxLineage : Int)
    (total assigned agree : Nat) (pct : FloatVal) (hint : ∀ i, NoTab (env.sstrInt i))
    (hsize : ∀ n, NoTab (env.sstrSize n)) (hfloat : ∀ p, NoTab (env.sstrFloat p)) :
    tabCount (noConsensusText env ranks showTaxLineage total assigned agree pct) =
      6 + (if ranks ≠ [] then 1 else 0) + (if 0 < showTaxLineage then 1 else 0) := by
  have key := tabCount_seven (env.sstrInt 0) "no rank" "unclassified"
    (env.sstrSize total) (env.sstrSize assigned) (env.sstrSize agree)
    (env.sstrFloat (roundedPercent pct)) (hint 0) noTab_no_rank noTab_unclassified
    (hsize total) (hsize assigned) (hsize agree) (hfloat _)
  have htab : tabCount "\t" = 1 := rfl
  unfold noConsensusText
  by_cases hr : ranks = [] <;> by_cases hm : 0 < showTaxLineage
  · simp only [hr, hm, ne_eq, not_true_eq_false, if_false, if_true]
    rw [tabCount_append, htab, key]
  · simp only [hr, hm, ne_eq, not_true_eq_false, if_false]
    rw [key]
  · simp only [hr, hm, ne_eq, not_false_eq_true, if_true]
    rw [tabCount_append, tabCount_append, htab, key]
  · simp only [hr, hm, ne_eq, not_false_eq_true, if_true, if_false]
    rw [tabCount_append, htab, key]

theorem tabCount_consensusText (env : RecordEnv) (ranks : List String) (showTaxLineage : Int)
    (node : TaxonNode) (total assigned agree : Nat) (pct : FloatVal)
    (hint : ∀ i, NoTab (env.sstrInt i)) (hsize : ∀ n, NoTab (env.sstrSize n))
    (hfloat : ∀ p, NoTab (env.sstrFloat p)) (hrank : NoTab node.rank) (hname : NoTab node.name)
    (hlca : NoTab (env.lcaRanks node ranks)) (hlin : ∀ b, NoTab (env.taxLineage node b)) :
    tabCount (consensusText env ranks showTaxLineage node total assigned agree pct) =
      6 + (if ranks ≠ [] then 1 else 0) + (if showTaxLineage = 1 then 1 else 0) +
        (if showTaxLineage = 2 then 1 else 0) := by
  have key := tabCount_seven (env.sstrInt node.taxId) node.rank node.name
    (env.sstrSize total) (env.sstrSize assigned) (env.sstrSize agree)
    (env.sstrFloat (roundedPercent pct)) (hint node.taxId) hrank hname
    (hsize total) (hsize assigned) (hsize agree) (hfloat _)
  have htab : tabCount "\t" = 1 := rfl
  have hl := tabCount_of_noTab _ hlca
  have ht := tabCount_of_noTab _ (hlin true)
  have hf := tabCount_of_noTab _ (hlin false)
  unfold consensusText
  have h12 : ¬ ((1 : Int) = 2) := by decide
  have h21 : ¬ ((2 : Int) = 1) := by decide
  by_cases hr : ranks = [] <;> by_cases h1 : showTaxLineage = 1 <;>
    by_cases h2 : showTaxLineage = 2 <;>
    first
    | (exfalso; omega)
    | simp only [hr, h1, h2, h12, h21, ne_eq, not_true_eq_false, not_false_eq_true, if_false,
        if_true, tabCount_append, htab, key, hl, ht, hf]

theorem newlineCount_noConsensusText (env : RecordEnv) (ranks : List String)
    (showTaxLineage : Int) (total assigned agree : Nat) (pct : FloatVal)
    (hint : ∀ i, NoNewline (env.sstrInt i)) (hsize : ∀ n, NoNewline (env.sstrSize n))
    (hfloat : ∀ p, NoNewline (env.sstrFloat p)) :
    newlineCount (noConsensusText env ranks showTaxLineage total assigned agree pct) = 0 := by
  have key := newlineCount_seven (env.sstrInt 0) "no rank" "unclassified"
    (env.sstrSize total) (env.sstrSize assigned) (env.sstrSize agree)
    (env.sstrFloat (roundedPercent pct)) (hint 0) (by unfold NoNewline; decide)
    (by unfold NoNewline; decide) (hsize total) (hsize assigned) (hsize agree) (hfloat _)
  have htab : newlineCount "\t" = 0 := rfl
  unfold noConsensusText
  by_cases hr : ranks = [] <;> by_cases hm : 0 < showTaxLineage <;>
    simp only [hr, hm, ne_eq, not_true_eq_false, not_false_eq_true, if_false, if_true,
      newlineCount_append, htab, key]

theorem newlineCount_consensusText (env : RecordEnv) (ranks : List String)
    (showTaxLineage : Int) (node : TaxonNode) (total assigned agree : Nat) (pct : FloatVal)
    (hint : ∀ i, NoNewline (env.sstrInt i)) (hsize : ∀ n, NoNewline (env.sstrSize n))
    (hfloat : ∀ p, NoNewline (env.sstrFloat p)) (hrank : NoNewline node.rank)
    (hname : NoNewline node.name) (hlca : NoNewline (env.lcaRanks node ranks))
    (hlin : ∀ b, NoNewline (env.taxLineage node b)) :
    newlineCount (consensusText env ranks showTaxLineage node total assigned agree pct) = 0 := by
  have key := newlineCount_seven (env.sstrInt node.taxId) node.rank node.name
    (env.sstrSize total) (env.sstrSize assigned) (env.sstrSize agree)
    (env.sstrFloat (roundedPercent pct)) (hint node.taxId) hrank hname
    (hsize total) (hsize assigned) (hsize agree) (hfloat _)
  have htab : newlineCount "\t" = 0 := rfl
  have hl := newlineCount_of_noNewline _ hlca
  have ht := newlineCount_of_noNewline _ (hlin true)
  have hf := newlineCount_of_noNewline _ (hlin false)
  unfold consensusText
  have h12 : ¬ ((1 : Int) = 2) := by decide
  have h21 : ¬ ((2 : Int) = 1) := by decide
  by_cases hr : ranks = [] <;> by_cases h1 : showTaxLineage = 1 <;>
    by_cases h2 : showTaxLineage = 2 <;>
    first
    | (exfalso; omega)
    | simp only [hr, h1, h2, h12, h21, ne_eq, not_true_eq_false, not_false_eq_true, if_false,
        if_true, newlineCount_append, htab, key, hl, ht, hf]

theorem aggregateRecord_noConsensus (env : RecordEnv) (t : NcbiTaxonomy) (ranks : List String)
    (showTaxLineage : Int) (res : SetResult)
    (h : res.selctedTaxon = 0 ∨ t.taxonNode res.selctedTaxon = none) :
    aggregateRecord env t ranks showTaxLineage res =
      noConsensusText env ranks showTaxLineage (res.numAssignedSeqs + res.numUnassignedSeqs)
        res.numAssignedSeqs res.numSeqsAgreeWithSelectedTaxon res.selectedPercent ++ "\n" := by
  unfold aggregateRecord
  cases hn : t.taxonNode res.selctedTaxon with
  | none => rfl
  | some node =>
    rcases h with h | h
    · simp only [h, if_true]
    · rw [hn] at h
      cases h

theorem aggregateRecord_consensus (env : RecordEnv) (t : NcbiTaxonomy) (ranks : List String)
    (showTaxLineage : Int) (res : SetResult) (node : TaxonNode) (h0 : res.selctedTaxon ≠ 0)
    (hn : t.taxonNode res.selctedTaxon = some node) :
    aggregateRecord env t ranks showTaxLineage res =
      consensusText env ranks showTaxLineage node (res.numAssignedSeqs + res.numUnassignedSeqs)
        res.numAssignedSeqs res.numSeqsAgreeWithSelectedTaxon res.selectedPercent ++ "\n" := by
  unfold aggregateRecord
  simp only [hn, h0, if_false]

theorem recordFields_append_newline (s : String) :
    recordFields (s ++ "\n") = (splitTab s.data).map String.mk := by
  have hnl : ("\n" : String).data = ['\n'] := rfl
  unfold recordFields
  rw [String.data_append, hnl, List.dropLast_concat]

theorem getLast_append_newline (s : String) : (s ++ "\n").data.getLast? = some '\n' := by
  have hnl : ("\n" : String).data = ['\n'] := rfl
  rw [String.data_append, hnl, List.getLast?_append]
  rfl

/-- C20: for the lineage modes `0`, `1` and `2` and any list of requested ranks,
with tab-free field texts, the record of a set without consensus has the fields
`0`, `no rank`, `unclassified`, the three counters and the rounded percent,
followed by one empty field per optional column; the record of a set with a
selected node has the same number of tabs; both end with a newline, and hold
exactly one newline when the field texts hold none. -/
theorem C20_record_structure (env : RecordEnv) (t : NcbiTaxonomy) (ranks : List String)
    (showTaxLineage : Int) (res0 res1 : SetResult) (node1 : TaxonNode)
    (hmode : showTaxLineage = 0 ∨ showTaxLineage = 1 ∨ showTaxLineage = 2)
    (h0 : res0.selctedTaxon = 0 ∨ t.taxonNode res0.selctedTaxon = none)
    (h1 : res1.selctedTaxon ≠ 0) (hn1 : t.taxonNode res1.selctedTaxon = some node1)
    (hint : ∀ i, NoTab (env.sstrInt i)) (hsize : ∀ n, NoTab (env.sstrSize n))
    (hfloat : ∀ p, NoTab (env.sstrFloat p)) (hrank : NoTab node1.rank)
    (hname : NoTab node1.name) (hlca : NoTab (env.lcaRanks node1 ranks))
    (hlin : ∀ b, NoTab (env.taxLineage node1 b)) :
    recordFields (aggregateRecord env t ranks showTaxLineage res0) =
        [env.sstrInt 0, "no rank", "unclassified",
          env.sstrSize (res0.numAssignedSeqs + res0.numUnassignedSeqs),
          env.sstrSize res0.numAssignedSeqs, env.sstrSize res0.numSeqsAgreeWithSelectedTaxon,
          env.sstrFloat (roundedPercent res0.selectedPercent)] ++
          trailingFields ranks showTaxLineage ∧
      recordFields (aggregateRecord env t ranks showTaxLineage res1) =
        [env.sstrInt node1.taxId, node1.rank, node1.name,
          env.sstrSize (res1.numAssignedSeqs + res1.numUnassignedSeqs),
          env.sstrSize res1.numAssignedSeqs, env.sstrSize res1.numSeqsAgreeWithSelectedTaxon,
          env.sstrFloat (roundedPercent res1.selectedPercent)] ++
          (if ranks ≠ [] then [env.lcaRanks node1 ranks] else []) ++
          (if showTaxLineage = 1 then [env.taxLineage node1 true] else []) ++
          (if showTaxLineage = 2 then [env.taxLineage node1 false] else []) ∧
      tabCount (aggregateRecord env t ranks showTaxLineage res0) =
        tabCount (aggregateRecord env t ranks showTaxLineage res1) ∧
      (aggregateRecord env t ranks showTaxLineage res0).data.getLast? = some '\n' ∧
      (aggregateRecord env t ranks showTaxLineage res1).data.getLast? = some '\n' ∧
      ((∀ i, NoNewline (env.sstrInt i)) → (∀ n, NoNewline (env.sstrSize n)) →
        (∀ p, NoNewline (env.sstrFloat p)) → NoNewline node1.rank → NoNewline node1.name →
        NoNewline (env.lcaRanks node1 ranks) → (∀ b, NoNewline (env.taxLineage node1 b)) →
        newlineCount (aggregateRecord env t ranks showTaxLineage res0) = 1 ∧
          newlineCount (aggregateRecord env t ranks showTaxLineage res1) = 1) := by
  rw [aggregateRecord_noConsensus env t ranks showTaxLineage res0 h0,
    aggregateRecord_consensus env t ranks showTaxLineage res1 node1 h1 hn1]
  have hnlTab : tabCount "\n" = 0 := rfl
  have hnlCount : newlineCount "\n" = 1 := rfl
  refine ⟨?_, ?_, ?_, getLast_append_newline _, getLast_append_newline _, ?_⟩
  · rw [recordFields_append_newline]
    exact noConsensusText_fields env ranks showTaxLineage _ _ _ _ hint hsize hfloat
  · rw [recordFields_append_newline]
    exact consensusText_fields env ranks showTaxLineage node1 _ _ _ _ hint hsize hfloat hrank
      hname hlca hlin
  · rw [tabCount_append, tabCount_append, hnlTab,
      tabCount_noConsensusText env ranks showTaxLineage _ _ _ _ hint hsize hfloat,
      tabCount_consensusText env ranks showTaxLineage node1 _ _ _ _ hint hsize hfloat hrank
        hname hlca hlin]
    rcases hmode with hm | hm | hm <;> rw [hm] <;> simp
  · intro gint gsize gfloat grank gname glca glin
    rw [newlineCount_append, newlineCount_append, hnlCount,
      newlineCount_noConsensusText env ranks showTaxLineage _ _ _ _ gint gsize gfloat,
      newlineCount_consensusText env ranks showTaxLineage node1 _ _ _ _ gint gsize gfloat grank
        gname glca glin]
    exact ⟨rfl, rfl⟩

/-- C20 at a concrete input: the sample tree with two requested ranks and the
full lineage shown; a set without consensus and a set with the genus `10`. -/
theorem C20_record_structure_witness :
    tabCount (aggregateRecord sampleRecordEnv sampleTree ["genus", "species"] 1
        ⟨0, 3, 1, 0, FloatVal.fin 0⟩) =
      tabCount (aggregateRecord sampleRecordEnv sampleTree ["genus", "species"] 1
        ⟨10, 3, 1, 3, FloatVal.fin 1⟩) :=
  (C20_record_structure sampleRecordEnv sampleTree ["genus", "species"] 1
    ⟨0, 3, 1, 0, FloatVal.fin 0⟩ ⟨10, 3, 1, 3, FloatVal.fin 1⟩ ⟨10, 2, "genus", "G"⟩
    (Or.inr (Or.inl rfl)) (Or.inl rfl) (by decide) rfl noTab_sampleSstrInt noTab_sampleSstrSize
    noTab_sampleSstrFloat (by unfold NoTab; decide) (by unfold NoTab; decide)
    (by unfold NoTab; decide) (fun b => by cases b <;> (unfold NoTab; decide))).2.2.1

/-! ## Termination of the lineage walks -/

/-- "add currWeight" returns unless the conversion of the weight is undefined. -/
theorem addWeight_total (m : TaxMap) (k : TaxID) (w : ℚ) :
    (∃ m', addWeight m k w = Outcome.ok m') ∨
      (addWeight m k w = Outcome.undefined ∧ toUnsignedInt w = none) := by
  unfold addWeight
  by_cases hf : (m.find k).isSome = true
  · exact Or.inl ⟨m.addAt k w, by simp [hf]⟩
  · cases hu : toUnsignedInt w with
    | none => exact Or.inr ⟨by simp [hf], rfl⟩
    | some u => exact Or.inl ⟨m.insert k u, by simp [hf]⟩

/-- With fuel for the lineage, the walk over the ancestors ends: it returns a
map, or it stops at a conversion of the weight that is undefined. -/
theorem ancestorsWalk_total (t : NcbiTaxonomy) (w : ℚ) (fuel : Nat) :
    ∀ (m : TaxMap) (id : TaxID) (node : TaxonNode) (l : List TaxID),
      t.taxonNode id = some node → lineage t fuel id = some (id :: l) →
      (∃ m', ancestorsWalk t w fuel m id node.parentTaxId = Outcome.ok m') ∨
        (ancestorsWalk t w fuel m id node.parentTaxId = Outcome.undefined ∧
          toUnsignedInt w = none) := by
  induction fuel with
  | zero => intro m id node l _ h; simp [lineage] at h
  | succ f ih =>
    intro m id node l hn h
    rw [lineage] at h
    simp only [hn] at h
    rw [ancestorsWalk]
    by_cases hp : node.parentTaxId = id
    · exact Or.inl ⟨m, by simp [hp]⟩
    · simp only [hp, if_false, Option.map_eq_some', List.cons.injEq, true_and] at h
      obtain ⟨l', h1, h2⟩ := h
      subst h2
      obtain ⟨l'', hl''⟩ := lineage_head t f _ _ h1
      subst hl''
      have hres := lineage_resolves t f _ _ h1 node.parentTaxId (List.mem_cons_self _ _)
      obtain ⟨node', hn'⟩ := Option.isSome_iff_exists.mp hres
      rcases addWeight_total m node.parentTaxId w with ⟨m1, hm1⟩ | ⟨hu, hnone⟩
      · simp only [hp, if_false, hm1, hn']
        exact ih m1 _ node' l'' hn' h1
      · exact Or.inr ⟨by simp only [hp, if_false, hu], hnone⟩

/-- With fuel for the lineage of the hit and a taxon that resolves, one
iteration of the accumulation loop ends with a state or at an undefined
conversion of the weight. -/
theorem accumulateHit_total (t : NcbiTaxonomy) (fuel : Nat) (s : AccState) (h : taxHit)
    (hf : h.taxon ≠ 0 → (lineage t fuel h.taxon).isSome = true) :
    (∃ s', accumulateHit t fuel s h = Outcome.ok s') ∨
      (accumulateHit t fuel s h = Outcome.undefined ∧ h.taxon ≠ 0 ∧
        toUnsignedInt h.weight = none) := by
  unfold accumulateHit
  by_cases h0 : h.taxon = 0
  · exact Or.inl ⟨{ s with numUnassignedSeqs := s.numUnassignedSeqs + 1 }, by simp [h0]⟩
  · simp only [h0, if_false]
    obtain ⟨l, hl⟩ := Option.isSome_iff_exists.mp (hf h0)
    obtain ⟨l', hl'⟩ := lineage_head t fuel _ _ hl
    subst hl'
    have hres := lineage_resolves t fuel _ _ hl h.taxon (List.mem_cons_self _ _)
    obtain ⟨node, hn⟩ := Option.isSome_iff_exists.mp hres
    simp only [hn]
    rcases addWeight_total s.ancTaxIdsCounts h.taxon h.weight with ⟨m1, hm1⟩ | ⟨hu, hnone⟩
    · simp only [hm1]
      rcases ancestorsWalk_total t h.weight fuel m1 h.taxon node l' hn hl with
        ⟨m2, hm2⟩ | ⟨hu, hnone⟩
      · exact Or.inl ⟨_, by simp only [hm2]; rfl⟩
      · exact Or.inr ⟨by simp only [hu], h0, hnone⟩
    · exact Or.inr ⟨by simp only [hu], h0, hnone⟩

/-- With enough fuel the accumulation loop ends with a state or at an
undefined conversion of the weight of an assigned hit. -/
theorem accumulate_total (t : NcbiTaxonomy) (fuel : Nat) (setTaxa : List taxHit) :
    ∀ (s : AccState), FuelSuffices t fuel setTaxa →
      (∃ s', accumulate t fuel s setTaxa = Outcome.ok s') ∨
        (accumulate t fuel s setTaxa = Outcome.undefined ∧
          ∃ h ∈ setTaxa, h.taxon ≠ 0 ∧ toUnsignedInt h.weight = none) := by
  induction setTaxa with
  | nil => intro s _; exact Or.inl ⟨s, rfl⟩
  | cons h hs ih =>
    intro s hf
    rw [accumulate]
    rcases accumulateHit_total t fuel s h (hf h (List.mem_cons_self _ _)) with
      ⟨s1, h1⟩ | ⟨hu, h0, hnone⟩
    · simp only [h1]
      rcases ih s1 (fun x hx => hf x (List.mem_cons_of_mem _ hx)) with ⟨s2, h2⟩ | ⟨hu, x, hx, hx0, hxn⟩
      · exact Or.inl ⟨s2, h2⟩
      · exact Or.inr ⟨hu, x, List.mem_cons_of_mem _ hx, hx0, hxn⟩
    · exact Or.inr ⟨by simp only [hu], h, List.mem_cons_self _ _, h0, hnone⟩

/-- C26: on a tree in which the lineage of every node reaches the self-parent
root, for hits whose non-zero taxa resolve, there is a fuel from which on
the accumulation loop ends (with a state, or at a conversion of a weight to
`unsigned int` that is undefined), the agreement loop returns for every
selected taxon, every node on the lineage of an assigned hit resolves, and,
when the weights are in the range of the conversion, `selectTaxForSet`
returns a result: no lookup gave `NULL`. -/
theorem C26_walks_terminate (t : NcbiTaxonomy) (setTaxa : List taxHit) (majorityCutoff : ℚ)
    (hr : ReachesRoot t) (hres : Resolves t setTaxa) :
    ∃ fuel0, ∀ fuel, fuel0 ≤ fuel →
      ((∃ acc, accumulate t fuel AccState.init setTaxa = Outcome.ok acc) ∨
        (accumulate t fuel AccState.init setTaxa = Outcome.undefined ∧
          ∃ h ∈ setTaxa, h.taxon ≠ 0 ∧ toUnsignedInt h.weight = none)) ∧
      (∀ selctedTaxon, ∃ n, countAgree t fuel selctedTaxon 0 setTaxa = Outcome.ok n) ∧
      (∀ h ∈ setTaxa, h.taxon ≠ 0 → ∃ l, lineage t fuel h.taxon = some l ∧
        ∀ k ∈ l, (t.taxonNode k).isSome = true) ∧
      (WeightsConvertible setTaxa →
        ∃ res, selectTaxForSet t fuel setTaxa majorityCutoff = Outcome.ok res) := by
  obtain ⟨f0, hf0⟩ := exists_fuelSuffices t hr setTaxa hres
  refine ⟨f0, fun fuel hfuel => ?_⟩
  have hf := hf0 fuel hfuel
  refine ⟨accumulate_total t fuel setTaxa AccState.init hf, ?_, ?_, ?_⟩
  · intro s
    exact ⟨_, countAgree_eq t fuel s setTaxa 0 hf⟩
  · intro h hh h0
    obtain ⟨l, hl⟩ := Option.isSome_iff_exists.mp (hf h hh h0)
    exact ⟨l, hl, lineage_resolves t fuel _ l hl⟩
  · intro hw
    exact selectTaxForSet_returns t fuel setTaxa majorityCutoff hw hf

/-- C26 at a concrete input: hits on two species of the sample tree and an
unassigned hit; fuel `4` suffices. -/
theorem C26_walks_terminate_witness :
    ReachesRoot sampleTree ∧
      ∃ fuel0, ∀ fuel, fuel0 ≤ fuel →
        ((∃ acc, accumulate sampleTree fuel AccState.init
            [⟨11, 1, 1⟩, ⟨21, 1, 5 / 2⟩, ⟨0, 1, 0⟩] = Outcome.ok acc) ∨
          (accumulate sampleTree fuel AccState.init
              [⟨11, 1, 1⟩, ⟨21, 1, 5 / 2⟩, ⟨0, 1, 0⟩] = Outcome.undefined ∧
            ∃ h ∈ [(⟨11, 1, 1⟩ : taxHit), ⟨21, 1, 5 / 2⟩, ⟨0, 1, 0⟩], h.taxon ≠ 0 ∧
              toUnsignedInt h.weight = none)) ∧
        (∀ selctedTaxon, ∃ n, countAgree sampleTree fuel selctedTaxon 0
          [⟨11, 1, 1⟩, ⟨21, 1, 5 / 2⟩, ⟨0, 1, 0⟩] = Outcome.ok n) ∧
        (∀ h ∈ [(⟨11, 1, 1⟩ : taxHit), ⟨21, 1, 5 / 2⟩, ⟨0, 1, 0⟩], h.taxon ≠ 0 →
          ∃ l, lineage sampleTree fuel h.taxon = some l ∧
            ∀ k ∈ l, (sampleTree.taxonNode k).isSome = true) ∧
        (WeightsConvertible [⟨11, 1, 1⟩, ⟨21, 1, 5 / 2⟩, ⟨0, 1, 0⟩] →
          ∃ res, selectTaxForSet sampleTree fuel [⟨11, 1, 1⟩, ⟨21, 1, 5 / 2⟩, ⟨0, 1, 0⟩] (1 / 2) =
            Outcome.ok res) :=
  ⟨sampleTree_wellFormed.2,
    C26_walks_terminate sampleTree [⟨11, 1, 1⟩, ⟨21, 1, 5 / 2⟩, ⟨0, 1, 0⟩] (1 / 2)
      sampleTree_wellFormed.2
      (by
        intro h hh h0
        simp only [List.mem_cons, List.mem_singleton, List.not_mem_nil, or_false] at hh
        rcases hh with rfl | rfl | rfl
        · rfl
        · rfl
        · exact absurd rfl h0)⟩

/-! ## Ties in the selection loop -/

/-- A run of `aggregate` without alignments never returns: when no fatal exit
and no earlier undefined step ends it, it ends at line 312 in the call through
the `NULL` pointer. -/
theorem aggregate_without_aln (x : Externals) (env : RecordEnv) (t : NcbiTaxonomy) (fuel : Nat)
    (voteMode : Int) (majorityThr : ℚ) (ranks : List String) (showTaxLineage : Int)
    (sets : List (Nat × List SetMember)) :
    ∀ r, aggregate x env t fuel false voteMode majorityThr ranks showTaxLineage sets ≠
      Outcome.ok r := by
  intro r h
  unfold aggregate openAlnSeqReader at h
  simp only [Bool.false_eq_true, if_false] at h
  split_ifs at h
  split at h <;> simp at h

/-- C23, evaluated on the code: the entry point `aggregatetax` in the uniform
vote mode on one set of three members of the sample tree. The loop writes the
record of the set, no member touches the alignment reader, and the run then
ends at line 312, in `alnSeqReader->close()` on the `NULL` pointer, and not by
returning `EXIT_SUCCESS`; with an alignment reader the same run returns
`EXIT_SUCCESS`. No run without alignments returns. -/
theorem C23_null_reader_closed :
    aggregateSets sampleExternals sampleRecordEnv sampleTree 10 false (openAlnSeqReader false)
        0 (1 / 2) [] 0 [(7, [⟨11, ["11", "species", "A"], [], 0⟩,
          ⟨12, ["12", "species", "B"], [], 0⟩, ⟨0, ["0", "no", "rank"], [], 0⟩])] =
        Outcome.ok [(7, "11\tspecies\tA\t3\t2\t1\t0.5\n")] ∧
      aggregatetax sampleExternals sampleRecordEnv sampleTree 10 0 (1 / 2) [] 0
        [(7, [⟨11, ["11", "species", "A"], [], 0⟩, ⟨12, ["12", "species", "B"], [], 0⟩,
          ⟨0, ["0", "no", "rank"], [], 0⟩])] = Outcome.undefined ∧
      aggregatetaxweights sampleExternals sampleRecordEnv sampleTree 10 0 (1 / 2) [] 0
        [(7, [⟨11, ["11", "species", "A"], ["11", "5", "57", "0.5", "0.5"], 11⟩,
          ⟨12, ["12", "species", "B"], ["12", "6", "60", "0.5", "0.25"], 11⟩,
          ⟨0, ["0", "no", "rank"], ["0", "6", "60", "0.5", "0.25"], 0⟩])] =
        Outcome.ok (EXIT_SUCCESS, [(7, "11\tspecies\tA\t3\t2\t1\t0.5\n")]) ∧
      ∀ (x : Externals) (env : RecordEnv) (t : NcbiTaxonomy) (fuel : Nat) (voteMode : Int)
        (majorityThr : ℚ) (ranks : List String) (showTaxLineage : Int)
        (sets : List (Nat × List SetMember)) (r : Int × List (Nat × String)),
        aggregatetax x env t fuel voteMode majorityThr ranks showTaxLineage sets ≠
          Outcome.ok r := by
  refine ⟨?_, ?_, ?_, ?_⟩
  · with_unfolding_all rfl
  · with_unfolding_all rfl
  · with_unfolding_all rfl
  · intro x env t fuel voteMode majorityThr ranks showTaxLineage sets r
    exact aggregate_without_aln x env t fuel voteMode majorityThr ranks showTaxLineage sets r

/-! ## The joined exons -/

/-- Two steps in sequence return exactly when both return. -/
theorem Outcome.bind_eq_ok {α β : Type} (o : Outcome α) (f : α → Outcome β) (b : β) :
    o.bind f = Outcome.ok b ↔ ∃ a, o = Outcome.ok a ∧ f a = Outcome.ok b := by
  cases o with
  | ok a => simp [Outcome.bind]
  | fatal => simp [Outcome.bind]
  | undefined => simp [Outcome.bind]
  | outOfFuel => simp [Outcome.bind]

/-- An `int` operation that returns gives the exact result. -/
theorem checkedInt_eq_ok (v w : Int) (h : checkedInt v = Outcome.ok w) : w = v := by
  unfold checkedInt at h
  split_ifs at h
  simp only [Outcome.ok.injEq] at h
  exact h.symm

/-- Lines 67-73 remove three nucleotides per overlapping codon from the start
of the exon. -/
theorem trimExon_spec (lastTargetPosMatched : Int) (e : Exon) (s l : Int)
    (h : trimExon lastTargetPosMatched e = Outcome.ok (s, l)) :
    s = e.contigStart + 3 * trimmedCodons lastTargetPosMatched e ∧
      l = e.nucleotideLen - 3 * trimmedCodons lastTargetPosMatched e := by
  unfold trimExon at h
  unfold trimmedCodons
  by_cases hc : lastTargetPosMatched ≥ e.targetMatchStart
  · rw [if_pos hc] at h
    rw [if_pos hc]
    obtain ⟨a, ha, h⟩ := (Outcome.bind_eq_ok _ _ _).mp h
    obtain ⟨d, hd, h⟩ := (Outcome.bind_eq_ok _ _ _).mp h
    obtain ⟨t3, ht3, h⟩ := (Outcome.bind_eq_ok _ _ _).mp h
    obtain ⟨s', hs', h⟩ := (Outcome.bind_eq_ok _ _ _).mp h
    obtain ⟨l', hl', h⟩ := (Outcome.bind_eq_ok _ _ _).mp h
    simp only [Outcome.ok.injEq, Prod.mk.injEq] at h
    have h1 := checkedInt_eq_ok _ _ ha
    have h2 := checkedInt_eq_ok _ _ hd
    have h3 := checkedInt_eq_ok _ _ ht3
    have h4 := checkedInt_eq_ok _ _ hs'
    have h5 := checkedInt_eq_ok _ _ hl'
    obtain ⟨h6, h7⟩ := h
    subst h1 h2 h3 h4 h5 h6 h7
    exact ⟨rfl, rfl⟩
  · rw [if_neg hc] at h
    rw [if_neg hc]
    simp only [Outcome.ok.injEq, Prod.mk.injEq] at h
    obtain ⟨h6, h7⟩ := h
    subst h6 h7
    simp

/-- A segment that is read has the length asked for. -/
theorem contigSegment_length (contigData : List Char) (start len : Int) (seq : String)
    (h : contigSegment contigData start len = Outcome.ok seq) :
    (seq.length : Int) = len ∧ 0 ≤ len := by
  unfold contigSegment at h
  split_ifs at h with hc
  simp only [Outcome.ok.injEq] at h
  subst h
  obtain ⟨h1, h2, h3⟩ := hc
  refine ⟨?_, h2⟩
  show (((List.take len.toNat (List.drop start.toNat contigData)).length : Nat) : Int) = len
  rw [List.length_take, List.length_drop]
  omega

/-- The reverse complement keeps the length. -/
theorem reverseComplement_length (complement : Char → Char) (seq : String) :
    (reverseComplement complement seq).length = seq.length := by
  unfold reverseComplement
  show (List.map complement seq.data.reverse).length = seq.data.length
  simp

/-- The loop over the exons appends, for each exon, as many characters as the
exon has nucleotides after trimming. -/
theorem exonsLoop_length (c : StrandConsts) (fmt : StreamEnv) (complement : Char → Char)
    (predStrand : Int) (contigData : List Char) (writeFragCoords : Int) (es : List Exon) :
    ∀ (last : Int) (hdr exons hdr' exons' : String),
      exonsLoop c fmt complement predStrand contigData writeFragCoords last hdr exons es =
        Outcome.ok (hdr', exons') →
      (exons'.length : Int) = (exons.length : Int) + adjustedTotal last es ∧
        TrimmedNonneg last es := by
  induction es with
  | nil =>
    intro last hdr exons hdr' exons' h
    simp only [exonsLoop, Outcome.ok.injEq, Prod.mk.injEq] at h
    obtain ⟨_, h2⟩ := h
    subst h2
    simp [adjustedTotal, TrimmedNonneg]
  | cons e es ih =>
    intro last hdr exons hdr' exons' h
    rw [exonsLoop] at h
    by_cases hm : predStrand = c.MINUS ∧ (0 < e.contigStart ∨ 0 < e.contigEnd)
    · rw [if_pos hm] at h
      cases h
    rw [if_neg hm] at h
    obtain ⟨adj, hadj, h⟩ := (Outcome.bind_eq_ok _ _ _).mp h
    obtain ⟨low, _, h⟩ := (Outcome.bind_eq_ok _ _ _).mp h
    obtain ⟨seq, hseq, h⟩ := (Outcome.bind_eq_ok _ _ _).mp h
    obtain ⟨a1, _, h⟩ := (Outcome.bind_eq_ok _ _ _).mp h
    obtain ⟨a2, _, h⟩ := (Outcome.bind_eq_ok _ _ _).mp h
    obtain ⟨a3, _, h⟩ := (Outcome.bind_eq_ok _ _ _).mp h
    obtain ⟨hlen, htrim⟩ := ih _ _ _ _ _ h
    obtain ⟨_, hl⟩ := trimExon_spec last e adj.1 adj.2 hadj
    obtain ⟨hs1, hs2⟩ := contigSegment_length _ _ _ _ hseq
    have hpiece : ((if predStrand = c.PLUS then seq
        else reverseComplement complement seq).length : Int) = adj.2 := by
      split_ifs
      · exact hs1
      · rw [reverseComplement_length]
        exact hs1
    constructor
    · rw [hlen, String.length_append]
      push_cast
      rw [hpiece, hl]
      simp only [adjustedTotal]
      ring
    · exact ⟨by rw [← hl]; exact hs2, htrim⟩

/-- The stop codon that is written has three characters. -/
theorem stopCodon_length (c : StrandConsts) (complement : Char → Char) (contigData : List Char)
    (writeFragCoords : Int) (contigLen : Nat) (lastExon : Exon) (stop : String)
    (h : stopCodon c complement contigData writeFragCoords contigLen lastExon = Outcome.ok stop) :
    stop.length = 0 ∨ stop.length = 3 := by
  unfold stopCodon at h
  have hempty : ∀ x : String, Outcome.ok "" = Outcome.ok x → x.length = 0 ∨ x.length = 3 := by
    intro x hx
    simp only [Outcome.ok.injEq] at hx
    subst hx
    exact Or.inl rfl
  by_cases h1 : writeFragCoords = 1
  · rw [if_pos h1] at h
    obtain ⟨a, _, h⟩ := (Outcome.bind_eq_ok _ _ _).mp h
    by_cases h2 : lastExon.potentialExonContigEndBeforeTrim = a
    · rw [if_pos h2] at h
      obtain ⟨pos, _, h⟩ := (Outcome.bind_eq_ok _ _ _).mp h
      by_cases h3 : pos ≤ sizeToInt ((contigLen + 18446744073709551616 - 2) %
          18446744073709551616) ∧ 0 ≤ pos
      · rw [if_pos h3] at h
        obtain ⟨seq, hseq, h⟩ := (Outcome.bind_eq_ok _ _ _).mp h
        obtain ⟨hs1, _⟩ := contigSegment_length _ _ _ _ hseq
        have hs3 : seq.length = 3 := by exact_mod_cast hs1
        simp only [Outcome.ok.injEq] at h
        subst h
        right
        by_cases h4 : lastExon.strand = c.PLUS
        · rw [if_pos h4]
          exact hs3
        · rw [if_neg h4, reverseComplement_length]
          exact hs3
      · rw [if_neg h3] at h
        exact hempty _ h
    · rw [if_neg h2] at h
      exact hempty _ h
  · rw [if_neg h1] at h
    exact hempty _ h

/-- The sum of the trimmed lengths is a multiple of three when every exon
length is one. -/
theorem adjustedTotal_dvd (es : List Exon) (h3 : ∀ e ∈ es, 3 ∣ e.nucleotideLen) :
    ∀ last, 3 ∣ adjustedTotal last es := by
  induction es with
  | nil => intro last; simp [adjustedTotal]
  | cons e es ih =>
    intro last
    simp only [adjustedTotal]
    have h1 := h3 e (List.mem_cons_self _ _)
    have h2 := ih (fun x hx => h3 x (List.mem_cons_of_mem _ hx)) e.targetMatchEnd
    omega

/-- C28 as stated fails: for a prediction on the plus strand whose only exon
has `targetMatchStart = -2`, the first exon is trimmed against the initial
`lastTargetPosMatched = -1` by `d = 2` codons: of its nine nucleotides
`AAACCCGGG` the three `GGG` from position `6` are written. -/
theorem C28_counterexample :
    preparePredDataAndHeader sampleStrands sampleStreamEnv sampleComplement
        ⟨[⟨-2, 2, 0, 8, 9, 0, 8, 1⟩], 1, 50, 1 / 100, 1, 0, 8⟩ "T" "C" sampleContig 0 24 =
        Outcome.ok ("T|C|+|50|e|1|0|8|0[6]:8[8]:9[3]\n", "GGG\n") ∧
      trimExon (-1) ⟨-2, 2, 0, 8, 9, 0, 8, 1⟩ = Outcome.ok (6, 3) ∧
      trimmedCodons (-1) ⟨-2, 2, 0, 8, 9, 0, 8, 1⟩ = 2 := by
  refine ⟨?_, ?_, ?_⟩ <;> with_unfolding_all rfl

/-- C28, amended: when `preparePredDataAndHeader` returns for a prediction
with exons, each exon was trimmed at its start by `3 d` nucleotides, `d`
being `lastTargetPosMatched - targetMatchStart + 1` when the end of the exon
before it (`-1` for the first exon) is not below its `targetMatchStart` and `0`
otherwise, so that start plus length is kept; `d = 0` for a first exon whose
`targetMatchStart` is not negative; every trimmed length is non-negative; the
text of the exons stream is the trimmed lengths, a stop codon of three
characters or none, and the newline; and when every `nucleotideLen` is a
multiple of three, so is the length before the newline, and the test of the
caller does not reach its fatal exit. -/
theorem C28_joined_exons_divisible (c : StrandConsts) (fmt : StreamEnv)
    (complement : Char → Char) (pred : Prediction) (targetHeaderAcc contigHeaderAcc : String)
    (contigData : List Char) (writeFragCoords : Int) (contigLen : Nat) (hdr exons : String)
    (hne : pred.optimalExonSet ≠ [])
    (hret : preparePredDataAndHeader c fmt complement pred targetHeaderAcc contigHeaderAcc
      contigData writeFragCoords contigLen = Outcome.ok (hdr, exons))
    (hsize : exons.length < 18446744073709551616) :
    (∀ last e s l, trimExon last e = Outcome.ok (s, l) →
        s = e.contigStart + 3 * trimmedCodons last e ∧
        l = e.nucleotideLen - 3 * trimmedCodons last e ∧
        s + l = e.contigStart + e.nucleotideLen) ∧
      (∀ e, pred.optimalExonSet.head? = some e → 0 ≤ e.targetMatchStart →
        trimmedCodons (-1) e = 0) ∧
      TrimmedNonneg (-1) pred.optimalExonSet ∧
      (∃ stop : Nat, (stop = 0 ∨ stop = 3) ∧
        (exons.length : Int) = adjustedTotal (-1) pred.optimalExonSet + stop + 1) ∧
      ((∀ e ∈ pred.optimalExonSet, 3 ∣ e.nucleotideLen) →
        (exons.length - 1) % 3 = 0 ∧ codingLength exons = Outcome.ok (exons.length - 1)) := by
  unfold preparePredDataAndHeader at hret
  cases hlast : pred.optimalExonSet.getLast? with
  | none => exact absurd (List.getLast?_eq_none_iff.mp hlast) hne
  | some lastExon =>
    simp only [hlast] at hret
    obtain ⟨streams, hloop, hret⟩ := (Outcome.bind_eq_ok _ _ _).mp hret
    obtain ⟨stop, hstop, hret⟩ := (Outcome.bind_eq_ok _ _ _).mp hret
    simp only [Outcome.ok.injEq, Prod.mk.injEq] at hret
    obtain ⟨_, hex⟩ := hret
    obtain ⟨hlen, htrim⟩ := exonsLoop_length c fmt complement pred.strand contigData
      writeFragCoords pred.optimalExonSet (-1) _ "" streams.1 streams.2 hloop
    have hstoplen := stopCodon_length c complement contigData writeFragCoords contigLen
      lastExon stop hstop
    have htotal : (exons.length : Int) =
        adjustedTotal (-1) pred.optimalExonSet + stop.length + 1 := by
      rw [← hex, String.length_append, String.length_append]
      push_cast
      rw [hlen]
      have h0 : ("" : String).length = 0 := rfl
      have h1 : ("\n" : String).length = 1 := rfl
      rw [h0, h1]
      push_cast
      ring
    refine ⟨?_, ?_, htrim, ⟨stop.length, hstoplen, htotal⟩, ?_⟩
    · intro last e s l h
      obtain ⟨h1, h2⟩ := trimExon_spec last e s l h
      exact ⟨h1, h2, by rw [h1, h2]; ring⟩
    · intro e _ h0
      unfold trimmedCodons
      rw [if_neg (by omega)]
    · intro h3
      have hdvd := adjustedTotal_dvd pred.optimalExonSet h3 (-1)
      have hmod : (exons.length - 1) % 3 = 0 := by
        rcases hstoplen with hs | hs <;> rw [hs] at htotal <;> omega
      refine ⟨hmod, ?_⟩
      unfold codingLength
      have hpos : 1 ≤ exons.length := by
        rcases hstoplen with hs | hs <;> rw [hs] at htotal <;> omega
      have hn : (exons.length + 18446744073709551616 - 1) % 18446744073709551616 =
          exons.length - 1 := by omega
      simp only [hn, hmod, ne_eq, not_true_eq_false, if_false]

/-- C28, amended, at a concrete input: a prediction on the plus strand with
two exons of nine nucleotides on the sample contig, the second one overlapping
the first by one codon on the target, with the stop codon written. -/
theorem C28_joined_exons_divisible_witness :
    preparePredDataAndHeader sampleStrands sampleStreamEnv sampleComplement
        ⟨[⟨0, 2, 0, 8, 9, 0, 8, 1⟩, ⟨2, 5, 12, 20, 9, 12, 20, 1⟩], 1, 50, 1 / 100, 2, 0, 20⟩
        "T" "C" sampleContig 1 24 =
        Outcome.ok ("T|C|+|50|e|2|0|20|[0]0[0]:[8]8[8]:9[9]|[12]12[15]:[20]20[20]:9[6]\n",
          "AAACCCGGGTACGTAATT\n") ∧
      codingLength "AAACCCGGGTACGTAATT\n" = Outcome.ok 18 :=
  ⟨by with_unfolding_all rfl,
    ((C28_joined_exons_divisible sampleStrands sampleStreamEnv sampleComplement
      ⟨[⟨0, 2, 0, 8, 9, 0, 8, 1⟩, ⟨2, 5, 12, 20, 9, 12, 20, 1⟩], 1, 50, 1 / 100, 2, 0, 20⟩
      "T" "C" sampleContig 1 24
      "T|C|+|50|e|2|0|20|[0]0[0]:[8]8[8]:9[9]|[12]12[15]:[20]20[20]:9[6]\n"
      "AAACCCGGGTACGTAATT\n" (by simp) (by with_unfolding_all rfl) (by decide)).2.2.2.2
      (by
        intro e he
        simp only [List.mem_cons, List.mem_singleton, List.not_mem_nil, or_false] at he
        rcases he with rfl | rfl <;> decide)).2⟩

/-! ## Many hits of one species of the sample tree -/

/-- One more hit of species `11` with weight `1` on a map that holds the four
nodes of its lineage. -/
theorem accumulateHit_sample (a tot e : ℚ) (p q : Nat) :
    accumulateHit sampleTree 10 ⟨[(1, a), (2, a), (10, a), (11, a)], p, q, tot⟩ ⟨11, e, 1⟩ =
      Outcome.ok ⟨[(1, a + 1), (2, a + 1), (10, a + 1), (11, a + 1)], p + 1, q, tot + 1⟩ := by
  with_unfolding_all rfl

/-- The accumulation loop over `k` hits of species `11` with weight `1`. -/
theorem accumulate_sample_replicate (e : ℚ) (k : Nat) :
    ∀ (a tot : ℚ) (p q : Nat),
      accumulate sampleTree 10 ⟨[(1, a), (2, a), (10, a), (11, a)], p, q, tot⟩
          (List.replicate k ⟨11, e, 1⟩) =
        Outcome.ok ⟨[(1, a + k), (2, a + k), (10, a + k), (11, a + k)], p + k, q, tot + k⟩ := by
  induction k with
  | zero => intro a tot p q; simp [accumulate]
  | succ k ih =>
    intro a tot p q
    rw [List.replicate_succ, accumulate, accumulateHit_sample]
    simp only []
    rw [ih]
    simp only [Outcome.ok.injEq, AccState.mk.injEq]
    push_cast
    refine ⟨?_, by omega, trivial, by ring⟩
    simp only [List.cons.injEq, Prod.mk.injEq, true_and, and_true]
    refine ⟨?_, ?_, ?_, ?_⟩ <;> ring

/-- The accumulation loop over `k + 1` hits of species `11` with weight `1`. -/
theorem accumulate_sample_uniform (e : ℚ) (k : Nat) :
    accumulate sampleTree 10 AccState.init (List.replicate (k + 1) ⟨11, e, 1⟩) =
      Outcome.ok ⟨[(1, (k : ℚ) + 1), (2, (k : ℚ) + 1), (10, (k : ℚ) + 1), (11, (k : ℚ) + 1)],
        k + 1, 0, (k : ℚ) + 1⟩ := by
  have h1 : accumulateHit sampleTree 10 AccState.init ⟨11, e, 1⟩ =
      Outcome.ok ⟨[(1, 1), (2, 1), (10, 1), (11, 1)], 1, 0, 1⟩ := by
    rw [accumulateHit_eq sampleTree 10 AccState.init ⟨11, e, 1⟩ (fun _ => by norm_num)
      (fun _ => rfl)]
    with_unfolding_all rfl
  rw [List.replicate_succ, accumulate, h1]
  simp only []
  rw [accumulate_sample_replicate]
  simp only [Outcome.ok.injEq, AccState.mk.injEq]
  refine ⟨?_, by omega, trivial, by ring⟩
  simp only [List.cons.injEq, Prod.mk.injEq, true_and, and_true]
  refine ⟨?_, ?_, ?_, ?_⟩ <;> ring

/-- The agreement loop for species `11` over `k` hits of species `11`. -/
theorem countAgree_sample_replicate (e : ℚ) (k : Nat) :
    ∀ m, countAgree sampleTree 10 11 m (List.replicate k ⟨11, e, 1⟩) = Outcome.ok (m + k) := by
  induction k with
  | zero => intro m; simp [countAgree]
  | succ k ih =>
    intro m
    have hstep : ∀ rest, countAgree sampleTree 10 11 m (⟨11, e, 1⟩ :: rest) =
        countAgree sampleTree 10 11 (m + 1) rest := by
      intro rest
      with_unfolding_all rfl
    rw [List.replicate_succ, hstep, ih]
    simp only [Outcome.ok.injEq]
    omega

/-- A run whose selection loop selects nothing. -/
theorem selectTaxForSet_of_none (t : NcbiTaxonomy) (fuel : Nat) (setTaxa : List taxHit) (c : ℚ)
    (acc : AccState) (sel : SelState)
    (ha : accumulate t fuel AccState.init setTaxa = Outcome.ok acc)
    (hs : selectLoop t c acc.totalAssignedSeqsWeights SelState.init acc.ancTaxIdsCounts =
      Outcome.ok sel) (h0 : sel.selctedTaxon = 0) :
    selectTaxForSet t fuel setTaxa c =
      Outcome.ok ⟨0, acc.numAssignedSeqs, acc.numUnassignedSeqs, 0, sel.selectedPercent⟩ := by
  unfold selectTaxForSet
  simp only [ha, hs, h0]
  rfl

/-- A run whose selection loop selects a taxon other than `0` and `1`. -/
theorem selectTaxForSet_of_agree (t : NcbiTaxonomy) (fuel : Nat) (setTaxa : List taxHit) (c : ℚ)
    (acc : AccState) (sel : SelState) (n : Nat)
    (ha : accumulate t fuel AccState.init setTaxa = Outcome.ok acc)
    (hs : selectLoop t c acc.totalAssignedSeqsWeights SelState.init acc.ancTaxIdsCounts =
      Outcome.ok sel) (h1 : sel.selctedTaxon ≠ 1) (h0 : sel.selctedTaxon ≠ 0)
    (hc : countAgree t fuel sel.selctedTaxon 0 setTaxa = Outcome.ok n) :
    selectTaxForSet t fuel setTaxa c =
      Outcome.ok ⟨sel.selctedTaxon, acc.numAssignedSeqs, acc.numUnassignedSeqs, n,
        sel.selectedPercent⟩ := by
  unfold selectTaxForSet
  simp only [ha, hs, h1, h0, if_false, hc]

/-- A run on `k + 1` hits of species `11` whose selection loop selects nothing. -/
theorem selectTaxForSet_sample_none (e c : ℚ) (k : Nat) (pct : FloatVal) (r : Int)
    (hs : selectLoop sampleTree c ((k : ℚ) + 1) SelState.init
      [(1, (k : ℚ) + 1), (2, (k : ℚ) + 1), (10, (k : ℚ) + 1), (11, (k : ℚ) + 1)] =
        Outcome.ok ⟨0, r, pct⟩) :
    selectTaxForSet sampleTree 10 (List.replicate (k + 1) ⟨11, e, 1⟩) c =
      Outcome.ok ⟨0, k + 1, 0, 0, pct⟩ :=
  selectTaxForSet_of_none sampleTree 10 (List.replicate (k + 1) ⟨11, e, 1⟩) c _ ⟨0, r, pct⟩
    (accumulate_sample_uniform e k) hs rfl

/-- A run on `k + 1` hits of species `11` whose selection loop selects `11`. -/
theorem selectTaxForSet_sample_species (e c : ℚ) (k : Nat) (pct : FloatVal) (r : Int)
    (hs : selectLoop sampleTree c ((k : ℚ) + 1) SelState.init
      [(1, (k : ℚ) + 1), (2, (k : ℚ) + 1), (10, (k : ℚ) + 1), (11, (k : ℚ) + 1)] =
        Outcome.ok ⟨11, r, pct⟩) :
    selectTaxForSet sampleTree 10 (List.replicate (k + 1) ⟨11, e, 1⟩) c =
      Outcome.ok ⟨11, k + 1, 0, k + 1, pct⟩ :=
  selectTaxForSet_of_agree sampleTree 10 (List.replicate (k + 1) ⟨11, e, 1⟩) c _ ⟨11, r, pct⟩
    (k + 1) (accumulate_sample_uniform e k) hs
    (show (11 : TaxID) ≠ 1 by decide) (show (11 : TaxID) ≠ 0 by decide)
    (by rw [countAgree_sample_replicate]; simp)

/-- The selection loop on the totals of `2^24 + 1` hits of species `11` with
cutoff `1`: `float(16777217)` is `16777216`, no node reaches the cutoff. -/
theorem selectLoop_sample_many_one :
    selectLoop sampleTree 1 (((16777216 : Nat) : ℚ) + 1) SelState.init
        [(1, ((16777216 : Nat) : ℚ) + 1), (2, ((16777216 : Nat) : ℚ) + 1),
          (10, ((16777216 : Nat) : ℚ) + 1), (11, ((16777216 : Nat) : ℚ) + 1)] =
      Outcome.ok ⟨0, INT_MAX, FloatVal.fin 0⟩ := by
  have hv : ((16777216 : Nat) : ℚ) + 1 = 16777217 := by norm_num
  rw [hv]
  with_unfolding_all rfl

/-- The selection loop on the totals of `2^24 + 1` hits of species `11` with
cutoff `1/2`. -/
theorem selectLoop_sample_many_half :
    selectLoop sampleTree (1 / 2) (((16777216 : Nat) : ℚ) + 1) SelState.init
        [(1, ((16777216 : Nat) : ℚ) + 1), (2, ((16777216 : Nat) : ℚ) + 1),
          (10, ((16777216 : Nat) : ℚ) + 1), (11, ((16777216 : Nat) : ℚ) + 1)] =
      Outcome.ok ⟨11, 4, FloatVal.fin (16777216 / 16777217)⟩ := by
  have hv : ((16777216 : Nat) : ℚ) + 1 = 16777217 := by norm_num
  rw [hv]
  with_unfolding_all rfl

/-- The run on `2^24 + 1` hits of species `11` of weight `1` with cutoff `1`. -/
theorem selectTaxForSet_sample_many_one (e : ℚ) :
    selectTaxForSet sampleTree 10 (List.replicate (16777216 + 1) ⟨11, e, 1⟩) 1 =
      Outcome.ok ⟨0, 16777216 + 1, 0, 0, FloatVal.fin 0⟩ :=
  selectTaxForSet_sample_none e 1 16777216 (FloatVal.fin 0) INT_MAX selectLoop_sample_many_one

/-- The run on `2^24 + 1` hits of species `11` of weight `1` with cutoff `1/2`. -/
theorem selectTaxForSet_sample_many_half (e : ℚ) :
    selectTaxForSet sampleTree 10 (List.replicate (16777216 + 1) ⟨11, e, 1⟩) (1 / 2) =
      Outcome.ok ⟨11, 16777216 + 1, 0, 16777216 + 1, FloatVal.fin (16777216 / 16777217)⟩ :=
  selectTaxForSet_sample_species e (1 / 2) 16777216 (FloatVal.fin (16777216 / 16777217)) 4
    selectLoop_sample_many_half

/-- A filter that accepts the element keeps a list of copies of it. -/
theorem filter_replicate_true {α : Type} (p : α → Bool) (a : α) (h : p a = true) (n : Nat) :
    (List.replicate n a).filter p = List.replicate n a := by
  induction n with
  | zero => rfl
  | succ n ih => rw [List.replicate_succ, List.filter_cons_of_pos h, ih]

/-- The number of hits through a node of the lineage of species `11`, among
`n` hits of species `11`. -/
theorem countThrough_sample_replicate (e w : ℚ) (n : Nat) (k : TaxID)
    (hk : decide (k ∈ lineageOf sampleTree 10 11) = true) :
    countThrough sampleTree 10 (List.replicate n ⟨11, e, w⟩) k = n := by
  unfold countThrough assignedHits
  rw [filter_replicate_true _ _ (by rfl),
    filter_replicate_true (fun h : taxHit => decide (k ∈ lineageOf sampleTree 10 h.taxon))
      ⟨11, e, w⟩ hk n, List.length_replicate]

/-- The number of assigned hits among `n` hits of species `11`. -/
theorem assignedHits_sample_replicate (e w : ℚ) (n : Nat) :
    (assignedHits (List.replicate n ⟨11, e, w⟩)).length = n := by
  unfold assignedHits
  rw [filter_replicate_true _ _ (by rfl), List.length_replicate]

/-- C22, evaluated on the code: `2^24 + 1` hits of species `11` of the
well-formed sample tree, each of weight `1`, cutoff `1`. The running totals are
the counts and the total is the number of assigned hits, as claimed; but line
108 divides `float(16777217) = 16777216`, the quotient is below the cutoff, and
`selectTaxForSet` returns `0` with the percent `0`, while by counts species `11`
qualifies with the share `1`: the result is not a count-based consensus. -/
theorem C22_float_breaks_count_consensus :
    WellFormed sampleTree ∧
      UniformWeights (List.replicate (16777216 + 1) ⟨11, 1, 1⟩) ∧
      accumulate sampleTree 10 AccState.init (List.replicate (16777216 + 1) ⟨11, 1, 1⟩) =
        Outcome.ok ⟨[(1, 16777217), (2, 16777217), (10, 16777217), (11, 16777217)],
          16777217, 0, 16777217⟩ ∧
      countThrough sampleTree 10 (List.replicate (16777216 + 1) ⟨11, 1, 1⟩) 11 = 16777217 ∧
      toFloat 16777217 = FloatVal.fin 16777216 ∧
      selectTaxForSet sampleTree 10 (List.replicate (16777216 + 1) ⟨11, 1, 1⟩) 1 =
        Outcome.ok ⟨0, 16777217, 0, 0, FloatVal.fin 0⟩ ∧
      CountQualifies sampleTree 10 (List.replicate (16777216 + 1) ⟨11, 1, 1⟩) 1 11 ∧
      ¬ CountConsensus sampleTree 10 (List.replicate (16777216 + 1) ⟨11, 1, 1⟩) 1 0
        (FloatVal.fin 0) := by
  have hcount := countThrough_sample_replicate 1 1 (16777216 + 1) 11 (by decide)
  have hn := assignedHits_sample_replicate 1 1 (16777216 + 1)
  have hq : CountQualifies sampleTree 10 (List.replicate (16777216 + 1) ⟨11, 1, 1⟩) 1 11 := by
    refine ⟨by rw [hcount]; norm_num, ?_, ⟨11, 10, "species", "A"⟩, rfl, by decide⟩
    rw [hcount, hn]
    norm_num
  refine ⟨sampleTree_wellFormed, ?_, ?_, hcount, by with_unfolding_all rfl, ?_, hq, ?_⟩
  · intro h hh _
    rw [List.eq_of_mem_replicate hh]
  · rw [accumulate_sample_uniform]
    norm_num
  · exact selectTaxForSet_sample_many_one 1
  · rintro (⟨_, _, hnone⟩ | ⟨⟨hpos, _⟩, _⟩)
    · exact hnone 11 hq
    · have h0 : countThrough sampleTree 10 (List.replicate (16777216 + 1) ⟨11, 1, 1⟩) 0 = 0 := by
        unfold countThrough assignedHits
        rw [filter_replicate_true _ _ (by rfl)]
        have hf : ∀ n, (List.replicate n (⟨11, 1, 1⟩ : taxHit)).filter
            (fun h => decide ((0 : TaxID) ∈ lineageOf sampleTree 10 h.taxon)) = [] := by
          intro n
          induction n with
          | zero => rfl
          | succ n ih => rw [List.replicate_succ, List.filter_cons_of_neg (by decide), ih]
        rw [hf]
        rfl
      rw [h0] at hpos
      exact absurd hpos (lt_irrefl _)

/-- C25, evaluated on the code: `2^24 + 1` hits of species `11` of the
well-formed sample tree, whose root has the id `1`, each of weight `1`, cutoff
`1/2`. The running total of `11` is `16777217` and
`numSeqsAgreeWithSelectedTaxon` is `16777217`, but line 108 divides
`float(16777217) = 16777216`: `selectedPercent` is `16777216/16777217`, and
`selectedPercent * numAssignedSeqs` is `16777216`, not
`numSeqsAgreeWithSelectedTaxon`. -/
theorem C25_percent_times_assigned :
    WellFormed sampleTree ∧ IsRoot sampleTree 1 ∧
      UniformWeights (List.replicate (16777216 + 1) ⟨11, 1, 1⟩) ∧
      accumulate sampleTree 10 AccState.init (List.replicate (16777216 + 1) ⟨11, 1, 1⟩) =
        Outcome.ok ⟨[(1, 16777217), (2, 16777217), (10, 16777217), (11, 16777217)],
          16777217, 0, 16777217⟩ ∧
      selectTaxForSet sampleTree 10 (List.replicate (16777216 + 1) ⟨11, 1, 1⟩) (1 / 2) =
        Outcome.ok ⟨11, 16777217, 0, 16777217, FloatVal.fin (16777216 / 16777217)⟩ ∧
      (16777216 / 16777217 : ℚ) * ((16777217 : Nat) : ℚ) = 16777216 ∧
      (16777216 : ℚ) ≠ ((16777217 : Nat) : ℚ) := by
  refine ⟨sampleTree_wellFormed, ⟨⟨1, 1, "no rank", "root"⟩, rfl, rfl⟩, ?_, ?_, ?_,
    by norm_num, by norm_num⟩
  · intro h hh _
    rw [List.eq_of_mem_replicate hh]
  · rw [accumulate_sample_uniform]
    norm_num
  · exact selectTaxForSet_sample_many_half 1

/-! ## Bounds on the conversion to `float` -/

/-- The rounded quotient, times the divisor, exceeds the dividend by at most
half the divisor. -/
theorem roundHalfEven_le (n d : Nat) (hd : 0 < d) : 2 * (roundHalfEven n d * d) ≤ 2 * n + d := by
  have h1 := Nat.div_add_mod n d
  have h2 := Nat.mod_lt n hd
  have h3 : n / d * d = d * (n / d) := Nat.mul_comm _ _
  unfold roundHalfEven
  simp only []
  split_ifs
  · omega
  · rw [Nat.add_mul]
    omega
  · omega
  · rw [Nat.add_mul]
    omega

/-- The rounded quotient is at most the quotient plus one. -/
theorem roundHalfEven_le_succ (n d : Nat) : roundHalfEven n d ≤ n / d + 1 := by
  unfold roundHalfEven
  simp only []
  split_ifs <;> omega

/-- The conversion of a whole number below `2^64` to `float` is finite and
exceeds the number by at most the fraction `2^-24` of it. -/
theorem toFloat_natCast_le (m : Nat) (hm : m < 2 ^ 64) :
    ∃ y : ℚ, toFloat (m : ℚ) = FloatVal.fin y ∧ y * 2 ^ 24 ≤ (m : ℚ) * (2 ^ 24 + 1) := by
  by_cases hsmall : m ≤ 2 ^ 24
  · refine ⟨m, toFloat_natCast m hsmall, ?_⟩
    have : (0 : ℚ) ≤ (m : ℚ) := Nat.cast_nonneg m
    nlinarith
  have hpos : 0 < m := by omega
  obtain ⟨a, b⟩ := log2Floor_spec m m hpos (le_refl _)
  have he := binaryExponent_one m hpos
  obtain ⟨L, hLdef⟩ : ∃ L, log2Floor m m = L := ⟨_, rfl⟩
  rw [hLdef] at a b he
  have hL24 : 24 ≤ L := by
    by_contra hc
    have : 2 ^ (L + 1) ≤ 2 ^ 24 := Nat.pow_le_pow_right (by norm_num) (by omega)
    omega
  have hL63 : L ≤ 63 := by
    by_contra hc
    have : 2 ^ 64 ≤ 2 ^ L := Nat.pow_le_pow_right (by norm_num) (by omega)
    omega
  have hxpos : (0 : ℚ) < (m : ℚ) := by exact_mod_cast hpos
  have hu : (0 : Int) ≤ (L : Int) - 23 := by omega
  have hk : ((L : Int) - 23).toNat = L - 23 := by omega
  have hD : 0 < 2 ^ (L - 23) := Nat.pow_pos (by norm_num)
  have hrv : roundAtExponent m 1 ((L : Int) - 23) = roundHalfEven m (2 ^ (L - 23)) := by
    unfold roundAtExponent
    rw [if_pos hu, hk, Nat.one_mul]
  have hbound := roundHalfEven_le m (2 ^ (L - 23)) hD
  have hpow : 2 ^ (L - 23) * 2 ^ 23 = 2 ^ L := by
    rw [← Nat.pow_add]
    congr 1
    omega
  have hDle : 2 ^ (L - 23) ≤ 2 ^ 40 := Nat.pow_le_pow_right (by norm_num) (by omega)
  have hnb : beyondFloatRange (roundHalfEven m (2 ^ (L - 23))) ((L : Int) - 23) = false := by
    unfold beyondFloatRange
    rw [if_pos hu, hk]
    simp only [decide_eq_false_iff_not, not_le]
    have h64 : (2 : Nat) ^ 64 < 2 ^ 127 := by norm_num
    have h40 : (2 : Nat) ^ 40 < 2 ^ 127 := by norm_num
    have h128 : (2 : Nat) ^ 127 + 2 ^ 127 = 2 ^ 128 := by norm_num
    omega
  have htf := toFloat_pos (m : ℚ) hxpos m 1 L (by simp) (by simp) he (by omega)
    (by rw [hrv]; exact hnb)
  rw [hrv] at htf
  refine ⟨_, htf, ?_⟩
  unfold timesPow2
  rw [if_pos hu, hk, Rat.mkRat_eq_div]
  push_cast
  have hb' : (2 : ℚ) * ((roundHalfEven m (2 ^ (L - 23)) : ℚ) * 2 ^ (L - 23)) ≤
      2 * (m : ℚ) + 2 ^ (L - 23) := by exact_mod_cast hbound
  have hp' : (2 : ℚ) ^ (L - 23) * 2 ^ 23 = 2 ^ L := by exact_mod_cast hpow
  have ha' : (2 : ℚ) ^ L ≤ (m : ℚ) := by exact_mod_cast a
  have h24 : (2 : ℚ) ^ 24 = 2 * 2 ^ 23 := by norm_num
  simp only [div_one]
  nlinarith

/-- The binary exponent of a quotient between one half and one. -/
theorem binaryExponent_half (n d : Nat) (hn : 0 < n) (h1 : n < d) (h2 : d < 2 * n) :
    binaryExponent n d = -1 := by
  have hd : 0 < d := by omega
  obtain ⟨a1, a2⟩ := log2Floor_spec n n hn (le_refl _)
  obtain ⟨b1, b2⟩ := log2Floor_spec d d hd (le_refl _)
  obtain ⟨a, ha⟩ : ∃ a, log2Floor n n = a := ⟨_, rfl⟩
  obtain ⟨b, hb⟩ : ∃ b, log2Floor d d = b := ⟨_, rfl⟩
  rw [ha] at a1 a2
  rw [hb] at b1 b2
  have hab : a ≤ b := by
    by_contra hc
    have : 2 ^ (b + 1) ≤ 2 ^ a := Nat.pow_le_pow_right (by norm_num) (by omega)
    omega
  have hba : b ≤ a + 1 := by
    by_contra hc
    have : 2 ^ (a + 2) ≤ 2 ^ b := Nat.pow_le_pow_right (by norm_num) (by omega)
    have h4 : 2 ^ (a + 2) = 2 * 2 ^ (a + 1) := by rw [Nat.pow_succ]; omega
    omega
  unfold binaryExponent belowPow2
  simp only [ha, hb]
  rcases (by omega : b = a ∨ b = a + 1) with h | h
  · subst h
    have h0 : (0 : Int) ≤ (b : Int) - (b : Int) := by omega
    have hz : ((b : Int) - (b : Int)).toNat = 0 := by omega
    rw [if_pos h0, hz]
    simp only [pow_zero, Nat.mul_one, decide_eq_true_eq.mpr h1, if_true]
    omega
  · subst h
    have h0 : ¬ (0 : Int) ≤ (a : Int) - ((a + 1 : Nat) : Int) := by omega
    have hz : (-((a : Int) - ((a + 1 : Nat) : Int))).toNat = 1 := by omega
    rw [if_neg h0, hz]
    have h3 : ¬ n * 2 ^ 1 < d := by omega
    simp only [decide_eq_false_iff_not.mpr h3, Bool.false_eq_true, if_false]
    omega

/-- A `float` value above one half is at least one half plus `2^-24`. -/
theorem float_above_half (c : ℚ) (hc : 1 / 2 < c) (hf : toFloat c = FloatVal.fin c) :
    1 / 2 + 1 / 2 ^ 24 ≤ c := by
  by_cases hc1 : 1 ≤ c
  · have : (1 : ℚ) / 2 + 1 / 2 ^ 24 ≤ 1 := by norm_num
    exact le_trans this hc1
  have hc1' : c < 1 := not_le.mp hc1
  have hpos : 0 < c := by linarith
  have hnum : 0 < c.num := Rat.num_pos.mpr hpos
  have hdpos : (0 : ℚ) < (c.den : ℚ) := by exact_mod_cast c.den_pos
  have hcd : c = (c.num : ℚ) / (c.den : ℚ) := (Rat.num_div_den c).symm
  obtain ⟨n, hn⟩ : ∃ n : Nat, c.num = (n : Int) := ⟨c.num.natAbs, by omega⟩
  have hnat : c.num.natAbs = n := by omega
  have hcn : c = (n : ℚ) / (c.den : ℚ) := by
    have h := hcd
    rw [hn] at h
    simpa using h
  have hn0 : 0 < n := by omega
  have h1 : n < c.den := by
    have : (n : ℚ) / (c.den : ℚ) < 1 := by rw [← hcn]; exact hc1'
    rw [div_lt_one hdpos] at this
    exact_mod_cast this
  have h2 : c.den < 2 * n := by
    have : (1 : ℚ) / 2 < (n : ℚ) / (c.den : ℚ) := by rw [← hcn]; exact hc
    rw [lt_div_iff₀ hdpos] at this
    have h3 : (c.den : ℚ) < 2 * (n : ℚ) := by linarith
    exact_mod_cast h3
  have he := binaryExponent_half n c.den hn0 h1 h2
  have hneg : ¬ (0 : Int) ≤ (-1 : Int) - 23 := by omega
  have hk : (-((-1 : Int) - 23)).toNat = 24 := by omega
  have hrv : roundAtExponent n c.den ((-1 : Int) - 23) = roundHalfEven (n * 2 ^ 24) c.den := by
    unfold roundAtExponent
    rw [if_neg hneg, hk]
  have hsucc := roundHalfEven_le_succ (n * 2 ^ 24) c.den
  have hdiv : n * 2 ^ 24 / c.den ≤ 2 ^ 24 := by
    apply Nat.div_le_of_le_mul
    have : n * 2 ^ 24 ≤ c.den * 2 ^ 24 := Nat.mul_le_mul_right _ (le_of_lt h1)
    omega
  obtain ⟨r, hr⟩ : ∃ r : Nat, roundHalfEven (n * 2 ^ 24) c.den = r := ⟨_, rfl⟩
  rw [hr] at hrv hsucc
  have hnb : beyondFloatRange r ((-1 : Int) - 23) = false := by
    unfold beyondFloatRange
    rw [if_neg hneg, hk]
    simp only [decide_eq_false_iff_not, not_le]
    have h128 : (2 : Nat) ^ 25 < 2 ^ 128 * 2 ^ 24 := by norm_num
    have h24 : (2 : Nat) ^ 24 + 1 < 2 ^ 25 := by norm_num
    omega
  have htf := toFloat_pos c hpos n c.den (-1) hnat rfl he (by omega) (by rw [hrv]; exact hnb)
  rw [hrv, hf] at htf
  simp only [FloatVal.fin.injEq] at htf
  unfold timesPow2 at htf
  rw [if_neg hneg, hk, Rat.mkRat_eq_div] at htf
  push_cast at htf
  have hrgt : 2 ^ 23 < r := by
    have h5 : (1 : ℚ) / 2 < (r : ℚ) / 16777216 := by rw [← htf]; exact hc
    rw [lt_div_iff₀ (by norm_num)] at h5
    have h6 : ((2 ^ 23 : Nat) : ℚ) < (r : ℚ) := by
      push_cast
      linarith
    exact_mod_cast h6
  have hrge : (((2 ^ 23 + 1 : Nat) : ℚ)) ≤ (r : ℚ) := by exact_mod_cast hrgt
  push_cast at hrge
  rw [htf, le_div_iff₀ (by norm_num)]
  norm_num
  linarith

/-! ## The error of the conversions on small values -/

/-- The rounded quotient, times the divisor, is below the dividend by at most
half the divisor. -/
theorem roundHalfEven_ge (n d : Nat) (hd : 0 < d) : 2 * n ≤ 2 * (roundHalfEven n d * d) + d := by
  have h1 := Nat.div_add_mod n d
  have h2 := Nat.mod_lt n hd
  have h3 : n / d * d = d * (n / d) := Nat.mul_comm _ _
  unfold roundHalfEven
  simp only []
  split_ifs
  · omega
  · rw [Nat.add_mul]
    omega
  · omega
  · rw [Nat.add_mul]
    omega

/-- A positive rational is the quotient of the magnitude of its numerator and
its denominator. -/
theorem pos_rat_parts (x : ℚ) (hx : 0 < x) :
    0 < x.num.natAbs ∧ 0 < x.den ∧ x = (x.num.natAbs : ℚ) / (x.den : ℚ) := by
  have hnum : 0 < x.num := Rat.num_pos.mpr hx
  refine ⟨by omega, x.den_pos, ?_⟩
  have hcast : ((x.num.natAbs : Nat) : ℚ) = ((x.num : Int) : ℚ) := by
    rw [← Int.cast_natCast, Int.natAbs_of_nonneg (le_of_lt hnum)]
  rw [hcast]
  exact (Rat.num_div_den x).symm

/-- The binary exponent of a quotient below `2^(j+1)` is at most `j`. -/
theorem binaryExponent_le (n d j : Nat) (hn : 0 < n) (hd : 0 < d) (h : n < d * 2 ^ (j + 1)) :
    binaryExponent n d ≤ (j : Int) := by
  obtain ⟨a, _⟩ := log2Floor_spec n n hn (le_refl _)
  obtain ⟨_, b⟩ := log2Floor_spec d d hd (le_refl _)
  have hlt : 2 ^ log2Floor n n < 2 ^ (log2Floor d d + 1 + (j + 1)) := by
    calc 2 ^ log2Floor n n ≤ n := a
      _ < d * 2 ^ (j + 1) := h
      _ < 2 ^ (log2Floor d d + 1) * 2 ^ (j + 1) :=
          Nat.mul_lt_mul_of_pos_right b (Nat.pow_pos (by norm_num))
      _ = 2 ^ (log2Floor d d + 1 + (j + 1)) := (Nat.pow_add _ _ _).symm
  have hlog : log2Floor n n < log2Floor d d + 1 + (j + 1) := by
    by_contra hc
    have : 2 ^ (log2Floor d d + 1 + (j + 1)) ≤ 2 ^ log2Floor n n :=
      Nat.pow_le_pow_right (by norm_num) (by omega)
    omega
  unfold binaryExponent
  simp only []
  by_cases hb : belowPow2 n d ((log2Floor n n : Int) - (log2Floor d d : Int)) = true
  · rw [if_pos hb]
    omega
  · rw [if_neg hb]
    by_contra hc
    have he0 : (log2Floor n n : Int) - (log2Floor d d : Int) = ((j + 1 : Nat) : Int) := by
      push_cast
      omega
    apply hb
    rw [he0]
    unfold belowPow2
    rw [if_pos (by omega)]
    simpa using h

/-- The value to which a quotient is rounded at the exponent `-k` differs from
the quotient by at most half of `2^-k`. -/
theorem roundHalfEven_near (n d k : Nat) (hd : 0 < d) :
    |((roundHalfEven (n * 2 ^ k) d : Nat) : ℚ) / 2 ^ k - (n : ℚ) / (d : ℚ)| ≤
      1 / (2 * 2 ^ k) := by
  have h1 := roundHalfEven_le (n * 2 ^ k) d hd
  have h2 := roundHalfEven_ge (n * 2 ^ k) d hd
  obtain ⟨r, hr⟩ : ∃ r : Nat, roundHalfEven (n * 2 ^ k) d = r := ⟨_, rfl⟩
  rw [hr] at h1 h2 ⊢
  have hK : (0 : ℚ) < 2 ^ k := by positivity
  have hD : (0 : ℚ) < (d : ℚ) := by exact_mod_cast hd
  have h1q : 2 * ((r : ℚ) * d) ≤ 2 * ((n : ℚ) * 2 ^ k) + d := by exact_mod_cast h1
  have h2q : 2 * ((n : ℚ) * 2 ^ k) ≤ 2 * ((r : ℚ) * d) + d := by exact_mod_cast h2
  have e1 : (r : ℚ) / 2 ^ k - (n : ℚ) / (d : ℚ) = ((r : ℚ) * d - n * 2 ^ k) / (2 ^ k * d) := by
    field_simp
    ring
  have e2 : (1 : ℚ) / (2 * 2 ^ k) = (d / 2) / (2 ^ k * d) := by
    field_simp
    ring
  rw [e1, e2, abs_le]
  have hKD : (0 : ℚ) < 2 ^ k * d := by positivity
  constructor
  · rw [← neg_div, div_le_div_iff_of_pos_right hKD]
    linarith
  · rw [div_le_div_iff_of_pos_right hKD]
    linarith

/-- The value `r * 2^u` at a negative exponent. -/
theorem timesPow2_neg (r k : Nat) (u : Int) (hu : u = -(k : Int)) (hk : 0 < k) :
    timesPow2 r u = (r : ℚ) / 2 ^ k := by
  subst hu
  have hneg : ¬ (0 : Int) ≤ -(k : Int) := by omega
  have hkk : (- -(k : Int)).toNat = k := by omega
  unfold timesPow2
  rw [if_neg hneg, hkk, Rat.mkRat_eq_div]
  push_cast
  rfl

/-- The rounding at a negative exponent. -/
theorem roundAtExponent_neg (n d k : Nat) (u : Int) (hu : u = -(k : Int)) (hk : 0 < k) :
    roundAtExponent n d u = roundHalfEven (n * 2 ^ k) d := by
  subst hu
  have hneg : ¬ (0 : Int) ≤ -(k : Int) := by omega
  have hkk : (- -(k : Int)).toNat = k := by omega
  unfold roundAtExponent
  rw [if_neg hneg, hkk]

/-- The rounded multiple of a quotient below `2^7` at the exponent `-k`. -/
theorem roundHalfEven_lt (n d k : Nat) (h : n < d * 2 ^ 7) :
    roundHalfEven (n * 2 ^ k) d ≤ 2 ^ 7 * 2 ^ k + 1 := by
  have h1 := roundHalfEven_le_succ (n * 2 ^ k) d
  have h2 : n * 2 ^ k / d ≤ 2 ^ 7 * 2 ^ k := by
    apply Nat.div_le_of_le_mul
    have : n * 2 ^ k ≤ d * 2 ^ 7 * 2 ^ k := Nat.mul_le_mul_right _ (le_of_lt h)
    calc n * 2 ^ k ≤ d * 2 ^ 7 * 2 ^ k := this
      _ = d * (2 ^ 7 * 2 ^ k) := Nat.mul_assoc _ _ _
  omega

/-- The conversion to `float` of a positive value, stated for the exponent `u`
at which the value is rounded. -/
theorem toFloat_pos_at (x : ℚ) (hx : 0 < x) (n d : Nat) (u : Int)
    (hn : x.num.natAbs = n) (hd : x.den = d)
    (hu : (if binaryExponent n d < -126 then -126 else binaryExponent n d) - 23 = u)
    (hb : beyondFloatRange (roundAtExponent n d u) u = false) :
    toFloat x = FloatVal.fin (timesPow2 (roundAtExponent n d u) u) := by
  subst hn
  subst hd
  subst hu
  unfold toFloat
  rw [if_neg (ne_of_gt hx)]
  simp only [hb, hx, if_true, Bool.false_eq_true, if_false]

/-- The rounding to `double` of a positive value, stated for the exponent `u`
at which the value is rounded. -/
theorem toDouble_pos_at (x : ℚ) (hx : 0 < x) (n d : Nat) (u : Int)
    (hn : x.num.natAbs = n) (hd : x.den = d)
    (hu : (if binaryExponent n d < -1022 then -1022 else binaryExponent n d) - 52 = u)
    (hb : beyondDoubleRange (roundAtExponent n d u) u = false) :
    toDouble x = FloatVal.fin (timesPow2 (roundAtExponent n d u) u) := by
  subst hn
  subst hd
  subst hu
  unfold toDouble
  rw [if_neg (ne_of_gt hx)]
  simp only [hb, hx, if_true, Bool.false_eq_true, if_false]

/-- The conversion to `float` of a positive value below `128` is finite, not
negative, and differs from the value by at most `2^-18`. -/
theorem toFloat_small (x : ℚ) (hx : 0 < x) (h128 : x < 128) :
    ∃ y, toFloat x = FloatVal.fin y ∧ 0 ≤ y ∧ |y - x| ≤ 1 / 2 ^ 18 := by
  obtain ⟨hn0, hd0, hxnd⟩ := pos_rat_parts x hx
  obtain ⟨n, hn⟩ : ∃ n : Nat, x.num.natAbs = n := ⟨_, rfl⟩
  obtain ⟨d, hd⟩ : ∃ d : Nat, x.den = d := ⟨_, rfl⟩
  rw [hn] at hn0 hxnd
  rw [hd] at hd0 hxnd
  have hdq : (0 : ℚ) < (d : ℚ) := by exact_mod_cast hd0
  have hlt : n < d * 2 ^ 7 := by
    have h1 : (n : ℚ) / (d : ℚ) < 128 := by rw [← hxnd]; exact h128
    rw [div_lt_iff₀ hdq] at h1
    have h2 : (n : ℚ) < ((d * 2 ^ 7 : Nat) : ℚ) := by
      push_cast
      linarith
    exact_mod_cast h2
  have he := binaryExponent_le n d 6 hn0 hd0 hlt
  obtain ⟨u, hu⟩ : ∃ u : Int,
      (if binaryExponent n d < -126 then -126 else binaryExponent n d) - 23 = u := ⟨_, rfl⟩
  have hu17 : u ≤ -17 := by
    rw [← hu]
    split_ifs <;> omega
  obtain ⟨k, hk⟩ : ∃ k : Nat, u = -(k : Int) := ⟨(-u).toNat, by omega⟩
  have hk17 : 17 ≤ k := by omega
  have hkpos : 0 < k := by omega
  have hrv := roundAtExponent_neg n d k u hk hkpos
  have hrlt := roundHalfEven_lt n d k hlt
  have hP : 0 < 2 ^ k := Nat.pow_pos (by norm_num)
  have hb : beyondFloatRange (roundAtExponent n d u) u = false := by
    rw [hrv]
    have hneg : ¬ (0 : Int) ≤ u := by omega
    have hkk : (-u).toNat = k := by omega
    unfold beyondFloatRange
    rw [if_neg hneg, hkk]
    simp only [decide_eq_false_iff_not, not_le]
    have h7 : (2 : Nat) ^ 7 = 128 := by norm_num
    have h128 : (2 : Nat) ^ 128 = 340282366920938463463374607431768211456 := by norm_num
    rw [h7] at hrlt
    rw [h128]
    omega
  have htf := toFloat_pos_at x hx n d u hn hd hu hb
  rw [hrv, timesPow2_neg _ k u hk hkpos] at htf
  refine ⟨_, htf, by positivity, ?_⟩
  have hnear := roundHalfEven_near n d k hd0
  rw [← hxnd] at hnear
  refine le_trans hnear ?_
  have hpow : (2 : ℚ) ^ 17 ≤ 2 ^ k := pow_le_pow_right₀ (by norm_num) hk17
  rw [div_le_div_iff₀ (by positivity) (by positivity)]
  have h18 : (2 : ℚ) ^ 18 = 2 * 2 ^ 17 := by norm_num
  rw [h18]
  linarith

/-- The rounding to `double` of a positive value below `128` is finite, not
negative, and differs from the value by at most `2^-47`. -/
theorem toDouble_small (x : ℚ) (hx : 0 < x) (h128 : x < 128) :
    ∃ y, toDouble x = FloatVal.fin y ∧ 0 ≤ y ∧ |y - x| ≤ 1 / 2 ^ 47 := by
  obtain ⟨hn0, hd0, hxnd⟩ := pos_rat_parts x hx
  obtain ⟨n, hn⟩ : ∃ n : Nat, x.num.natAbs = n := ⟨_, rfl⟩
  obtain ⟨d, hd⟩ : ∃ d : Nat, x.den = d := ⟨_, rfl⟩
  rw [hn] at hn0 hxnd
  rw [hd] at hd0 hxnd
  have hdq : (0 : ℚ) < (d : ℚ) := by exact_mod_cast hd0
  have hlt : n < d * 2 ^ 7 := by
    have h1 : (n : ℚ) / (d : ℚ) < 128 := by rw [← hxnd]; exact h128
    rw [div_lt_iff₀ hdq] at h1
    have h2 : (n : ℚ) < ((d * 2 ^ 7 : Nat) : ℚ) := by
      push_cast
      linarith
    exact_mod_cast h2
  have he := binaryExponent_le n d 6 hn0 hd0 hlt
  obtain ⟨u, hu⟩ : ∃ u : Int,
      (if binaryExponent n d < -1022 then -1022 else binaryExponent n d) - 52 = u := ⟨_, rfl⟩
  have hu46 : u ≤ -46 := by
    rw [← hu]
    split_ifs <;> omega
  obtain ⟨k, hk⟩ : ∃ k : Nat, u = -(k : Int) := ⟨(-u).toNat, by omega⟩
  have hk46 : 46 ≤ k := by omega
  have hkpos : 0 < k := by omega
  have hrv := roundAtExponent_neg n d k u hk hkpos
  have hrlt := roundHalfEven_lt n d k hlt
  have hP : 0 < 2 ^ k := Nat.pow_pos (by norm_num)
  have hb : beyondDoubleRange (roundAtExponent n d u) u = false := by
    rw [hrv]
    unfold beyondDoubleRange
    simp only [decide_eq_false_iff_not, not_and, not_le]
    intro hr0
    obtain ⟨r, hr⟩ : ∃ r : Nat, roundHalfEven (n * 2 ^ k) d = r := ⟨_, rfl⟩
    rw [hr] at hr0 hrlt ⊢
    obtain ⟨a, _⟩ := log2Floor_spec r r (Nat.pos_of_ne_zero hr0) (le_refl _)
    have hL : log2Floor r r ≤ k + 8 := by
      by_contra hc
      have h9 : 2 ^ (k + 9) ≤ 2 ^ log2Floor r r := Nat.pow_le_pow_right (by norm_num) (by omega)
      have h10 : 2 ^ (k + 9) = 512 * 2 ^ k := by
        rw [Nat.pow_add]
        norm_num
        exact Nat.mul_comm _ _
      have h7 : (2 : Nat) ^ 7 = 128 := by norm_num
      rw [h7] at hrlt
      omega
    omega
  have htf := toDouble_pos_at x hx n d u hn hd hu hb
  rw [hrv, timesPow2_neg _ k u hk hkpos] at htf
  refine ⟨_, htf, by positivity, ?_⟩
  have hnear := roundHalfEven_near n d k hd0
  rw [← hxnd] at hnear
  refine le_trans hnear ?_
  have hpow : (2 : ℚ) ^ 46 ≤ 2 ^ k := pow_le_pow_right₀ (by norm_num) hk46
  rw [div_le_div_iff₀ (by positivity) (by positivity)]
  have h47 : (2 : ℚ) ^ 47 = 2 * 2 ^ 46 := by norm_num
  rw [h47]
  linarith

/-- The `float` to which the `double` nearest to a value from `0` to `100` is
converted is finite, not negative, and differs from the value by less than
`2^-17`. -/
theorem toFloat_toDouble_small (x : ℚ) (h0 : 0 ≤ x) (h100 : x ≤ 100) :
    ∃ d y, toDouble x = FloatVal.fin d ∧ toFloat d = FloatVal.fin y ∧ 0 ≤ y ∧
      |y - x| < 1 / 2 ^ 17 := by
  by_cases hx0 : x = 0
  · subst hx0
    refine ⟨0, 0, by simp [toDouble], by simp [toFloat], le_refl _, ?_⟩
    norm_num
  have hx : 0 < x := lt_of_le_of_ne h0 (Ne.symm hx0)
  obtain ⟨d, hd, hd0, hdx⟩ := toDouble_small x hx (by linarith)
  rw [abs_le] at hdx
  by_cases hdz : d = 0
  · subst hdz
    refine ⟨0, 0, hd, by simp [toFloat], le_refl _, ?_⟩
    rw [abs_lt]
    norm_num at hdx ⊢
    constructor <;> linarith [hdx.1, hdx.2]
  have hdpos : 0 < d := lt_of_le_of_ne hd0 (Ne.symm hdz)
  have hd128 : d < 128 := by
    norm_num at hdx
    linarith [hdx.2]
  obtain ⟨y, hy, hy0, hyd⟩ := toFloat_small d hdpos hd128
  rw [abs_le] at hyd
  refine ⟨d, y, hd, hy, hy0, ?_⟩
  rw [abs_lt]
  norm_num at hdx hyd ⊢
  constructor <;> linarith [hdx.1, hdx.2, hyd.1, hyd.2]

/-! ## Nodes above a majority cutoff lie on one lineage -/

theorem weightsWhole_of_uniform (setTaxa : List taxHit) (hu : UniformWeights setTaxa) :
    WeightsWhole setTaxa := by
  intro h hh h0
  exact ⟨1, by rw [hu h hh h0]; norm_num, by norm_num⟩

theorem sum_weights_of_ones (l : List taxHit) (h1 : ∀ h ∈ l, h.weight = 1) :
    (l.map (fun h => h.weight)).sum = (l.length : ℚ) := by
  induction l with
  | nil => simp
  | cons x xs ih =>
    simp only [List.map_cons, List.sum_cons, List.length_cons]
    rw [ih (fun h hh => h1 h (List.mem_cons_of_mem _ hh)), h1 x (List.mem_cons_self _ _)]
    push_cast
    ring

theorem mem_assignedHits (setTaxa : List taxHit) (h : taxHit) (hh : h ∈ assignedHits setTaxa) :
    h ∈ setTaxa ∧ h.taxon ≠ 0 := by
  unfold assignedHits at hh
  rw [List.mem_filter] at hh
  exact ⟨hh.1, by simpa using hh.2⟩

theorem assignedWeight_uniform (setTaxa : List taxHit) (hu : UniformWeights setTaxa) :
    assignedWeight setTaxa = ((assignedHits setTaxa).length : ℚ) := by
  unfold assignedWeight
  apply sum_weights_of_ones
  intro h hh
  obtain ⟨h1, h2⟩ := mem_assignedHits setTaxa h hh
  exact hu h h1 h2

theorem lineageWeight_uniform (t : NcbiTaxonomy) (fuel : Nat) (setTaxa : List taxHit)
    (hu : UniformWeights setTaxa) (k : TaxID) :
    lineageWeight t fuel setTaxa k = (countThrough t fuel setTaxa k : ℚ) := by
  unfold lineageWeight countThrough
  apply sum_weights_of_ones
  intro h hh
  obtain ⟨h1, h2⟩ := mem_assignedHits setTaxa h (List.mem_filter.mp hh).1
  exact hu h h1 h2

theorem countThrough_le (t : NcbiTaxonomy) (fuel : Nat) (setTaxa : List taxHit) (k : TaxID) :
    countThrough t fuel setTaxa k ≤ (assignedHits setTaxa).length :=
  List.length_filter_le _ _

theorem assignedHits_length_le (setTaxa : List taxHit) :
    (assignedHits setTaxa).length ≤ setTaxa.length :=
  List.length_filter_le _ _

/-- Two nodes on the lineage of one node lie on one lineage. -/
theorem onOneLineage_of_mem (t : NcbiTaxonomy) (fuel : Nat) (x a b : TaxID)
    (ha : a ∈ lineageOf t fuel x) (hb : b ∈ lineageOf t fuel x) : OnOneLineage t fuel a b := by
  unfold lineageOf at ha hb
  cases hl : lineage t fuel x with
  | none => simp [hl] at ha
  | some l =>
    simp only [hl, Option.getD_some] at ha hb
    obtain ⟨la, hla, hsa⟩ := lineage_mem t fuel x l hl a ha
    obtain ⟨lb, hlb, hsb⟩ := lineage_mem t fuel x l hl b hb
    obtain ⟨la', hla'⟩ := lineage_head t fuel a la hla
    obtain ⟨lb', hlb'⟩ := lineage_head t fuel b lb hlb
    rcases List.suffix_or_suffix_of_suffix hsa hsb with hs | hs
    · left
      unfold lineageOf
      rw [hlb]
      simp only [Option.getD_some]
      apply hs.subset
      rw [hla']
      exact List.mem_cons_self _ _
    · right
      unfold lineageOf
      rw [hla]
      simp only [Option.getD_some]
      apply hs.subset
      rw [hlb']
      exact List.mem_cons_self _ _

theorem length_filter_add_le (l : List taxHit) (p q : taxHit → Bool)
    (hpq : ∀ x ∈ l, ¬ (p x = true ∧ q x = true)) :
    (l.filter p).length + (l.filter q).length ≤ l.length := by
  induction l with
  | nil => simp
  | cons x xs ih =>
    have ih2 := ih (fun y hy => hpq y (List.mem_cons_of_mem _ hy))
    have hx := hpq x (List.mem_cons_self _ _)
    simp only [List.filter_cons, List.length_cons]
    cases hp : p x <;> cases hq : q x
    · simp only [Bool.false_eq_true, if_false]; omega
    · simp only [Bool.false_eq_true, if_false, if_true, List.length_cons]; omega
    · simp only [Bool.false_eq_true, if_false, if_true, List.length_cons]; omega
    · exact absurd ⟨hp, hq⟩ hx

/-- Two nodes that do not lie on one lineage are visited by disjoint sets of
assigned hits. -/
theorem countThrough_add_le (t : NcbiTaxonomy) (fuel : Nat) (setTaxa : List taxHit) (a b : TaxID)
    (hab : ¬ OnOneLineage t fuel a b) :
    countThrough t fuel setTaxa a + countThrough t fuel setTaxa b ≤
      (assignedHits setTaxa).length := by
  unfold countThrough
  apply length_filter_add_le
  intro x _ hx
  simp only [decide_eq_true_eq] at hx
  exact hab (onOneLineage_of_mem t fuel x.taxon a b hx.1 hx.2)

/-- A node that meets the cutoff in the accumulated state of uniform hits is
visited by a share of the assigned hits that, enlarged by the relative spacing
of `float`, reaches the cutoff. -/
theorem meetsCutoff_count (t : NcbiTaxonomy) (fuel : Nat) (setTaxa : List taxHit) (c : ℚ)
    (hu : UniformWeights setTaxa) (hsize : setTaxa.length < 2 ^ 64) (k : TaxID)
    (hm : MeetsCutoff c (accPure t fuel AccState.init setTaxa) k) :
    c * ((assignedHits setTaxa).length : ℚ) * 2 ^ 24 ≤
      (countThrough t fuel setTaxa k : ℚ) * (2 ^ 24 + 1) := by
  obtain ⟨v, hfind, hmeets⟩ := hm
  have hval := accPure_valueAt t fuel setTaxa AccState.init k (weightsWhole_of_uniform _ hu)
  have hv : v = (countThrough t fuel setTaxa k : ℚ) := by
    have h1 : TaxMap.valueAt (accPure t fuel AccState.init setTaxa).ancTaxIdsCounts k = v := by
      simp [TaxMap.valueAt, hfind]
    rw [h1, lineageWeight_uniform t fuel setTaxa hu] at hval
    simpa [TaxMap.valueAt, AccState.init, TaxMap.find] using hval
  have htot : (accPure t fuel AccState.init setTaxa).totalAssignedSeqsWeights =
      ((assignedHits setTaxa).length : ℚ) := by
    rw [accPure_total, assignedWeight_uniform _ hu]
    simp [AccState.init]
  rw [htot, hv] at hmeets
  have hn0 : (0 : ℚ) ≤ ((assignedHits setTaxa).length : ℚ) := Nat.cast_nonneg _
  have hk0 : (0 : ℚ) ≤ (countThrough t fuel setTaxa k : ℚ) := Nat.cast_nonneg _
  rcases hmeets with hfl | ⟨hpos, hex⟩
  · have hlt : countThrough t fuel setTaxa k < 2 ^ 64 :=
      lt_of_le_of_lt (le_trans (countThrough_le t fuel setTaxa k) (assignedHits_length_le _)) hsize
    obtain ⟨y, hy, hyle⟩ := toFloat_natCast_le _ hlt
    rw [hy] at hfl
    by_cases hz : ((assignedHits setTaxa).length : ℚ) = 0
    · rw [hz]
      have : (0 : ℚ) ≤ (countThrough t fuel setTaxa k : ℚ) * (2 ^ 24 + 1) := by positivity
      simpa using this
    · have hpos : (0 : ℚ) < ((assignedHits setTaxa).length : ℚ) := lt_of_le_of_ne hn0 (Ne.symm hz)
      simp only [FloatVal.divBy, fdiv, if_neg hz, FloatVal.ge, decide_eq_true_eq] at hfl
      rw [le_div_iff₀ hpos] at hfl
      have h24 : (0 : ℚ) ≤ 2 ^ 24 := by norm_num
      calc c * ((assignedHits setTaxa).length : ℚ) * 2 ^ 24 ≤ y * 2 ^ 24 :=
            mul_le_mul_of_nonneg_right hfl h24
        _ ≤ _ := hyle
  · rw [le_div_iff₀ hpos] at hex
    have h24 : (0 : ℚ) ≤ 2 ^ 24 := by norm_num
    calc c * ((assignedHits setTaxa).length : ℚ) * 2 ^ 24
          ≤ (countThrough t fuel setTaxa k : ℚ) * 2 ^ 24 := mul_le_mul_of_nonneg_right hex h24
      _ ≤ (countThrough t fuel setTaxa k : ℚ) * (2 ^ 24 + 1) := by nlinarith

/-- With a `float` cutoff above one half, two nodes that meet the cutoff in the
accumulated state of uniform hits lie on one lineage. -/
theorem meetsCutoff_onOneLineage (t : NcbiTaxonomy) (fuel : Nat) (setTaxa : List taxHit) (c : ℚ)
    (hu : UniformWeights setTaxa) (hone : ∃ h ∈ setTaxa, h.taxon ≠ 0)
    (hsize : setTaxa.length < 2 ^ 64) (hc : 1 / 2 < c) (hfloat : toFloat c = FloatVal.fin c)
    (a b : TaxID) (ha : MeetsCutoff c (accPure t fuel AccState.init setTaxa) a)
    (hb : MeetsCutoff c (accPure t fuel AccState.init setTaxa) b) : OnOneLineage t fuel a b := by
  by_contra hab
  have h1 := meetsCutoff_count t fuel setTaxa c hu hsize a ha
  have h2 := meetsCutoff_count t fuel setTaxa c hu hsize b hb
  have h3 := countThrough_add_le t fuel setTaxa a b hab
  have h3q : (countThrough t fuel setTaxa a : ℚ) + (countThrough t fuel setTaxa b : ℚ) ≤
      ((assignedHits setTaxa).length : ℚ) := by exact_mod_cast h3
  have hcf := float_above_half c hc hfloat
  have hnpos : (0 : ℚ) < ((assignedHits setTaxa).length : ℚ) := by
    obtain ⟨h, hh, h0⟩ := hone
    have : h ∈ assignedHits setTaxa := by
      unfold assignedHits
      rw [List.mem_filter]
      exact ⟨hh, by simpa using h0⟩
    exact_mod_cast List.length_pos_of_mem this
  have hcn : (1 / 2 + 1 / 2 ^ 24) * ((assignedHits setTaxa).length : ℚ) ≤
      c * ((assignedHits setTaxa).length : ℚ) := mul_le_mul_of_nonneg_right hcf (le_of_lt hnpos)
  norm_num at hcn h1 h2
  nlinarith

/-- C27: for a hit list whose assigned hits all have the weight `1`, with at
least one assigned hit and fewer than `2^64` members, a well-formed tree in
which the hits resolve, and a cutoff above one half that is a `float` value (the
type of the parameter `majorityCutoff`): with enough fuel `selectTaxForSet`
returns, any two nodes whose accumulated fraction meets the cutoff lie on one
lineage, and a non-zero returned taxon meets the cutoff and so lies on one
lineage with every node that meets it. -/
theorem C27_cutoff_nodes_on_one_lineage (t : NcbiTaxonomy) (setTaxa : List taxHit)
    (majorityCutoff : ℚ) (hwf : WellFormed t) (hres : Resolves t setTaxa)
    (hu : UniformWeights setTaxa) (hone : ∃ h ∈ setTaxa, h.taxon ≠ 0)
    (hsize : setTaxa.length < 2 ^ 64) (hc : 1 / 2 < majorityCutoff)
    (hfloat : toFloat majorityCutoff = FloatVal.fin majorityCutoff) :
    ∃ fuel0, ∀ fuel, fuel0 ≤ fuel →
      ∃ acc res, accumulate t fuel AccState.init setTaxa = Outcome.ok acc ∧
        selectTaxForSet t fuel setTaxa majorityCutoff = Outcome.ok res ∧
        (∀ a b, MeetsCutoff majorityCutoff acc a → MeetsCutoff majorityCutoff acc b →
          OnOneLineage t fuel a b) ∧
        (res.selctedTaxon ≠ 0 → MeetsCutoff majorityCutoff acc res.selctedTaxon ∧
          ∀ k, MeetsCutoff majorityCutoff acc k → OnOneLineage t fuel res.selctedTaxon k) := by
  obtain ⟨f0, hf0⟩ := exists_fuelSuffices t hwf.2 setTaxa hres
  refine ⟨f0, fun fuel hfuel => ?_⟩
  have hf := hf0 fuel hfuel
  have hw := weightsConvertible_of_whole setTaxa (weightsWhole_of_uniform setTaxa hu)
  obtain ⟨res, hsel⟩ := selectTaxForSet_returns t fuel setTaxa majorityCutoff hw hf
  have hacc := accumulate_eq t fuel setTaxa AccState.init hw hf
  have hpair := meetsCutoff_onOneLineage t fuel setTaxa majorityCutoff hu hone hsize hc hfloat
  refine ⟨accPure t fuel AccState.init setTaxa, res, hacc, hsel, hpair, fun hne => ?_⟩
  obtain ⟨acc, _, v, _, ha, _, _, hfind, _, _, _, hge, _⟩ :=
    selected_chosen t fuel setTaxa majorityCutoff res hsel hne
  rw [hacc] at ha
  cases ha
  have hm : MeetsCutoff majorityCutoff (accPure t fuel AccState.init setTaxa) res.selctedTaxon :=
    ⟨v, hfind, Or.inl hge⟩
  exact ⟨hm, fun k hk => hpair _ _ hm hk⟩

theorem C27_cutoff_nodes_on_one_lineage_witness :
    selectTaxForSet sampleTree 10 [⟨11, 1, 1⟩, ⟨0, 1, 5⟩, ⟨11, 1, 1⟩, ⟨21, 1, 1⟩] (5 / 8) =
        Outcome.ok ⟨11, 3, 1, 2, FloatVal.fin (2 / 3)⟩ ∧
      ∃ fuel0, ∀ fuel, fuel0 ≤ fuel →
        ∃ acc res, accumulate sampleTree fuel AccState.init
            [⟨11, 1, 1⟩, ⟨0, 1, 5⟩, ⟨11, 1, 1⟩, ⟨21, 1, 1⟩] = Outcome.ok acc ∧
          selectTaxForSet sampleTree fuel [⟨11, 1, 1⟩, ⟨0, 1, 5⟩, ⟨11, 1, 1⟩, ⟨21, 1, 1⟩]
            (5 / 8) = Outcome.ok res ∧
          (∀ a b, MeetsCutoff (5 / 8) acc a → MeetsCutoff (5 / 8) acc b →
            OnOneLineage sampleTree fuel a b) ∧
          (res.selctedTaxon ≠ 0 → MeetsCutoff (5 / 8) acc res.selctedTaxon ∧
            ∀ k, MeetsCutoff (5 / 8) acc k → OnOneLineage sampleTree fuel res.selctedTaxon k) :=
  have hres : Resolves sampleTree [⟨11, 1, 1⟩, ⟨0, 1, 5⟩, ⟨11, 1, 1⟩, ⟨21, 1, 1⟩] := by
    intro h hh h0
    simp only [List.mem_cons, List.mem_singleton, List.not_mem_nil, or_false] at hh
    rcases hh with rfl | rfl | rfl | rfl
    · rfl
    · exact absurd rfl h0
    · rfl
    · rfl
  have hu : UniformWeights [⟨11, 1, 1⟩, ⟨0, 1, 5⟩, ⟨11, 1, 1⟩, ⟨21, 1, 1⟩] := by
    intro h hh h0
    simp only [List.mem_cons, List.mem_singleton, List.not_mem_nil, or_false] at hh
    rcases hh with rfl | rfl | rfl | rfl
    · rfl
    · exact absurd rfl h0
    · rfl
    · rfl
  ⟨by with_unfolding_all decide,
    C27_cutoff_nodes_on_one_lineage sampleTree _ (5 / 8) sampleTree_wellFormed hres hu
      ⟨⟨11, 1, 1⟩, List.mem_cons_self _ _, by decide⟩ (by simp) (by norm_num)
      (by with_unfolding_all decide)⟩

/-! ## The rounded percent of a record -/

/-- On a non-negative value `roundf` is the floor of the value plus one half. -/
theorem roundf_eq_floor (x : ℚ) (hx : 0 ≤ x) : roundf x = ((⌊x + 1 / 2⌋ : Int) : ℚ) := by
  have hnum : (0 : Int) ≤ x.num := Rat.num_nonneg.mpr hx
  have hden : (0 : ℚ) < (x.den : ℚ) := by exact_mod_cast x.den_pos
  have hsum : x + 1 / 2 = ((2 * x.num + (x.den : Int) : Int) : ℚ) / ((2 * x.den : Nat) : ℚ) := by
    have hxd : x = (x.num : ℚ) / (x.den : ℚ) := (Rat.num_div_den x).symm
    push_cast
    field_simp
    nth_rewrite 1 [hxd]
    field_simp
    ring
  unfold roundf
  rw [if_pos hx, hsum, Rat.floor_intCast_div_natCast,
    Int.tdiv_eq_ediv (by omega) (by omega)]
  push_cast
  rfl

/-- The value of `roundf` differs from a non-negative argument by at most one half. -/
theorem roundf_near (x : ℚ) (hx : 0 ≤ x) : |roundf x - x| ≤ 1 / 2 := by
  rw [roundf_eq_floor x hx]
  have h1 := Int.floor_le (x + 1 / 2)
  have h2 := Int.lt_floor_add_one (x + 1 / 2)
  rw [abs_le]
  constructor <;> linarith

/-- The percent of a record when the conversion to `float` of the `double`
product `p * 100` keeps the integer that `roundf` gives. -/
theorem roundedPercent_of_same_round (p d y : ℚ) (hd : toDouble (p * 100) = FloatVal.fin d)
    (hy : toFloat d = FloatVal.fin y) (hround : roundf y = roundf (p * 100)) :
    roundedPercent (FloatVal.fin p) = toFloat (roundf (p * 100) / 100) := by
  unfold roundedPercent
  simp only [hd, hy, hround]

/-- The function `roundf` gives the same integer for two values that are not
negative and nearer to one another than the first is to any half-integer. -/
theorem roundf_eq_of_near (x y δ : ℚ) (hx : 0 ≤ x) (hy : 0 ≤ y) (hnear : |y - x| < δ)
    (hfar : ∀ k : Int, δ ≤ |x - ((k : ℚ) + 1 / 2)|) : roundf y = roundf x := by
  rw [roundf_eq_floor x hx, roundf_eq_floor y hy]
  have h1 := Int.floor_le (x + 1 / 2)
  have h2 := Int.lt_floor_add_one (x + 1 / 2)
  obtain ⟨m, hm⟩ : ∃ m : Int, ⌊x + 1 / 2⌋ = m := ⟨_, rfl⟩
  rw [hm] at h1 h2 ⊢
  have f1 := hfar (m - 1)
  have f2 := hfar m
  push_cast at f1
  rw [abs_of_nonneg (by linarith)] at f1
  rw [abs_of_nonpos (by linarith)] at f2
  rw [abs_lt] at hnear
  have hfl : ⌊y + 1 / 2⌋ = m := by
    rw [Int.floor_eq_iff]
    constructor <;> linarith [hnear.1, hnear.2]
  rw [hfl]

/-- The percent of a record for a value from `0` to `1` whose hundredfold is at
a distance of at least `2^-17` from every half-integer. -/
theorem roundedPercent_of_far (p : ℚ) (hlo : 0 ≤ p) (hhi : p ≤ 1)
    (hfar : ∀ k : Int, 1 / 2 ^ 17 ≤ |p * 100 - ((k : ℚ) + 1 / 2)|) :
    roundedPercent (FloatVal.fin p) = toFloat (roundf (p * 100) / 100) := by
  have hx : (0 : ℚ) ≤ p * 100 := by positivity
  obtain ⟨d, y, hd, hy, hy0, hnear⟩ := toFloat_toDouble_small (p * 100) hx (by linarith)
  exact roundedPercent_of_same_round p d y hd hy
    (roundf_eq_of_near (p * 100) y (1 / 2 ^ 17) hx hy0 hnear hfar)

/-- The product is rounded twice, to `double` and then to `float`: for the
`double` `p = 4548635451845509/2^53 = 0.50499998...` the exact product
`100 p` is nearer to the `float` below `50.5` than to `50.5`, but the `double`
product lies half-way between the two and its conversion to `float` is `50.5`,
which `roundf` takes to `51`. -/
theorem roundedPercent_rounds_twice :
    toDouble (4548635451845509 / 9007199254740992) =
        FloatVal.fin (4548635451845509 / 9007199254740992) ∧
      toFloat (4548635451845509 / 9007199254740992 * 100) = FloatVal.fin (13238271 / 262144) ∧
      toDouble (4548635451845509 / 9007199254740992 * 100) =
        FloatVal.fin (26476543 / 524288) ∧
      toFloat (26476543 / 524288) = FloatVal.fin (101 / 2) ∧
      roundf (4548635451845509 / 9007199254740992 * 100) = 50 ∧
      roundedPercent (FloatVal.fin (4548635451845509 / 9007199254740992)) =
        toFloat (51 / 100) := by
  refine ⟨?_, ?_, ?_, ?_, ?_, ?_⟩ <;> with_unfolding_all rfl

/-- C21 as stated fails: for `p = 11660165/2^24 = 0.69499999...`, the percent
that `selectTaxForSet` returns for two hits on species `11` and two on species
`21` of the sample tree, the nearest hundredth is `0.69`, but the product
`100 p`, which is a `double`, converted to `float` is `69.5`, `roundf` gives
`70`, and both records carry the percent field of `0.7`. -/
theorem C21_counterexample :
    selectTaxForSet sampleTree 10
        [⟨11, 1, 0⟩, ⟨11, 1, 11660165 / 16777216⟩, ⟨21, 1, 0⟩, ⟨21, 1, 5117051 / 16777216⟩]
        (1 / 2) = Outcome.ok ⟨11, 4, 0, 2, FloatVal.fin (11660165 / 16777216)⟩ ∧
      (0 : ℚ) ≤ 11660165 / 16777216 ∧ (11660165 / 16777216 : ℚ) ≤ 1 ∧
      roundf (11660165 / 16777216 * 100) / 100 = 69 / 100 ∧
      toDouble (11660165 / 16777216 * 100) = FloatVal.fin (11660165 / 16777216 * 100) ∧
      toFloat (11660165 / 16777216 * 100) = FloatVal.fin (139 / 2) ∧
      roundedPercent (FloatVal.fin (11660165 / 16777216)) = toFloat (70 / 100) ∧
      aggregateRecord sampleRecordEnv sampleTree [] 0
          ⟨11, 4, 0, 2, FloatVal.fin (11660165 / 16777216)⟩ =
        "11\tspecies\tA\t4\t4\t2\t0.7\n" ∧
      aggregateRecord sampleRecordEnv sampleTree [] 0
          ⟨0, 4, 0, 0, FloatVal.fin (11660165 / 16777216)⟩ =
        "0\tno rank\tunclassified\t4\t4\t0\t0.7\n" ∧
      sampleSstrFloat (toFloat (69 / 100)) = "0.69" := by
  refine ⟨?_, by norm_num, by norm_num, ?_, ?_, ?_, ?_, ?_, ?_, ?_⟩ <;> with_unfolding_all rfl

/-- C21, amended: for `p` in `[0, 1]` such that `100 p` is at a distance of at
least `2^-17` from every half-integer `k + 1/2`, the seventh field of the
record of a set without consensus and of the record of a set with a selected
node is `SSTR` of the `float` nearest to `roundf(100 p) / 100`, where
`roundf(100 p)` is a whole number from `0` to `100` and `roundf(100 p) / 100`
differs from `p` by at most `1/200`: it is `p` rounded to the nearest
hundredth.  The distance covers the two roundings of lines 264 and 285, of the
product to `double` and of that `double` to `float`, which move a value up to
`100` by less than `2^-17`. -/
theorem C21_percent_field (env : RecordEnv) (t : NcbiTaxonomy) (ranks : List String)
    (showTaxLineage : Int) (res0 res1 : SetResult) (node1 : TaxonNode) (p : ℚ)
    (h0 : res0.selctedTaxon = 0 ∨ t.taxonNode res0.selctedTaxon = none)
    (h1 : res1.selctedTaxon ≠ 0) (hn1 : t.taxonNode res1.selctedTaxon = some node1)
    (hint : ∀ i, NoTab (env.sstrInt i)) (hsize : ∀ n, NoTab (env.sstrSize n))
    (hfloat : ∀ q, NoTab (env.sstrFloat q)) (hrank : NoTab node1.rank)
    (hname : NoTab node1.name) (hlca : NoTab (env.lcaRanks node1 ranks))
    (hlin : ∀ b, NoTab (env.taxLineage node1 b))
    (hp0 : res0.selectedPercent = FloatVal.fin p) (hp1 : res1.selectedPercent = FloatVal.fin p)
    (hlo : 0 ≤ p) (hhi : p ≤ 1)
    (hfar : ∀ k : Int, 1 / 2 ^ 17 ≤ |p * 100 - ((k : ℚ) + 1 / 2)|) :
    (recordFields (aggregateRecord env t ranks showTaxLineage res0))[6]? =
        some (env.sstrFloat (toFloat (roundf (p * 100) / 100))) ∧
      (recordFields (aggregateRecord env t ranks showTaxLineage res1))[6]? =
        some (env.sstrFloat (toFloat (roundf (p * 100) / 100))) ∧
      (∃ k : Int, roundf (p * 100) = (k : ℚ) ∧ 0 ≤ k ∧ k ≤ 100) ∧
      |roundf (p * 100) / 100 - p| ≤ 1 / 200 := by
  have hx : (0 : ℚ) ≤ p * 100 := by positivity
  have hrp := roundedPercent_of_far p hlo hhi hfar
  refine ⟨?_, ?_, ?_, ?_⟩
  · rw [aggregateRecord_noConsensus env t ranks showTaxLineage res0 h0,
      recordFields_append_newline,
      noConsensusText_fields env ranks showTaxLineage _ _ _ _ hint hsize hfloat, hp0, hrp,
      List.getElem?_append_left (by simp)]
    rfl
  · rw [aggregateRecord_consensus env t ranks showTaxLineage res1 node1 h1 hn1,
      recordFields_append_newline,
      consensusText_fields env ranks showTaxLineage node1 _ _ _ _ hint hsize hfloat hrank
        hname hlca hlin, hp1, hrp, List.append_assoc, List.append_assoc,
      List.getElem?_append_left (by simp)]
    rfl
  · refine ⟨⌊p * 100 + 1 / 2⌋, roundf_eq_floor _ hx, ?_, ?_⟩
    · exact Int.floor_nonneg.mpr (by linarith)
    · have h2 : p * 100 + 1 / 2 < 101 := by linarith
      have h3 : ⌊p * 100 + 1 / 2⌋ < 101 := Int.floor_lt.mpr (by exact_mod_cast h2)
      omega
  · have h2 := roundf_near (p * 100) hx
    rw [abs_le] at h2 ⊢
    constructor <;> linarith [h2.1, h2.2]

/-- C21, amended, at a concrete input: `p = 0.6667` on the sample tree, in the
record of a set without consensus and in the record of a set with the selected
species `11`; with the sample `SSTR` the field reads `0.67`. -/
theorem C21_percent_field_witness :
    sampleSstrFloat (toFloat (roundf (6667 / 10000 * 100) / 100)) = "0.67" ∧
      (recordFields (aggregateRecord sampleRecordEnv sampleTree ["genus"] 1
        ⟨0, 3, 0, 0, FloatVal.fin (6667 / 10000)⟩))[6]? =
          some (sampleSstrFloat (toFloat (roundf (6667 / 10000 * 100) / 100))) ∧
      (recordFields (aggregateRecord sampleRecordEnv sampleTree ["genus"] 1
        ⟨11, 3, 0, 2, FloatVal.fin (6667 / 10000)⟩))[6]? =
          some (sampleSstrFloat (toFloat (roundf (6667 / 10000 * 100) / 100))) ∧
      (∃ k : Int, roundf (6667 / 10000 * 100) = (k : ℚ) ∧ 0 ≤ k ∧ k ≤ 100) ∧
      |roundf (6667 / 10000 * 100) / 100 - 6667 / 10000| ≤ (1 / 200 : ℚ) :=
  have hfar : ∀ k : Int, (1 : ℚ) / 2 ^ 17 ≤ |6667 / 10000 * 100 - ((k : ℚ) + 1 / 2)| := by
    intro k
    rcases le_or_lt k 66 with h | h
    · have hq : (k : ℚ) ≤ 66 := by exact_mod_cast h
      rw [abs_of_nonneg (by linarith)]
      norm_num
      linarith
    · have hq : (67 : ℚ) ≤ (k : ℚ) := by exact_mod_cast h
      rw [abs_of_nonpos (by linarith)]
      norm_num
      linarith
  ⟨by with_unfolding_all rfl,
    C21_percent_field sampleRecordEnv sampleTree ["genus"] 1
      ⟨0, 3, 0, 0, FloatVal.fin (6667 / 10000)⟩ ⟨11, 3, 0, 2, FloatVal.fin (6667 / 10000)⟩
      ⟨11, 10, "species", "A"⟩ (6667 / 10000) (Or.inl rfl) (by decide) rfl
      noTab_sampleSstrInt noTab_sampleSstrSize noTab_sampleSstrFloat
      (by unfold NoTab; decide) (by unfold NoTab; decide) (by unfold NoTab; decide)
      (fun b => by cases b <;> (unfold NoTab; decide)) rfl rfl (by norm_num) (by norm_num)
      hfar⟩

end AggregateTax
